import Mathlib

/-!
# esp-link-v4: the Intel-HEX page parser and the Optiboot programming engine

A shallow embedding of `src/AVRFlash/HexRecord.{h,cpp}` and
`src/AVRFlash/AVRFlash.{h,cpp}`.

Conventions of the embedding

* Bytes and machine integers are `Nat`; a wrap-around of the C type is written
  `% 256`, `% 65536` or `% 4294967296` where the source value can exceed the type.
* A `(pointer, length)` pair of the source is a list together with the length;
  a read past the end of the list yields `0` (the string terminator).
* `_saved` is the text before the string terminator that `_write` keeps at
  index `saveLen`; `strlen` is the length of `cstr`.  The terminator written at index 128
  of a full buffer is taken to stay in place.
* The circular list of `FlashPage`s hanging off `_lastPage` is the list of its
  nodes starting at `_lastPage->next`; the null pointer is the empty list.
* Function pointers and their untyped arguments are numbers, `0` is the null
  pointer.  Every call through a function pointer is appended to `calls`.
* `heap` is the allocator seen from `addPage`: the outcomes of the coming
  `calloc` calls, in order; when the list is used up `calloc` succeeds.
* Only the fixed text of a `sprintf` format (up to its first conversion) is
  stored in `_errMessage`; `DBG` output is not modelled.
* The hardware seen by the engine is part of its state: the bytes written to
  the UART (`uartTx`), the bytes waiting in its receive buffer (`uartRx`), the
  baud divider register (`usd0`), the reset pulses issued (`resetPulses`) and
  the one-shot timer (`timer`).  `millis()` is the argument `now` of a tick;
  `char` is unsigned on the target.
* The engine also keeps `events`: the bytes it writes to the UART and the calls
  it makes through `_resume` and `_doneCB`, in the order in which the program
  performs them.
-/

namespace EspLink

/-! ## HexRecord.h -/

/-- FlashPage describes a page of flash to be programmed. -/
structure FlashPage where
  len : Nat
  addr : Nat
  data : List Nat
deriving DecidableEq, Repr

/-- The parser state `struct HexRecord`, with the allocator and the record of
calls made through function pointers. -/
structure HexRecord where
  _saved : List Nat
  _pageBuf : List Nat
  _pageLen : Nat
  _address : Nat
  _lastPage : List FlashPage
  _stop : Nat
  _stopArg : Nat
  _resume : Nat
  _resumeArg : Nat
  _pageSz : Nat
  _pgmDone : Nat
  _startTime : Nat
  _eof : Bool
  _errMessage : String
  _mega : Bool
  heap : List Bool
  calls : List (Nat × Nat)
deriving DecidableEq, Repr

/-- The constructor `HexRecord(pageSize)`; both `calloc`s of the constructor are
taken to succeed, `heap` is the allocator left for `addPage`. -/
def HexRecord.new (pageSize : Nat) (heap : List Bool) : HexRecord :=
  { _saved := []
    _pageBuf := List.replicate (pageSize + pageSize / 2) 0
    _pageLen := 0
    _address := 0
    _lastPage := []
    _stop := 0
    _stopArg := 0
    _resume := 0
    _resumeArg := 0
    _pageSz := pageSize % 65536
    _pgmDone := 0
    _startTime := 0
    _eof := false
    _errMessage := ""
    _mega := false
    heap := heap
    calls := [] }

/-- The test `_errMessage[0] != 0`. -/
def HexRecord.hasError (h : HexRecord) : Bool :=
  h._errMessage != ""

/-! ## HexRecord.cpp -/

/-- One character passes the test of `checkHex`. -/
def isHexChar (c : Nat) : Bool :=
  (48 ≤ c && c ≤ 57) || (65 ≤ c && c ≤ 70) || (97 ≤ c && c ≤ 102)

/-- The function `checkHex`: verify that `len` chars are hex characters. -/
def HexRecord.checkHex : List Nat → Nat → Bool
  | _, 0 => true
  | [], _ + 1 => false
  | c :: buf, len + 1 => if isHexChar c then HexRecord.checkHex buf len else false

/-- The loop of `getHexValue` with its accumulator `v` (a `uint32_t`). -/
def HexRecord.getHexValueFrom (v : Nat) : List Nat → Nat → Nat
  | _, 0 => v
  | [], len + 1 => HexRecord.getHexValueFrom ((v <<< 4) % 4294967296) [] len
  | c :: buf, len + 1 =>
    let v1 := ((v <<< 4) % 4294967296) ||| (c &&& 15)
    let v2 := if c > 57 then (v1 + 9) % 4294967296 else v1
    HexRecord.getHexValueFrom v2 buf len

/-- The function `getHexValue`: get hex value of some hex characters. -/
def HexRecord.getHexValue (buf : List Nat) (len : Nat) : Nat :=
  HexRecord.getHexValueFrom 0 buf len

/-- The loop of `verifyChecksum` with its accumulator `sum` (a `uint8_t`);
`fuel` bounds the number of rounds and is given as `len`. -/
def HexRecord.checksumFrom (sum : Nat) : Nat → List Nat → Nat → Nat
  | 0, _, _ => sum
  | fuel + 1, buf, len =>
    if len ≥ 2 then
      HexRecord.checksumFrom ((sum + HexRecord.getHexValue buf 2 % 256) % 256) fuel
        (buf.drop 2) (len - 2)
    else sum

/-- The function `verifyChecksum`. -/
def HexRecord.verifyChecksum (buf : List Nat) (len : Nat) : Bool :=
  HexRecord.checksumFrom 0 len buf len == 0

/-- The function `addPage`: appends a page to the list of pages to be programmed. -/
def HexRecord.addPage (h : HexRecord) : HexRecord :=
  if h.heap.headD true = false then
    { h with heap := h.heap.tail, _errMessage := "out of memory" }
  else
    { h with
      heap := h.heap.tail
      _lastPage := h._lastPage ++
        [{ len := h._pageLen, addr := h._address, data := h._pageBuf.take h._pageLen }]
      _pageLen := 0 }

/-- The `for` loop of the data case of `processRecord`: `recLen - i` bytes are
still to be stored, `buf` points at the first of them. -/
def HexRecord.appendRecord (h : HexRecord) : List Nat → Nat → HexRecord
  | _, 0 => h
  | buf, n + 1 =>
    HexRecord.appendRecord
      { h with
        _pageBuf := h._pageBuf.set h._pageLen (HexRecord.getHexValue buf 2 % 256)
        _pageLen := (h._pageLen + 1) % 65536 }
      (buf.drop 2) n

/-- The function `processRecord(buf, len)`: parses a hex record and typically
appends to a flashPage.  It is only called with `buf = _saved`, which is where
the record is read from. -/
def HexRecord.processRecord (h : HexRecord) (len : Nat) : Bool × HexRecord :=
  let buf := h._saved.drop 1
  let len := len - 1
  if !HexRecord.checkHex buf len then
    (false, { h with _errMessage := "Invalid hex character found" })
  else if !HexRecord.verifyChecksum buf len then
    (false, { h with
      _saved := h._saved.set (1 + (if len > 32 then 32 else len)) 0
      _errMessage := "Invalid checksum for record " })
  else
    let type := HexRecord.getHexValue (buf.drop 6) 2 % 256
    if type = 0 then
      let addr := HexRecord.getHexValue (buf.drop 2) 4
      let h1 :=
        if h._pageLen > 0 ∧ addr ≠ (h._address + h._pageLen) % 4294967296 &&& 65535 then
          h.addPage
        else h
      let h2 :=
        if h1._pageLen = 0 then
          { h1 with _address := (h1._address &&& 4294901760) ||| addr }
        else h1
      let recLen := HexRecord.getHexValue buf 2 % 65536
      let h3 := h2.appendRecord (buf.drop 8) recLen
      (true, if h3._pageLen ≥ h3._pageSz then h3.addPage else h3)
    else if type = 1 then
      let h1 := if h._pageLen > 0 then h.addPage else h
      (true, { h1 with _eof := true })
    else if type = 4 then
      let h1 := if h._pageLen > 0 then h.addPage else h
      (true, { h1 with _address := (HexRecord.getHexValue (buf.drop 8) 4 <<< 16) % 4294967296 })
    else if type = 5 then
      (true, h)
    else if type = 2 then
      (true, h)
    else
      (false, { h with _errMessage := "Invalid/unknown record type: 0x" })

/-- Carriage return or line feed, the characters `_write` skips before a record. -/
def isCRLF (c : Nat) : Bool :=
  c == 10 || c == 13

/-- The C string held in a buffer: the bytes before the first `0`. -/
def cstr (buf : List Nat) : List Nat :=
  buf.takeWhile (fun c => c != 0)

/-- The inner loop `while (saveLen >= 11)` of `_write`; `saveLen` is the length
of `_saved`.  The result is `false` where the source executes `return 0`, and
`true` where the loop is left by its condition or by `break`.  Every round that
continues removes at least 11 characters, so `fuel = saveLen` rounds are never
used up. -/
def HexRecord.processSaved (qEmpty : Bool) : Nat → HexRecord → Bool × HexRecord
  | 0, h => (true, h)
  | fuel + 1, h =>
    if h._saved.length ≥ 11 then
      let skip := (h._saved.takeWhile isCRLF).length
      let h1 := if skip > 0 then { h with _saved := h._saved.drop skip } else h
      if skip > 0 ∧ h1._saved.length < 11 then (true, h1)
      else if h1._saved.headD 0 ≠ 58 then
        (false, { h1 with _errMessage := "Expected start of record in POST data, got " })
      else if !HexRecord.checkHex (h1._saved.drop 1) 2 then (false, h1)
      else
        let recLen := HexRecord.getHexValue (h1._saved.drop 1) 2 % 256
        if h1._saved.length < 11 + recLen * 2 then (true, h1)
        else
          match h1.processRecord (11 + recLen * 2) with
          | (false, h2) => (false, h2)
          | (true, h2) =>
            let h3 :=
              if qEmpty = true ∧ h2._lastPage ≠ [] then
                { h2 with calls := h2.calls ++ [(h2._stop, h2._stopArg)] }
              else h2
            HexRecord.processSaved qEmpty fuel
              { h3 with _saved := h3._saved.drop (11 + recLen * 2) }
    else (true, h)

/-- The outer loop `while (len > 0)` of `_write`; `data` is what is left of the
input, `ret` the value to return on success.  `none` means that `fuel` rounds
did not reach a `return`.  (The `short` arithmetic of the source does not wrap
for `_pageSz < 32768`; `AVRFlash` uses 128.) -/
def HexRecord.writeLoop (qEmpty : Bool) (ret : Nat) :
    Nat → List Nat → HexRecord → Option (Nat × HexRecord)
  | 0, _, _ => none
  | fuel + 1, data, h =>
    if data.length > 0 then
      let saved := cstr h._saved
      let saveLen := saved.length
      let cpy := if h._pageSz - saveLen > data.length then data.length else h._pageSz - saveLen
      let saved1 := if saveLen < h._pageSz then saved ++ data.take cpy else saved
      let data1 := if saveLen < h._pageSz then data.drop cpy else data
      match HexRecord.processSaved qEmpty saved1.length { h with _saved := saved1 } with
      | (false, h1) => some (0, h1)
      | (true, h1) => HexRecord.writeLoop qEmpty ret fuel data1 h1
    else some (ret, h)

/-- The function `_write(data, len)`; `size_t` and `uint32_t` are both 32 bits
wide on the target, so `ret = len`. -/
def HexRecord._write (h : HexRecord) (data : List Nat) (fuel : Nat) :
    Option (Nat × HexRecord) :=
  HexRecord.writeLoop (h._lastPage == []) data.length fuel data h

/-- The function `write(data, len, stop, resume, cbArg)` of HexRecord.h. -/
def HexRecord.write (h : HexRecord) (data : List Nat) (stop resume cbArg : Nat)
    (fuel : Nat) : Option (Nat × HexRecord) :=
  if h.hasError then some (0, h)
  else
    HexRecord._write
      { h with _stop := stop, _stopArg := cbArg, _resume := resume, _resumeArg := cbArg }
      data fuel

/-- The character codes of a text. -/
def ascii (s : String) : List Nat :=
  s.toList.map Char.toNat

/-! ## stk500.h -/

/-- Modelled from the spec: stk500.h is not among the sources; the response
marker "ok" of the STK500 protocol. -/
def STK_OK : Nat := 0x10

/-- Modelled from the spec: stk500.h is not among the sources; the response
marker "in-sync" of the STK500 protocol. -/
def STK_INSYNC : Nat := 0x14

/-- Modelled from the spec: stk500.h is not among the sources; the
end-of-command marker of the STK500 protocol. -/
def CRC_EOP : Nat := 0x20

/-- Modelled from the spec: stk500.h is not among the sources; the sync request. -/
def STK_GET_SYNC : Nat := 0x30

/-- Modelled from the spec: stk500.h is not among the sources; get-parameter. -/
def STK_GET_PARAMETER : Nat := 0x41

/-- Modelled from the spec: stk500.h is not among the sources;
leave-programming-mode. -/
def STK_LEAVE_PROGMODE : Nat := 0x51

/-- Modelled from the spec: stk500.h is not among the sources; load-address. -/
def STK_LOAD_ADDRESS : Nat := 0x55

/-- Modelled from the spec: stk500.h is not among the sources; program-page. -/
def STK_PROG_PAGE : Nat := 0x64

/-- Modelled from the spec: stk500.h is not among the sources; read-signature. -/
def STK_READ_SIGN : Nat := 0x75

/-- Modelled from the spec: the Arduino core is not among the sources; the
clock the UART divider is derived from. -/
def ESP8266_CLOCK : Nat := 80000000

/-! ## AVRFlash.h -/

/-- The size `RESP_SZ` of the response buffer. -/
def RESP_SZ : Nat := 64

/-- The overall programming states `enum AVRProgStates`. -/
inductive AVRProgStates where
  | stateInit
  | stateSync
  | stateGetSig
  | stateGetVersLo
  | stateGetVersHi
  | stateIdle
  | stateProg
deriving DecidableEq, Repr

open AVRProgStates

/-- What the engine does to the outside: a byte written to the UART, a call
through `_resume`, a call through `_doneCB`. -/
inductive Event where
  | tx (b : Nat)
  | resume (f arg : Nat)
  | done (f arg : Nat)
deriving DecidableEq, Repr

/-- The engine `struct AVRFlash : HexRecord`, with the hardware it drives. -/
structure AVRFlash extends HexRecord where
  _progState : AVRProgStates
  _stateStart : Nat
  _baudCnt : Nat
  _ackWait : Bool
  _optibootVers : Nat
  _baudrate : Nat
  _confBaud : Nat
  _resetPin : Nat
  _doneCB : Nat
  _doneCBArg : Nat
  _responseBuf : List Nat
  _responseLen : Nat
  uartTx : List Nat
  uartRx : List Nat
  usd0 : Nat
  resetPulses : List Nat
  timer : Option Nat
  events : List Event
deriving DecidableEq, Repr

/-- The constructor `AVRFlash(uart, resetPin, baudrate)`.  The parameter
`resetPin` is a `uint8_t` and `_confBaud` a `uint32_t`: the values given by the
caller are converted to these types. -/
def AVRFlash.new (resetPin : Int) (baudrate : Int) (heap : List Bool) : AVRFlash :=
  { toHexRecord := HexRecord.new 128 heap
    _progState := stateInit
    _stateStart := 0
    _baudCnt := 0
    _ackWait := false
    _optibootVers := 0
    _baudrate := 0
    _confBaud := (baudrate % 4294967296).toNat
    _resetPin := (resetPin % 256).toNat
    _doneCB := 0
    _doneCBArg := 0
    _responseBuf := List.replicate RESP_SZ 0
    _responseLen := 0
    uartTx := []
    uartRx := []
    usd0 := 0
    resetPulses := []
    timer := none
    events := [] }

/-- The function `finish(doneCB, cbArg)` of AVRFlash.h. -/
def AVRFlash.finish (s : AVRFlash) (doneCB cbArg : Nat) : AVRFlash :=
  if s.hasError then
    { s with
      calls := s.calls ++ [(doneCB, cbArg)]
      events := s.events ++ [Event.done doneCB cbArg] }
  else { s with _doneCB := doneCB, _doneCBArg := cbArg }

/-! ## AVRFlash.cpp -/

/-- check uart every N milliseconds -/
def CB_INTERVAL : Nat := 5

/-- wait this many millisecs before sending anything -/
def INIT_DELAY : Nat := 150

/-- interval after which we change baud rate -/
def BAUD_INTERVAL : Nat := 600

/-- timeout after sync is achieved, in milliseconds -/
def PGM_TIMEOUT : Nat := 20000

/-- send sync at this interval in ms when in programming mode -/
def PGM_INTERVAL : Nat := 200

/-- number of attempts total to make -/
def ATTEMPTS : Nat := 8

/-- The table `baudrates`. -/
def baudrates : List Nat := [0, 9600, 57600, 115200]

/-- The difference `a - b` of two `uint32_t`. -/
def sub32 (a b : Nat) : Nat :=
  (a + 4294967296 - b % 4294967296) % 4294967296

/-- The library function `memmove(buf + dst, buf + src, n)` inside one buffer. -/
def memmove (buf : List Nat) (dst src n : Nat) : List Nat :=
  buf.take dst ++ (buf.drop src).take n ++ buf.drop (dst + n)

/-- One call `_uart.write(b)`. -/
def AVRFlash.uartWrite (s : AVRFlash) (b : Nat) : AVRFlash :=
  { s with uartTx := s.uartTx ++ [b % 256], events := s.events ++ [Event.tx (b % 256)] }

/-- The function `setBaudrate`. -/
def AVRFlash.setBaudrate (s : AVRFlash) (rate : Nat) : AVRFlash :=
  if rate < 1200 then s
  else { s with _baudrate := rate, usd0 := ESP8266_CLOCK / rate }

/-- The function `resetAVR`: one active-low pulse on the reset pin. -/
def AVRFlash.resetAVR (s : AVRFlash) : AVRFlash :=
  { s with resetPulses := s.resetPulses ++ [s._resetPin] }

/-- The function `armTimer`: arm the one-shot timer so we move to the next state. -/
def AVRFlash.armTimer (s : AVRFlash) (ms : Nat) : AVRFlash :=
  { s with timer := some ms }

/-- The function `sync`: initiates the flashing operation by starting the AVR
reset and sync operations. -/
def AVRFlash.sync (s : AVRFlash) : AVRFlash :=
  if (s._resetPin : Int) < 0 then
    { s with _errMessage := "No reset pin defined" }
  else
    ({ (s.setBaudrate s._confBaud).resetAVR with _progState := stateInit }).armTimer INIT_DELAY

/-- The function `abort` of AVRFlash.h. -/
def AVRFlash.abort (s : AVRFlash) : AVRFlash :=
  ({ s with _doneCB := 0, timer := none }).resetAVR

/-- The function `checkFinish`: should be called when there is an error to
trigger the _doneCB, if it has been registered. -/
def AVRFlash.checkFinish (s : AVRFlash) : AVRFlash :=
  if s._doneCB ≠ 0 then
    { s with
      calls := s.calls ++ [(s._doneCB, s._doneCBArg)]
      events := s.events ++ [Event.done s._doneCB s._doneCBArg] }
  else if !s.hasError then { s with _errMessage := "Unknown error, oops!" }
  else s

/-- The function `nextBaud`: move to next baud rate. -/
def AVRFlash.nextBaud (s : AVRFlash) : AVRFlash :=
  let s1 := s.setBaudrate
    (if s._baudCnt % 4 = 0 then s._confBaud else baudrates.getD (s._baudCnt % 4) 0)
  { s1 with _baudCnt := s1._baudCnt + 1 }

/-- The loop of `fetchUart`; it stores at most `RESP_SZ - 1 - _responseLen`
bytes, which is the `fuel` it is given. -/
def AVRFlash.fetchLoop : Nat → AVRFlash → AVRFlash
  | 0, s => s
  | fuel + 1, s =>
    if s._responseLen < RESP_SZ - 1 then
      match s.uartRx with
      | [] => s
      | ch :: rx =>
        AVRFlash.fetchLoop fuel
          { s with
            uartRx := rx
            _responseBuf := s._responseBuf.set s._responseLen ch
            _responseLen := s._responseLen + 1 }
    else s

/-- The function `fetchUart`. -/
def AVRFlash.fetchUart (s : AVRFlash) : AVRFlash :=
  let s1 := AVRFlash.fetchLoop (RESP_SZ - 1 - s._responseLen) s
  { s1 with _responseBuf := s1._responseBuf.set s1._responseLen 0 }

/-- The loop of `processAcks`; every round removes two bytes, so
`fuel = _responseLen` rounds are never used up. -/
def AVRFlash.acksLoop : Nat → AVRFlash → AVRFlash
  | 0, s => s
  | fuel + 1, s =>
    if s._responseLen ≥ 2 ∧ s._responseBuf.getD 0 0 = STK_INSYNC
        ∧ s._responseBuf.getD 1 0 = STK_OK then
      AVRFlash.acksLoop fuel
        { s with
          _ackWait := false
          _responseBuf := memmove s._responseBuf 0 2 (s._responseLen - 2)
          _responseLen := s._responseLen - 2 }
    else s

/-- The function `processAcks`. -/
def AVRFlash.processAcks (s : AVRFlash) : AVRFlash :=
  AVRFlash.acksLoop s._responseLen s

/-- The function `checkSyncAck`: looks for an ack at the end of the buffer.
Its `memcpy` moves the last `RESP_SZ/2` bytes to the front like `memmove`. -/
def AVRFlash.checkSyncAck (s0 : AVRFlash) : Bool × AVRFlash :=
  let s := s0.fetchUart
  if s._responseLen > 0 ∧ s._responseBuf.getD (s._responseLen - 1) 0 = STK_INSYNC then
    (false, { s with _responseBuf := s._responseBuf.set 0 STK_INSYNC, _responseLen := 1 })
  else if s._responseLen > 1 ∧ s._responseBuf.getD (s._responseLen - 2) 0 = STK_INSYNC
      ∧ s._responseBuf.getD (s._responseLen - 1) 0 = STK_OK then
    (true, { s with _responseLen := 0 })
  else if s._responseLen > RESP_SZ / 2 then
    (false, { s with
      _responseBuf :=
        (memmove s._responseBuf 0 (s._responseLen - RESP_SZ / 2) (RESP_SZ / 2)).set
          (RESP_SZ / 2) 0
      _responseLen := RESP_SZ / 2 })
  else (false, s)

/-- The wait loop of `programPage`.  `polls` lists, for every round of the
loop that starts before more than 2 ms have passed, the bytes that reached the
UART since the round before; when it is used up the wait has timed out. -/
def AVRFlash.waitAck : List (List Nat) → AVRFlash → Bool × AVRFlash
  | [], s =>
    if s._ackWait then (false, { s with _errMessage := "flashing failed in load address" })
    else (true, s)
  | p :: polls, s =>
    if s._ackWait then
      AVRFlash.waitAck polls ({ s with uartRx := s.uartRx ++ p }).fetchUart.processAcks
    else (true, s)

/-- The bytes `_uart.write(fp.data, fp.len)` sends. -/
def AVRFlash.uartWriteBuf (s : AVRFlash) (data : List Nat) (len : Nat) : AVRFlash :=
  { s with
    uartTx := s.uartTx ++ (data.take len).map (fun b => b % 256)
    events := s.events ++ (data.take len).map (fun b => Event.tx (b % 256)) }

/-- The function `programPage`: starts the programming of a page by sending the
address and the data. -/
def AVRFlash.programPage (s : AVRFlash) (fp : FlashPage) (polls : List (List Nat)) :
    Bool × AVRFlash :=
  if fp.len > s._pageSz then
    (false, { s with _errMessage := "Internal error: FlashPage too long" })
  else
    let addr := (fp.addr >>> 1) % 65536
    let s1 := (((s.uartWrite STK_LOAD_ADDRESS).uartWrite (addr &&& 255)).uartWrite
      (addr >>> 8)).uartWrite CRC_EOP
    match AVRFlash.waitAck polls { s1 with _ackWait := true } with
    | (false, s2) => (false, s2)
    | (true, s2) =>
      let s3 := (((s2.uartWrite STK_PROG_PAGE).uartWrite (fp.len >>> 8)).uartWrite
        (fp.len &&& 255)).uartWrite 70
      let s4 := (s3.uartWriteBuf fp.data fp.len).uartWrite CRC_EOP
      (true, { s4 with _ackWait := true })

/-- The function `parseResponse`. -/
def AVRFlash.parseResponse (s0 : AVRFlash) : Bool × AVRFlash :=
  let s := s0.fetchUart
  match s._progState with
  | stateGetSig =>
    let s := s.processAcks
    if s._responseLen < 5 then (false, s)
    else if s._responseBuf.getD 0 0 = STK_INSYNC ∧ s._responseBuf.getD 4 0 = STK_OK
        ∧ s._responseBuf.getD 1 0 = 0x1e ∧ s._responseBuf.getD 2 0 = 0x95
        ∧ s._responseBuf.getD 3 0 = 0x0f then
      let s1 := ((s.uartWrite STK_GET_PARAMETER).uartWrite 0x82).uartWrite CRC_EOP
      (true, { s1 with _progState := stateGetVersLo, _responseLen := 0 })
    else (false, { s with _errMessage := "bad programmer signature: 0x" })
  | stateGetVersLo =>
    if s._responseLen < 3 then (false, s)
    else if s._responseBuf.getD 0 0 = STK_INSYNC ∧ s._responseBuf.getD 2 0 = STK_OK then
      let s1 := { s with _optibootVers := s._responseBuf.getD 1 0 }
      let s2 := ((s1.uartWrite STK_GET_PARAMETER).uartWrite 0x81).uartWrite CRC_EOP
      (true, { s2 with _progState := stateGetVersHi, _responseLen := 0 })
    else (false, { s with _errMessage := "did not get optiboot version low" })
  | stateGetVersHi =>
    if s._responseLen < 3 then (false, s)
    else if s._responseBuf.getD 0 0 = STK_INSYNC ∧ s._responseBuf.getD 2 0 = STK_OK then
      (true, { s with
        _optibootVers := (s._optibootVers ||| (s._responseBuf.getD 1 0 <<< 8)) % 65536
        _progState := stateIdle
        _responseLen := 0 })
    else (false, { s with _errMessage := "did not get optiboot version high" })
  | _ => (false, s)

/-- The function `timerCB`: timer callback that drives pretty much everything
else.  `now` is the value of `millis()` during the call (a `uint32_t`), `polls`
is what the wait loop of `programPage` sees (see `waitAck`). -/
def AVRFlash.timerCB (s : AVRFlash) (now : Nat) (polls : List (List Nat)) : AVRFlash :=
  let now := now % 4294967296
  match s._progState with
  | stateInit =>
    let s1 := (s.uartWrite STK_GET_SYNC).uartWrite CRC_EOP
    ({ s1 with _progState := stateSync, _stateStart := now }).armTimer CB_INTERVAL
  | stateSync =>
    match s.checkSyncAck with
    | (true, s1) =>
      let s2 := (s1.uartWrite STK_READ_SIGN).uartWrite CRC_EOP
      ({ s2 with _progState := stateGetSig, _stateStart := now, _startTime := now }).armTimer
        CB_INTERVAL
    | (false, s1) =>
      if sub32 now s1._stateStart < BAUD_INTERVAL - INIT_DELAY then s1.armTimer CB_INTERVAL
      else if s1._baudCnt > ATTEMPTS then
        ({ s1 with _errMessage := "sync abandoned after " }).checkFinish
      else
        ({ s1.nextBaud.resetAVR with _progState := stateInit }).armTimer INIT_DELAY
  | stateIdle =>
    let s1 := s.fetchUart.processAcks
    match s1._lastPage with
    | fp :: rest =>
      let s2 :=
        if rest = [] then
          let s2 := { s1 with _lastPage := [] }
          if s2._resume ≠ 0 then
            { s2 with
              calls := s2.calls ++ [(s2._resume, s2._resumeArg)]
              events := s2.events ++ [Event.resume s2._resume s2._resumeArg] }
          else s2
        else { s1 with _lastPage := rest }
      let s3 := (s2.programPage fp polls).2
      ({ s3 with _progState := stateProg, _stateStart := now }).armTimer CB_INTERVAL
    | [] =>
      if s1._doneCB ≠ 0 then
        let s2 := (s1.uartWrite STK_LEAVE_PROGMODE).uartWrite CRC_EOP
        { s2 with
          calls := s2.calls ++ [(s2._doneCB, s2._doneCBArg)]
          events := s2.events ++ [Event.done s2._doneCB s2._doneCBArg] }
      else if sub32 now s1._startTime > PGM_TIMEOUT then
        ({ s1 with _errMessage := "programming time-out" }).checkFinish
      else
        let s2 :=
          if sub32 now s1._stateStart > PGM_INTERVAL then
            let s2 := (s1.uartWrite STK_GET_SYNC).uartWrite CRC_EOP
            { s2 with _ackWait := true, _stateStart := now }
          else s1
        s2.armTimer CB_INTERVAL
  | stateProg =>
    let s1 := s.fetchUart.processAcks
    if !s1._ackWait then
      let s2 := { s1 with _progState := stateIdle, _stateStart := now }
      let s3 := (s2.uartWrite STK_GET_SYNC).uartWrite CRC_EOP
      ({ s3 with _ackWait := true }).armTimer CB_INTERVAL
    else if sub32 now s1._stateStart > PGM_INTERVAL then
      ({ s1 with _errMessage := "no response to page programming command" }).checkFinish
    else s1.armTimer CB_INTERVAL
  | _ =>
    match s.parseResponse with
    | (true, s1) => ({ s1 with _stateStart := now }).armTimer CB_INTERVAL
    | (false, s1) =>
      if s1.hasError then s1.checkFinish
      else if sub32 now s1._stateStart > PGM_INTERVAL then
        ({ s1 with _errMessage := "no response in state " }).checkFinish
      else s1.armTimer CB_INTERVAL

/-- One expiry of the one-shot timer: the timer is no longer armed and
`timerCB` runs.  Nothing happens while the timer is not armed. -/
def AVRFlash.tick (s : AVRFlash) (now : Nat) (polls : List (List Nat)) : AVRFlash :=
  match s.timer with
  | none => s
  | some _ => AVRFlash.timerCB { s with timer := none } now polls

/-- The function `write` called on the engine, which inherits it from
`HexRecord`. -/
def AVRFlash.write (s : AVRFlash) (data : List Nat) (stop resume cbArg : Nat)
    (fuel : Nat) : Option (Nat × AVRFlash) :=
  (s.toHexRecord.write data stop resume cbArg fuel).map
    (fun r => (r.1, { s with toHexRecord := r.2 }))

/-- A run in which the device never sends a byte and every timer expires on
time: at most `n` expiries, starting at time `now`. -/
def AVRFlash.runSilent : Nat → Nat → AVRFlash → AVRFlash
  | 0, _, s => s
  | n + 1, now, s =>
    match s.timer with
    | none => s
    | some ms => AVRFlash.runSilent n (now + ms) (s.tick (now + ms) [])

/-- The text of a hex file given by its lines, each ended by a line feed. -/
def hexLines (ls : List String) : List Nat :=
  ls.foldr (fun l acc => ascii l ++ 10 :: acc) []

/-- Bytes reaching the receive buffer of the UART. -/
def AVRFlash.receive (s : AVRFlash) (bytes : List Nat) : AVRFlash :=
  { s with uartRx := s.uartRx ++ bytes }

/-- Three one-byte data records at 0x0000, 0x0200 and 0x0300, then end-of-file. -/
def gapFile : List Nat :=
  hexLines [":0100000000FF", ":0102000000FD", ":0103000000FC", ":00000001FF"]

/-- Three contiguous data records of 48 zero bytes each, at 0x0000, 0x0030 and
0x0060. -/
def wideFile : List Nat :=
  hexLines
    [":30000000000000000000000000000000000000000000000000000000000000000000000000000000000000000000000000000000D0",
     ":30003000000000000000000000000000000000000000000000000000000000000000000000000000000000000000000000000000A0",
     ":3000600000000000000000000000000000000000000000000000000000000000000000000000000000000000000000000000000070"]

/-- One data record of 16 bytes at 0x0100, then end-of-file. -/
def smallFile : List Nat :=
  hexLines [":10010000214601360121470136007EFE09D2190140", ":00000001FF"]

/-- An engine that has been started and has gone through the whole handshake
with a device that answers every request at once: sync, signature and both
version bytes.  It sits in `stateIdle` at time 170 with its timer armed. -/
def idleEngine : AVRFlash :=
  let s := (AVRFlash.new 5 115200 []).sync
  let s := s.tick 150 []
  let s := (s.receive [STK_INSYNC, STK_OK]).tick 155 []
  let s := (s.receive [STK_INSYNC, 0x1e, 0x95, 0x0f, STK_OK]).tick 160 []
  let s := (s.receive [STK_INSYNC, 4, STK_OK]).tick 165 []
  (s.receive [STK_INSYNC, 4, STK_OK]).tick 170 []

/-- The engine of `idleEngine` after `smallFile` has been written to it (stop
callback 7, resume callback 8, argument 9): one page of 16 bytes is queued. -/
def loadedEngine : AVRFlash :=
  match idleEngine.write smallFile 7 8 9 10 with
  | some r => r.2
  | none => idleEngine

/-- The idle tick at time 175 that takes the page of `loadedEngine` and gets no
answer to its load-address command during the wait (two rounds of it). -/
def failedEngine : AVRFlash :=
  loadedEngine.tick 175 [[], []]

/-- The engine of `idleEngine` after `wideFile` has been written to it (stop
callback 7, resume callback 8, argument 9). -/
def wideEngine : AVRFlash :=
  match idleEngine.write wideFile 7 8 9 10 with
  | some r => r.2
  | none => idleEngine

/-- Successive `write` calls, one for every chunk of the text, with the values
they return; `none` when one of the calls does not return. -/
def HexRecord.writeChunks (h : HexRecord) (stop resume cbArg fuel : Nat) :
    List (List Nat) → Option (List Nat × HexRecord)
  | [] => some ([], h)
  | c :: cs =>
    match h.write c stop resume cbArg fuel with
    | none => none
    | some r =>
      match HexRecord.writeChunks r.2 stop resume cbArg fuel cs with
      | none => none
      | some rs => some (r.1 :: rs.1, rs.2)

/-- One data record of 64 bytes at 0x0000 (139 characters), then end-of-file. -/
def longFile : List Nat :=
  hexLines
    [":40000000AAAAAAAAAAAAAAAAAAAAAAAAAAAAAAAAAAAAAAAAAAAAAAAAAAAAAAAAAAAAAAAAAAAAAAAAAAAAAAAAAAAAAAAAAAAAAAAAAAAAAAAAAAAAAAAAAAAAAAAAAAAAAAAA40",
     ":00000001FF"]

/-- The items of `smallFile`: a data record, a line feed, the end-of-file
record, a line feed. -/
def smallToks : List (List Nat) :=
  [ascii ":10010000214601360121470136007EFE09D2190140", [10], ascii ":00000001FF", [10]]

/-- The text of `smallFile` cut inside the address field of the first record
and inside the second record. -/
def smallChunks : List (List Nat) :=
  [ascii ":1001", ascii "0000214601360121470136007EFE09D2190140" ++ [10] ++ ascii ":0000",
   ascii "0001FF" ++ [10]]

/-- The parser filled by the first round of `write` on `longFile`: the buffer
holds the first 128 characters of the 139-character record. -/
def stuckParser : HexRecord :=
  { HexRecord.new 128 [] with
    _saved := longFile.take 128, _stop := 7, _stopArg := 9, _resume := 8, _resumeArg := 9 }

/-- A fresh parser whose buffer holds the given text. -/
def parserWith (saved : List Nat) : HexRecord :=
  { HexRecord.new 128 [] with _saved := saved }


/-- A data record of 16 bytes at 0x0100. -/
def recordA : List Nat :=
  ascii ":10010000214601360121470136007EFE09D2190140"

/-- A data record of 16 bytes at 0x0110. -/
def recordB : List Nat :=
  ascii ":10011000194E79234623965778239EDA3F01B2CAB7"

/-- The data of `recordB` in a record at 0x0200. -/
def recordC : List Nat :=
  ascii ":10020000194E79234623965778239EDA3F01B2CAC6"

/-- The data bytes of `recordA`. -/
def dataA : List Nat :=
  [0x21, 0x46, 0x01, 0x36, 0x01, 0x21, 0x47, 0x01, 0x36, 0x00, 0x7E, 0xFE, 0x09, 0xD2, 0x19, 0x01]

/-- The data bytes of `recordB` and `recordC`. -/
def dataB : List Nat :=
  [0x19, 0x4E, 0x79, 0x23, 0x46, 0x23, 0x96, 0x57, 0x78, 0x23, 0x9E, 0xDA, 0x3F, 0x01, 0xB2, 0xCA]

/-! ## The circular list of pages in memory

`HexRecord::addPage` and the `stateIdle` case of `AVRFlash::timerCB` written
out on heap cells and pointers, as the source has them.  (The rest of the
embedding keeps the pages as a list, see the conventions.) -/

/-- A `FlashPage` in memory: its `next` pointer and its contents (`len`, `addr`
and `data`). -/
structure PageNode where
  next : Nat
  page : FlashPage
deriving DecidableEq, Repr

/-- The heap cells that hold a `FlashPage`, by address, and the pointer
`_lastPage`.  Address 0 is the null pointer; a cell that is not allocated holds
`none`. -/
structure PageQueue where
  mem : Nat → Option PageNode
  _lastPage : Nat

/-- The queue of the constructor: `_lastPage(0)` and nothing allocated. -/
def PageQueue.empty : PageQueue :=
  { mem := fun _ => none, _lastPage := 0 }

/-- The read `p->next` (0 from a cell that is not allocated). -/
def PageQueue.next (q : PageQueue) (p : Nat) : Nat :=
  match q.mem p with
  | some n => n.next
  | none => 0

/-- The read `*p` of the contents of a page (empty from a cell that is not
allocated). -/
def PageQueue.page (q : PageQueue) (p : Nat) : FlashPage :=
  match q.mem p with
  | some n => n.page
  | none => { len := 0, addr := 0, data := [] }

/-- A cell written as a whole. -/
def PageQueue.store (q : PageQueue) (p : Nat) (n : PageNode) : PageQueue :=
  { q with mem := fun a => if a = p then some n else q.mem a }

/-- The assignment `p->next = nx`. -/
def PageQueue.setNext (q : PageQueue) (p nx : Nat) : PageQueue :=
  q.store p { next := nx, page := q.page p }

/-- The statement `delete p`. -/
def PageQueue.free (q : PageQueue) (p : Nat) : PageQueue :=
  { q with mem := fun a => if a = p then none else q.mem a }

/-- The function `addPage` on the cells: `fp` is the address `calloc` returned
(0 when it failed) and `page` what `addPage` copies into the new cell (`_pageLen`,
`_address` and the bytes of `_pageBuf`). -/
def PageQueue.addPage (q : PageQueue) (fp : Nat) (page : FlashPage) : PageQueue :=
  if fp = 0 then q
  else
    let q1 := q.store fp { next := 0, page := page }
    let q2 :=
      if q1._lastPage ≠ 0 then
        (q1.setNext fp (q1.next q1._lastPage)).setNext q1._lastPage fp
      else q1.setNext fp fp
    { q2 with _lastPage := fp }

/-- The `stateIdle` case of `timerCB` on the cells: `none` when `_lastPage` is
null, else the page handed to `programPage` and the cells after `delete fp`. -/
def PageQueue.takePage (q : PageQueue) : Option (FlashPage × PageQueue) :=
  if q._lastPage ≠ 0 then
    let fp := q.next q._lastPage
    let q1 :=
      if q._lastPage = fp then { q with _lastPage := 0 }
      else q.setNext q._lastPage (q.next fp)
    some (q1.page fp, q1.free fp)
  else none

/-! ## Where the parser stores

The indices at which `_write` and `processRecord` store into their buffers,
and the calls of `processRecord` that `_write` makes, read off the same source
lines as the functions above. -/

/-- The size of the buffer `_saved`: `calloc(1, 128)`. -/
def SAVED_SZ : Nat := 128

/-- The index of the assignment `_saved[saveLen] = 0` in the first part of a
round of `_write` with `data` still to be taken: `saveLen` after the copy;
`none` when the copy is skipped (`saveLen >= _pageSz`). -/
def HexRecord.terminatorIndex (h : HexRecord) (data : List Nat) : Option Nat :=
  let saveLen := (cstr h._saved).length
  if saveLen < h._pageSz then
    let cpy := if h._pageSz - saveLen > data.length then data.length else h._pageSz - saveLen
    some (saveLen + cpy)
  else none

/-- The indices of the stores `_pageBuf[_pageLen++] = ...` made by
`processRecord(_saved, len)`, in order: none unless the record passes the
checks and is a data record. -/
def HexRecord.storeIndices (h : HexRecord) (len : Nat) : List Nat :=
  let buf := h._saved.drop 1
  let len := len - 1
  if !HexRecord.checkHex buf len then []
  else if !HexRecord.verifyChecksum buf len then []
  else
    let type := HexRecord.getHexValue (buf.drop 6) 2 % 256
    if type = 0 then
      let addr := HexRecord.getHexValue (buf.drop 2) 4
      let h1 :=
        if h._pageLen > 0 ∧ addr ≠ (h._address + h._pageLen) % 4294967296 &&& 65535 then
          h.addPage
        else h
      let recLen := HexRecord.getHexValue buf 2 % 65536
      (List.range recLen).map (fun i => (h1._pageLen + i) % 65536)
    else []

/-- The calls `processRecord(_saved, len)` made by the inner loop of `_write`,
in order: the state at the call and `len`. -/
def HexRecord.processSavedLog (qEmpty : Bool) : Nat → HexRecord → List (HexRecord × Nat)
  | 0, _ => []
  | fuel + 1, h =>
    if h._saved.length ≥ 11 then
      let skip := (h._saved.takeWhile isCRLF).length
      let h1 := if skip > 0 then { h with _saved := h._saved.drop skip } else h
      if skip > 0 ∧ h1._saved.length < 11 then []
      else if h1._saved.headD 0 ≠ 58 then []
      else if !HexRecord.checkHex (h1._saved.drop 1) 2 then []
      else
        let recLen := HexRecord.getHexValue (h1._saved.drop 1) 2 % 256
        if h1._saved.length < 11 + recLen * 2 then []
        else
          match h1.processRecord (11 + recLen * 2) with
          | (false, _) => [(h1, 11 + recLen * 2)]
          | (true, h2) =>
            let h3 :=
              if qEmpty = true ∧ h2._lastPage ≠ [] then
                { h2 with calls := h2.calls ++ [(h2._stop, h2._stopArg)] }
              else h2
            (h1, 11 + recLen * 2) ::
              HexRecord.processSavedLog qEmpty fuel
                { h3 with _saved := h3._saved.drop (11 + recLen * 2) }
    else []

/-- The calls of `processRecord` made by the outer loop of `_write` within
`fuel` rounds. -/
def HexRecord.writeLoopLog (qEmpty : Bool) (ret : Nat) :
    Nat → List Nat → HexRecord → List (HexRecord × Nat)
  | 0, _, _ => []
  | fuel + 1, data, h =>
    if data.length > 0 then
      let saved := cstr h._saved
      let saveLen := saved.length
      let cpy := if h._pageSz - saveLen > data.length then data.length else h._pageSz - saveLen
      let saved1 := if saveLen < h._pageSz then saved ++ data.take cpy else saved
      let data1 := if saveLen < h._pageSz then data.drop cpy else data
      HexRecord.processSavedLog qEmpty saved1.length { h with _saved := saved1 } ++
        (match HexRecord.processSaved qEmpty saved1.length { h with _saved := saved1 } with
        | (false, _) => []
        | (true, h1) => HexRecord.writeLoopLog qEmpty ret fuel data1 h1)
    else []

/-- The calls of `processRecord` made by `write(data, len, stop, resume, cbArg)`
within `fuel` rounds of the outer loop. -/
def HexRecord.writeLog (h : HexRecord) (data : List Nat) (stop resume cbArg : Nat)
    (fuel : Nat) : List (HexRecord × Nat) :=
  if h.hasError then []
  else
    HexRecord.writeLoopLog (h._lastPage == []) data.length fuel data
      { h with _stop := stop, _stopArg := cbArg, _resume := resume, _resumeArg := cbArg }

/-! ## Where the engine reads and writes the response buffer

The indices at which `fetchUart`, `processAcks`, `checkSyncAck` and
`parseResponse` access `_responseBuf`, in the order of the accesses, read off
the same source lines as the functions above. -/

/-- The indices of the stores `_responseBuf[_responseLen++] = ch` made by the
loop of `fetchUart`. -/
def AVRFlash.fetchLoopIndices : Nat → AVRFlash → List Nat
  | 0, _ => []
  | fuel + 1, s =>
    if s._responseLen < RESP_SZ - 1 then
      match s.uartRx with
      | [] => []
      | ch :: rx =>
        s._responseLen ::
          AVRFlash.fetchLoopIndices fuel
            { s with
              uartRx := rx
              _responseBuf := s._responseBuf.set s._responseLen ch
              _responseLen := s._responseLen + 1 }
    else []

/-- The accesses of `fetchUart`: the stores of its loop, then the terminator
`_responseBuf[_responseLen] = 0`. -/
def AVRFlash.fetchUartIndices (s : AVRFlash) : List Nat :=
  AVRFlash.fetchLoopIndices (RESP_SZ - 1 - s._responseLen) s
    ++ [(AVRFlash.fetchLoop (RESP_SZ - 1 - s._responseLen) s)._responseLen]

/-- The accesses of `memmove(buf + dst, buf + src, n)` and of
`memcpy(buf + dst, buf + src, n)`: `n` bytes read from `src` on and `n` bytes
written from `dst` on. -/
def memmoveIndices (dst src n : Nat) : List Nat :=
  (List.range n).map (fun i => src + i) ++ (List.range n).map (fun i => dst + i)

/-- The reads of the loop condition of `processAcks`,
`_responseLen >= 2 && _responseBuf[0] == STK_INSYNC && _responseBuf[1] == STK_OK`,
which stops at the first test that fails. -/
def AVRFlash.ackTestIndices (s : AVRFlash) : List Nat :=
  if s._responseLen ≥ 2 then
    0 :: (if s._responseBuf.getD 0 0 = STK_INSYNC then [1] else [])
  else []

/-- The accesses of the loop of `processAcks`: the reads of the condition and,
in every round, those of the `memmove`. -/
def AVRFlash.acksLoopIndices : Nat → AVRFlash → List Nat
  | 0, s => s.ackTestIndices
  | fuel + 1, s =>
    s.ackTestIndices ++
      (if s._responseLen ≥ 2 ∧ s._responseBuf.getD 0 0 = STK_INSYNC
          ∧ s._responseBuf.getD 1 0 = STK_OK then
        memmoveIndices 0 2 (s._responseLen - 2) ++
          AVRFlash.acksLoopIndices fuel
            { s with
              _ackWait := false
              _responseBuf := memmove s._responseBuf 0 2 (s._responseLen - 2)
              _responseLen := s._responseLen - 2 }
      else [])

/-- The accesses of `processAcks`. -/
def AVRFlash.processAcksIndices (s : AVRFlash) : List Nat :=
  AVRFlash.acksLoopIndices s._responseLen s

/-- The accesses of `checkSyncAck`: those of `fetchUart`, the reads of the two
conditions (each stops at the first test that fails), the store at index 0 or
the `memcpy` with the terminator stored at `RESP_SZ/2`. -/
def AVRFlash.checkSyncAckIndices (s0 : AVRFlash) : List Nat :=
  let s := s0.fetchUart
  s0.fetchUartIndices ++
    (if s._responseLen > 0 then [s._responseLen - 1] else []) ++
    (if s._responseLen > 0 ∧ s._responseBuf.getD (s._responseLen - 1) 0 = STK_INSYNC then [0]
    else
      (if s._responseLen > 1 then
        (s._responseLen - 2) ::
          (if s._responseBuf.getD (s._responseLen - 2) 0 = STK_INSYNC then
            [s._responseLen - 1]
          else [])
      else []) ++
      (if s._responseLen > 1 ∧ s._responseBuf.getD (s._responseLen - 2) 0 = STK_INSYNC
          ∧ s._responseBuf.getD (s._responseLen - 1) 0 = STK_OK then []
      else if s._responseLen > RESP_SZ / 2 then
        memmoveIndices 0 (s._responseLen - RESP_SZ / 2) (RESP_SZ / 2) ++ [RESP_SZ / 2]
      else []))

/-- The reads of the signature test of `parseResponse`, in the order of the
source (indices 0, 4, 1, 2, 3), up to the first test that fails. -/
def AVRFlash.sigTestIndices (s : AVRFlash) : List Nat :=
  0 :: (if s._responseBuf.getD 0 0 = STK_INSYNC then
    4 :: (if s._responseBuf.getD 4 0 = STK_OK then
      1 :: (if s._responseBuf.getD 1 0 = 0x1e then
        2 :: (if s._responseBuf.getD 2 0 = 0x95 then [3] else [])
      else [])
    else [])
  else [])

/-- The reads of the version test of `parseResponse`, and of the version byte
when the test passes. -/
def AVRFlash.versTestIndices (s : AVRFlash) : List Nat :=
  0 :: (if s._responseBuf.getD 0 0 = STK_INSYNC then
    2 :: (if s._responseBuf.getD 2 0 = STK_OK then [1] else [])
  else [])

/-- The accesses of `parseResponse`: those of `fetchUart`, in `stateGetSig`
those of `processAcks`, then the reads of the test of the state and, for a bad
signature, the three bytes printed into the error message. -/
def AVRFlash.parseResponseIndices (s0 : AVRFlash) : List Nat :=
  let s := s0.fetchUart
  s0.fetchUartIndices ++
    (match s._progState with
    | stateGetSig =>
      let s1 := s.processAcks
      s.processAcksIndices ++
        (if s1._responseLen < 5 then []
        else
          s1.sigTestIndices ++
            (if s1._responseBuf.getD 0 0 = STK_INSYNC ∧ s1._responseBuf.getD 4 0 = STK_OK
                ∧ s1._responseBuf.getD 1 0 = 0x1e ∧ s1._responseBuf.getD 2 0 = 0x95
                ∧ s1._responseBuf.getD 3 0 = 0x0f then []
            else [1, 2, 3]))
    | stateGetVersLo => if s._responseLen < 3 then [] else s.versTestIndices
    | stateGetVersHi => if s._responseLen < 3 then [] else s.versTestIndices
    | _ => [])

/-! ## Definitions used in the proofs -/

open HexRecord

/-- The value of one hex character as `getHexValue` computes it. -/
def hexDigit (c : Nat) : Nat :=
  (c &&& 15) + (if c > 57 then 9 else 0)

/-- The bytes the loop `appendRecord` takes from the text: `n` pairs of characters. -/
def decodeBytes : List Nat → Nat → List Nat
  | _, 0 => []
  | buf, n + 1 => (getHexValue buf 2 % 256) :: decodeBytes (buf.drop 2) n

/-- The stores of the loop `appendRecord`, given the bytes. -/
def HexRecord.storeBytes (h : HexRecord) : List Nat → HexRecord
  | [] => h
  | b :: bs =>
    HexRecord.storeBytes
      { h with _pageBuf := h._pageBuf.set h._pageLen b, _pageLen := (h._pageLen + 1) % 65536 } bs

/-- What `processRecord` reads from the text of a record. -/
structure RecFields where
  type : Nat
  addr : Nat
  ext : Nat
  data : List Nat
deriving DecidableEq, Repr

/-- The fields of the record that starts `saved` as `processRecord` reads them. -/
def readRecord (saved : List Nat) : RecFields :=
  let buf := saved.drop 1
  { type := getHexValue (buf.drop 6) 2 % 256
    addr := getHexValue (buf.drop 2) 4
    ext := getHexValue (buf.drop 8) 4
    data := decodeBytes (buf.drop 8) (getHexValue buf 2 % 65536) }

/-- The test `if (_pageLen > 0) addPage()` of the end-of-file and address cases. -/
def HexRecord.flushOpen (h : HexRecord) : HexRecord :=
  if h._pageLen > 0 then h.addPage else h

/-- The test `if (_pageLen >= _pageSz) addPage()` that ends the data case. -/
def HexRecord.flushFull (h : HexRecord) : HexRecord :=
  if h._pageLen ≥ h._pageSz then h.addPage else h

/-- The start of the data case: a record that does not continue the open page
closes it, and a record that finds no open page sets the address. -/
def HexRecord.startData (h : HexRecord) (addr : Nat) : HexRecord :=
  let h1 :=
    if h._pageLen > 0 ∧ addr ≠ (h._address + h._pageLen) % 4294967296 &&& 65535 then
      h.addPage
    else h
  if h1._pageLen = 0 then
    { h1 with _address := (h1._address &&& 4294901760) ||| addr }
  else h1

/-- The `switch (type)` of `processRecord`, given the fields read. -/
def HexRecord.dispatch (h : HexRecord) (f : RecFields) : Bool × HexRecord :=
  if f.type = 0 then
    (true, ((h.startData f.addr).storeBytes f.data).flushFull)
  else if f.type = 1 then
    (true, { h.flushOpen with _eof := true })
  else if f.type = 4 then
    (true, { h.flushOpen with _address := (f.ext <<< 16) % 4294967296 })
  else if f.type = 5 then
    (true, h)
  else if f.type = 2 then
    (true, h)
  else
    (false, { h with _errMessage := "Invalid/unknown record type: 0x" })

/-- The stores of `storeBytes` on the page buffer alone: buffer and length. -/
def storeBuf : List Nat → Nat → List Nat → List Nat × Nat
  | buf, len, [] => (buf, len)
  | buf, len, b :: bs => storeBuf (buf.set len b) ((len + 1) % 65536) bs

/-- The state without what `processRecord` neither reads nor writes on a record
that passes its checks: the accumulation buffer, the callbacks and the record
of calls. -/
def HexRecord.core (h : HexRecord) : HexRecord :=
  { h with _saved := [], calls := [], _stop := 0, _stopArg := 0, _resume := 0, _resumeArg := 0 }

/-- The text of one record as `_write` and `processRecord` accept it: the start
marker, hex characters only, a length that matches the length field, a
checksum of zero, and a record type `processRecord` knows (an extended linear
address record carries its two address bytes). -/
def validRecord (r : List Nat) : Bool :=
  r.headD 0 == 58
    && HexRecord.checkHex (r.drop 1) (r.length - 1)
    && r.length == 11 + (HexRecord.getHexValue (r.drop 1) 2 % 256) * 2
    && HexRecord.verifyChecksum (r.drop 1) (r.length - 1)
    && ((readRecord r).type == 0 || (readRecord r).type == 1 || (readRecord r).type == 2
        || (readRecord r).type == 5 || ((readRecord r).type == 4 && decide (15 ≤ r.length)))

/-- One item of a hex file: a line feed, a carriage return, or a valid record
that fits the accumulation buffer. -/
def validToken (t : List Nat) : Bool :=
  t == [10] || t == [13] || (validRecord t && decide (t.length ≤ 128))

/-- The records of a hex file taken one after the other through the `switch` of
`processRecord`, on the state without buffer, callbacks and calls; the items of
length 1 are the line terminators. -/
def HexRecord.parseAll (g : HexRecord) : List (List Nat) → HexRecord
  | [] => g
  | t :: ts =>
    if t.length = 1 then HexRecord.parseAll g ts
    else HexRecord.parseAll (g.dispatch (readRecord t)).2.core ts

/-- The inner loop of `_write` can do nothing more with the buffer `B` while
the text still to be parsed is `ts`: fewer than 11 characters, or the record at
the front is not complete. -/
def blocked (B : List Nat) (ts : List (List Nat)) : Prop :=
  B.length < 11 ∨ ∃ r rest, ts = r :: rest ∧ validRecord r = true ∧ B.length < r.length

/-- What the steps of `processRecord` leave alone: they commute with `core`
and keep buffer, callbacks and calls. -/
def Framed (F : HexRecord → HexRecord) : Prop :=
  ∀ h : HexRecord, (F h).core = (F h.core).core ∧ (F h)._saved = h._saved
    ∧ (F h).calls = h.calls ∧ (F h)._stop = h._stop ∧ (F h)._stopArg = h._stopArg
    ∧ (F h)._resume = h._resume ∧ (F h)._resumeArg = h._resumeArg

/-- The allocator never fails and no error is stored. -/
def Sound (h : HexRecord) : Prop :=
  h.heap = [] ∧ h._errMessage = ""

/-- The sum `verifyChecksum` forms over the pairs of characters of a text. -/
def pairSum : List Nat → Nat
  | a :: b :: rest => (16 * hexDigit a + hexDigit b) % 256 + pairSum rest
  | _ => 0

/-- What `getHexValue` uses of a character. -/
def hexKey (c : Nat) : Nat × Bool :=
  (c &&& 15, decide (c > 57))

/-- The value of a hex digit as the Intel-HEX format defines it: `0`-`9`,
`A`-`F` and `a`-`f` stand for 0 to 15. -/
def digitValue (c : Nat) : Nat :=
  if 48 ≤ c ∧ c ≤ 57 then c - 48
  else if 65 ≤ c ∧ c ≤ 70 then c - 55
  else c - 87

/-- The bytes a text of hex digits stands for in the Intel-HEX format: two
digits to a byte, the high digit first. -/
def bytesOfText : List Nat → List Nat
  | a :: b :: rest => (16 * digitValue a + digitValue b) :: bytesOfText rest
  | _ => []

/-- The function `processRecord` applied to the records of a sequence one after
the other, each alone in the accumulation buffer; the first call that fails
ends the sequence.  This is not `_write`: it leaves out the accumulation
buffer of `_pageSz` characters, so a record that is longer than the buffer is
taken here although `_write` never gets as far as calling `processRecord` on
it (see `writeLog` for the calls that `_write` makes). -/
def HexRecord.processAll (h : HexRecord) : List (List Nat) → Bool × HexRecord
  | [] => (true, h)
  | r :: rs =>
    match ({ h with _saved := r } : HexRecord).processRecord r.length with
    | (false, h1) => (false, h1)
    | (true, h1) => HexRecord.processAll h1 rs

/-- Data records that follow one another without a gap: each is valid and of
type 0, the first is at the 16-bit address `a`, and each next one is at the
address after the last byte of the one before (modulo 2^16). -/
def contiguous : Nat → List (List Nat) → Bool
  | _, [] => true
  | a, r :: rs =>
    validRecord r && (readRecord r).type == 0 && (readRecord r).addr == a
      && contiguous ((a + (readRecord r).data.length) % 65536) rs

/-- The data bytes of a sequence of records, in the order of the records. -/
def allData (rs : List (List Nat)) : List Nat :=
  (rs.map (fun r => (readRecord r).data)).flatten

/-- A data record of 64 bytes at 0x0000: 139 characters. -/
def longRecord : List Nat :=
  ascii ":40000000AAAAAAAAAAAAAAAAAAAAAAAAAAAAAAAAAAAAAAAAAAAAAAAAAAAAAAAAAAAAAAAAAAAAAAAAAAAAAAAAAAAAAAAAAAAAAAAAAAAAAAAAAAAAAAAAAAAAAAAAAAAAAAAA40"

/-- The end-of-file record. -/
def eofRecord : List Nat :=
  ascii ":00000001FF"

/-- An event is a call through `_resume`. -/
def Event.isResume : Event → Bool
  | Event.resume _ _ => true
  | _ => false

/-- An event is a call through `_doneCB`. -/
def Event.isDone : Event → Bool
  | Event.done _ _ => true
  | _ => false

/-- A run of the engine: for every step some bytes reach the UART, then the
timer expires at the given time (with the given polls for the wait loop of
`programPage`).  No `write` happens during the run. -/
def AVRFlash.run : List (List Nat × Nat × List (List Nat)) → AVRFlash → AVRFlash
  | [], s => s
  | (rx, now, polls) :: steps, s => AVRFlash.run steps ((s.receive rx).tick now polls)

/-- A parser of page size 128 that has processed `recordA`, so that a page of
16 bytes at 0x0100 is open, and now holds `saved` in its accumulation buffer. -/
def openParser (saved : List Nat) : HexRecord :=
  { ((parserWith recordA).processRecord 43).2 with _saved := saved }

/-- An extended segment address record (type 2). -/
def segmentRecord : List Nat :=
  ascii ":020000021000EC"

/-- A start linear address record (type 5). -/
def startRecord : List Nat :=
  ascii ":0400000500000000F7"

/-- A start segment address record (type 3), which `processRecord` does not know. -/
def type3Record : List Nat :=
  ascii ":0400000300003800C1"

/-- The end-of-file record with a wrong checksum. -/
def badSumRecord : List Nat :=
  ascii ":00000001FE"

/-- An extended linear address record (type 4) with the payload 0x0001. -/
def linearRecord : List Nat :=
  ascii ":020000040001F9"

/-- What receiving bytes and waiting for acks leave alone: the queue, the
callbacks, everything sent or called so far, the timer and the clock values. -/
def AVRFlash.sameOutput (s t : AVRFlash) : Prop :=
  t._lastPage = s._lastPage ∧ t._resume = s._resume ∧ t._resumeArg = s._resumeArg
    ∧ t._doneCB = s._doneCB ∧ t._doneCBArg = s._doneCBArg ∧ t.uartTx = s.uartTx
    ∧ t.events = s.events ∧ t.calls = s.calls ∧ t.timer = s.timer ∧ t._pageSz = s._pageSz
    ∧ t._progState = s._progState ∧ t._startTime = s._startTime
    ∧ t._stateStart = s._stateStart

/-- The bytes of the load-address command `programPage` sends for a page. -/
def FlashPage.loadCmd (fp : FlashPage) : List Nat :=
  [STK_LOAD_ADDRESS % 256, ((fp.addr >>> 1) % 65536 &&& 255) % 256,
    (((fp.addr >>> 1) % 65536) >>> 8) % 256, CRC_EOP % 256]

/-- The bytes of the program-page command `programPage` sends for a page. -/
def FlashPage.progCmd (fp : FlashPage) : List Nat :=
  [STK_PROG_PAGE % 256, (fp.len >>> 8) % 256, (fp.len &&& 255) % 256, 70 % 256]
    ++ (fp.data.take fp.len).map (fun b => b % 256) ++ [CRC_EOP % 256]

/-- The number of calls made through `_resume` so far. -/
def AVRFlash.resumeCount (s : AVRFlash) : Nat :=
  s.events.countP Event.isResume

/-- A step of the engine that leaves the queue and the resume callback alone
and does not call it. -/
def AVRFlash.sameFlow (s t : AVRFlash) : Prop :=
  t._lastPage = s._lastPage ∧ t._resume = s._resume ∧ t._resumeArg = s._resumeArg
    ∧ t.resumeCount = s.resumeCount

/-- The engine of `idleEngine` after `gapFile` has been written to it (stop
callback 7, resume callback 8, argument 9): three pages of one byte are queued. -/
def gapEngine : AVRFlash :=
  match idleEngine.write gapFile 7 8 9 10 with
  | some r => r.2
  | none => idleEngine

/-- Seven timer expiries, 5 ms apart from time 175 on, with a device that
acknowledges the load-address command of every page during the wait and the
program-page command before the next expiry. -/
def drainSteps : List (List Nat × Nat × List (List Nat)) :=
  [([], 175, [[STK_INSYNC, STK_OK]]), ([STK_INSYNC, STK_OK], 180, []),
   ([], 185, [[STK_INSYNC, STK_OK]]), ([STK_INSYNC, STK_OK], 190, []),
   ([], 195, [[STK_INSYNC, STK_OK]]), ([STK_INSYNC, STK_OK], 200, []),
   ([], 205, [])]

/-- What happens to the queue: `addPage` is called (with the address `calloc`
returns and the page it stores), or an idle tick runs. -/
inductive QueueOp where
  | enqueue (fp : Nat) (page : FlashPage)
  | dequeue
deriving DecidableEq, Repr

/-- A sequence of queue operations on the cells: the pages handed to
`programPage`, in order, and the cells at the end. -/
def PageQueue.runOps (q : PageQueue) : List QueueOp → List FlashPage × PageQueue
  | [] => ([], q)
  | QueueOp.enqueue fp page :: ops => PageQueue.runOps (q.addPage fp page) ops
  | QueueOp.dequeue :: ops =>
    match q.takePage with
    | none => PageQueue.runOps q ops
    | some r => ((r.1 :: (PageQueue.runOps r.2 ops).1), (PageQueue.runOps r.2 ops).2)

/-- The same operations on the list of pages the embedding keeps in
`_lastPage`: `addPage` appends (unless `calloc` failed), the idle tick takes
the head.  The result is the pages handed to `programPage` and the list at the
end. -/
def fifoOps (l : List FlashPage) : List QueueOp → List FlashPage × List FlashPage
  | [] => ([], l)
  | QueueOp.enqueue fp page :: ops => fifoOps (if fp = 0 then l else l ++ [page]) ops
  | QueueOp.dequeue :: ops =>
    match l with
    | [] => fifoOps [] ops
    | fp :: rest => (fp :: (fifoOps rest ops).1, (fifoOps rest ops).2)

/-- The pages enqueued by a sequence of operations, in order. -/
def enqueued : List QueueOp → List FlashPage
  | [] => []
  | QueueOp.enqueue fp page :: ops => if fp = 0 then enqueued ops else page :: enqueued ops
  | QueueOp.dequeue :: ops => enqueued ops

/-- The allocator keeps its contract along a sequence of operations: every
address `calloc` returns is null or the address of a cell that is not allocated
at that time. -/
def PageQueue.allocOk (q : PageQueue) : List QueueOp → Bool
  | [] => true
  | QueueOp.enqueue fp page :: ops =>
    (fp == 0 || (q.mem fp).isNone) && PageQueue.allocOk (q.addPage fp page) ops
  | QueueOp.dequeue :: ops =>
    match q.takePage with
    | none => PageQueue.allocOk q ops
    | some r => PageQueue.allocOk r.2 ops

/-- A chain of cells: starting at `p`, the cells at the addresses of `cells`
hold the pages of `cells` and point to one another in this order, the last one
to `e`. -/
def Chain (mem : Nat → Option PageNode) : Nat → List (Nat × FlashPage) → Nat → Prop
  | p, [], e => p = e
  | p, c :: cs, e => p = c.1 ∧ ∃ nx, mem c.1 = some { next := nx, page := c.2 } ∧ Chain mem nx cs e

/-- The cells represent the queue `cells` (addresses and pages, oldest first):
the addresses are different and not null, the cells form a circle in this
order, and `_lastPage` points to the last one (it is null for the empty queue). -/
def PageQueue.Rep (q : PageQueue) (cells : List (Nat × FlashPage)) : Prop :=
  (cells.map Prod.fst).Nodup ∧ (∀ c ∈ cells, c.1 ≠ 0)
    ∧ q._lastPage = ((cells.getLast?).map Prod.fst).getD 0
    ∧ Chain q.mem ((cells.head?.map Prod.fst).getD 0) cells ((cells.head?.map Prod.fst).getD 0)

/-- Three enqueues and dequeues interleaved; the cell at address 16 is used
again after it has been freed, and one `calloc` fails. -/
def sampleOps : List QueueOp :=
  [QueueOp.enqueue 16 { len := 1, addr := 0, data := [1] },
   QueueOp.enqueue 32 { len := 1, addr := 512, data := [2] },
   QueueOp.dequeue,
   QueueOp.enqueue 0 { len := 1, addr := 640, data := [9] },
   QueueOp.enqueue 16 { len := 1, addr := 768, data := [3] },
   QueueOp.dequeue, QueueOp.dequeue, QueueOp.dequeue]

/-- The calls made through `_doneCB` so far. -/
def AVRFlash.doneEvents (s : AVRFlash) : List Event :=
  s.events.filter Event.isDone

/-- A step of the engine that leaves the completion callback and the timer
alone and does not call the callback. -/
def AVRFlash.sameDone (s t : AVRFlash) : Prop :=
  t._doneCB = s._doneCB ∧ t._doneCBArg = s._doneCBArg ∧ t.timer = s.timer
    ∧ t.doneEvents = s.doneEvents

/-- A call of `timerCB` that arms the timer again and does not call the
completion callback. -/
def AVRFlash.rearmed (s t : AVRFlash) : Prop :=
  t._doneCB = s._doneCB ∧ t._doneCBArg = s._doneCBArg ∧ t.timer ≠ none
    ∧ t.doneEvents = s.doneEvents

/-- A call of `timerCB` that leaves the timer as it is and calls the
completion callback if one is registered. -/
def AVRFlash.ended (s t : AVRFlash) : Prop :=
  t._doneCB = s._doneCB ∧ t._doneCBArg = s._doneCBArg ∧ t.timer = s.timer
    ∧ t.doneEvents = s.doneEvents
        ++ (if s._doneCB ≠ 0 then [Event.done s._doneCB s._doneCBArg] else [])

/-- The first part of `programPage`: the load-address command is sent and an
ack is awaited. -/
def AVRFlash.sendLoadAddress (s : AVRFlash) (fp : FlashPage) : AVRFlash :=
  { (((s.uartWrite STK_LOAD_ADDRESS).uartWrite ((fp.addr >>> 1) % 65536 &&& 255)).uartWrite
      (((fp.addr >>> 1) % 65536) >>> 8)).uartWrite CRC_EOP with _ackWait := true }

/-- A page of one byte at the byte address 0x20000. -/
def highPage : FlashPage :=
  { len := 1, addr := 131072, data := [1] }

/-- The engine of `idleEngine` after `smallFile` has been written to it with a
stop callback (function 7) and a null resume callback. -/
def nullResumeEngine : AVRFlash :=
  match idleEngine.write smallFile 7 0 9 10 with
  | some r => r.2
  | none => idleEngine

/-- The response to the read-signature request that `parseResponse` accepts:
in-sync, the three signature bytes 0x1e 0x95 0x0f, ok. -/
def signatureOk (buf : List Nat) : Bool :=
  buf.getD 0 0 == STK_INSYNC && buf.getD 1 0 == 0x1e && buf.getD 2 0 == 0x95
    && buf.getD 3 0 == 0x0f && buf.getD 4 0 == STK_OK

/-- An engine that has been started and has got the ack to its sync request
from the device: it has sent the read-signature request and sits in
`stateGetSig` at time 155 with its timer armed. -/
def sigEngine : AVRFlash :=
  (((AVRFlash.new 5 115200 []).sync.tick 150 []).receive [STK_INSYNC, STK_OK]).tick 155 []

/-- The data bytes of the data records among the items of a hex file, in the
order of the file. -/
def payloads : List (List Nat) → List Nat
  | [] => []
  | t :: ts =>
    if t.length ≠ 1 ∧ (readRecord t).type = 0 then (readRecord t).data ++ payloads ts
    else payloads ts

/-- The data bytes of the queued pages, in the order of the queue. -/
def HexRecord.queuedData (h : HexRecord) : List Nat :=
  (h._lastPage.map FlashPage.data).flatten

/-- The state in which the parser of `AVRFlash` stores inside its buffers: the
open page is shorter than the page size 128, the accumulation buffer holds at
most 128 characters, and page allocations succeed. -/
def HexRecord.PageInv (h : HexRecord) : Prop :=
  h._pageLen < 128 ∧ h._pageSz = 128 ∧ h.heap = [] ∧ h._saved.length ≤ 128

/-- The state at the start of `timerCB`: the one-shot timer has expired. -/
def AVRFlash.expired (s : AVRFlash) : AVRFlash :=
  { s with timer := none }

/-- The engine of `sigEngine` when the device has answered the read-signature
request with the signature of the ATmega328P and the timer has expired. -/
def goodSigEngine : AVRFlash :=
  (sigEngine.receive [STK_INSYNC, 0x1e, 0x95, 0x0f, STK_OK]).expired

/-- The engine of `sigEngine` with the completion callback 3 (argument 4)
registered, when the device has answered the read-signature request with
another signature and the timer has expired. -/
def badSigEngine : AVRFlash :=
  ((sigEngine.finish 3 4).receive [STK_INSYNC, 0x1e, 0x95, 0x0e, STK_OK]).expired

/-- A new engine whose UART has received a stray byte followed by in-sync, ok. -/
def ackedEngine : AVRFlash :=
  (AVRFlash.new 5 115200 []).receive [0x55, STK_INSYNC, STK_OK]

/-- The data bytes the parser holds: those of the queued pages followed by
those of the open page. -/
def HexRecord.pending (h : HexRecord) : List Nat :=
  h.queuedData ++ h._pageBuf.take h._pageLen

/-- The state in which data records of at most 64 bytes are stored inside the page
buffer of the parser of `AVRFlash`. -/
def HexRecord.BufInv (h : HexRecord) : Prop :=
  h.heap = [] ∧ h._pageLen < 128 ∧ h._pageSz = 128 ∧ h._pageBuf.length = 192

/-- What holds at every call `processRecord(_saved, len)` made by `_write`: the
parser satisfies `PageInv`, and `len` is the length of the record as given by
its length field, and at most 128. -/
def HexRecord.CallInv (c : HexRecord × Nat) : Prop :=
  c.1.PageInv ∧ c.2 = 11 + (HexRecord.getHexValue (c.1._saved.drop 1) 2 % 256) * 2 ∧ c.2 ≤ 128

/-- The invariant of the response buffer: it has its `RESP_SZ` bytes and
`_responseLen` is at most `RESP_SZ - 1`. -/
def AVRFlash.RespInv (s : AVRFlash) : Prop :=
  s._responseBuf.length = RESP_SZ ∧ s._responseLen ≤ RESP_SZ - 1

/-- What happens to an engine: a call of one of its functions by the sketch,
bytes reaching the UART, or an expiry of the timer. -/
inductive EngineOp where
  | sync
  | abort
  | finish (doneCB cbArg : Nat)
  | write (data : List Nat) (stop resume cbArg fuel : Nat)
  | receive (bytes : List Nat)
  | tick (now : Nat) (polls : List (List Nat))

/-- The engine after one operation; `none` when a `write` does not return. -/
def AVRFlash.perform (s : AVRFlash) : EngineOp → Option AVRFlash
  | EngineOp.sync => some s.sync
  | EngineOp.abort => some s.abort
  | EngineOp.finish doneCB cbArg => some (s.finish doneCB cbArg)
  | EngineOp.write data stop resume cbArg fuel =>
    (s.write data stop resume cbArg fuel).map (fun r => r.2)
  | EngineOp.receive bytes => some (s.receive bytes)
  | EngineOp.tick now polls => some (s.tick now polls)

/-- The engine after a sequence of operations. -/
def AVRFlash.performAll : List EngineOp → AVRFlash → Option AVRFlash
  | [], s => some s
  | op :: ops, s =>
    match s.perform op with
    | none => none
    | some t => AVRFlash.performAll ops t

/-- A new engine whose UART has received 100 bytes. -/
def floodedEngine : AVRFlash :=
  (AVRFlash.new 5 115200 []).receive (List.replicate 100 7)

/-- A data record of 64 bytes at 0x0040, the address after the last byte of
`longRecord`: 139 characters. -/
def longRecordB : List Nat :=
  ascii ":40004000AAAAAAAAAAAAAAAAAAAAAAAAAAAAAAAAAAAAAAAAAAAAAAAAAAAAAAAAAAAAAAAAAAAAAAAAAAAAAAAAAAAAAAAAAAAAAAAAAAAAAAAAAAAAAAAAAAAAAAAAAAAAAAAA00"

/-- Two contiguous data records of 64 bytes each, at 0x0000 and 0x0040, and an
end-of-file record, each followed by a line feed: 292 characters. -/
def fillFile : List Nat :=
  longRecord ++ [10] ++ longRecordB ++ [10] ++ eofRecord ++ [10]

/-! ## Properties -/

theorem isHexChar_le {c : Nat} (h : isHexChar c = true) : c ≤ 102 := by
  simp [isHexChar] at h
  omega

theorem hexDigit_lt {c : Nat} (h : isHexChar c = true) : hexDigit c < 16 := by
  have hc := isHexChar_le h
  interval_cases c <;> first | (exact absurd h (by decide)) | decide

theorem and15_lt (c : Nat) : c &&& 15 < 16 := by
  have := Nat.and_pow_two_sub_one_eq_mod c 4
  simp at this
  omega

theorem getHexValueFrom_cons {v : Nat} (c : Nat) (buf : List Nat) (n : Nat) (hv : v < 2 ^ 27) :
    getHexValueFrom v (c :: buf) (n + 1) = getHexValueFrom (16 * v + hexDigit c) buf n := by
  have h1 : (v <<< 4) % 4294967296 = 2 ^ 4 * v := by
    rw [Nat.shiftLeft_eq]
    omega
  have h2 : 2 ^ 4 * v ||| (c &&& 15) = 2 ^ 4 * v + (c &&& 15) :=
    (Nat.mul_add_lt_is_or (by simpa using and15_lt c) v).symm
  have h3 := and15_lt c
  simp only [getHexValueFrom, h1, h2, hexDigit]
  split
  · congr 1
    omega
  · congr 1

theorem hexDigit_le (c : Nat) : hexDigit c ≤ 24 := by
  have := and15_lt c
  unfold hexDigit
  split <;> omega

theorem getHexValue_two (a b : Nat) (rest : List Nat) :
    getHexValue (a :: b :: rest) 2 = 16 * hexDigit a + hexDigit b := by
  have := hexDigit_le a
  rw [getHexValue, getHexValueFrom_cons _ _ _ (by norm_num),
    getHexValueFrom_cons _ _ _ (by omega)]
  simp [getHexValueFrom]

theorem getHexValue_four (a b c d : Nat) (rest : List Nat) :
    getHexValue (a :: b :: c :: d :: rest) 4
      = 4096 * hexDigit a + 256 * hexDigit b + 16 * hexDigit c + hexDigit d := by
  have := hexDigit_le a
  have := hexDigit_le b
  have := hexDigit_le c
  rw [getHexValue, getHexValueFrom_cons _ _ _ (by norm_num),
    getHexValueFrom_cons _ _ _ (by omega), getHexValueFrom_cons _ _ _ (by omega),
    getHexValueFrom_cons _ _ _ (by omega)]
  simp [getHexValueFrom]
  omega

theorem appendRecord_eq_storeBytes (h : HexRecord) (buf : List Nat) (n : Nat) :
    h.appendRecord buf n = h.storeBytes (decodeBytes buf n) := by
  induction n generalizing h buf with
  | zero => rfl
  | succ n ih => simp only [appendRecord, decodeBytes, storeBytes, ih]

theorem processRecord_of_checks (h : HexRecord) (len : Nat)
    (hhex : checkHex (h._saved.drop 1) (len - 1) = true)
    (hsum : verifyChecksum (h._saved.drop 1) (len - 1) = true) :
    h.processRecord len = h.dispatch (readRecord h._saved) := by
  simp only [processRecord, hhex, hsum, appendRecord_eq_storeBytes, dispatch, readRecord,
    startData, flushFull, flushOpen]
  rfl

theorem checkHex_append (x y : List Nat) (n : Nat) (hn : n ≤ x.length) :
    checkHex (x ++ y) n = checkHex x n := by
  induction n generalizing x with
  | zero => simp [checkHex]
  | succ n ih =>
    cases x with
    | nil => simp at hn
    | cons c x =>
      simp only [List.cons_append, checkHex, List.append_eq, ih x (by simpa using hn)]

theorem checkHex_iff (x : List Nat) (n : Nat) :
    checkHex x n = true ↔ n ≤ x.length ∧ ∀ c ∈ x.take n, isHexChar c = true := by
  induction n generalizing x with
  | zero => simp [checkHex]
  | succ n ih =>
    cases x with
    | nil => simp [checkHex]
    | cons c x =>
      simp only [checkHex, List.length_cons, List.take_succ_cons, List.mem_cons]
      by_cases hc : isHexChar c = true
      · simp [hc, ih]
      · simp [hc]

theorem getHexValueFrom_append (v : Nat) (x y : List Nat) (n : Nat) (hn : n ≤ x.length) :
    getHexValueFrom v (x ++ y) n = getHexValueFrom v x n := by
  induction n generalizing x v with
  | zero => simp [getHexValueFrom]
  | succ n ih =>
    cases x with
    | nil => simp at hn
    | cons c x =>
      simp only [List.cons_append, getHexValueFrom, List.append_eq, ih _ x (by simpa using hn)]

theorem getHexValue_append (x y : List Nat) (n : Nat) (hn : n ≤ x.length) :
    getHexValue (x ++ y) n = getHexValue x n :=
  getHexValueFrom_append 0 x y n hn

theorem drop_append_le (x y : List Nat) (k : Nat) (hk : k ≤ x.length) :
    (x ++ y).drop k = x.drop k ++ y := by
  rw [List.drop_append_eq_append_drop]
  have : k - x.length = 0 := by omega
  simp [this]

theorem checksumFrom_append (s fuel : Nat) (x y : List Nat) (len : Nat) (hn : len ≤ x.length) :
    checksumFrom s fuel (x ++ y) len = checksumFrom s fuel x len := by
  induction fuel generalizing s x len with
  | zero => simp [checksumFrom]
  | succ fuel ih =>
    simp only [checksumFrom]
    split
    · rename_i h2
      rw [getHexValue_append x y 2 (by omega), drop_append_le x y 2 (by omega)]
      rw [ih _ (x.drop 2) (len - 2) (by simp; omega)]
    · rfl

theorem verifyChecksum_append (x y : List Nat) (len : Nat) (hn : len ≤ x.length) :
    verifyChecksum (x ++ y) len = verifyChecksum x len := by
  simp [verifyChecksum, checksumFrom_append _ _ x y len hn]

theorem decodeBytes_append (x y : List Nat) (n : Nat) (hn : 2 * n ≤ x.length) :
    decodeBytes (x ++ y) n = decodeBytes x n := by
  induction n generalizing x with
  | zero => simp [decodeBytes]
  | succ n ih =>
    simp only [decodeBytes]
    rw [getHexValue_append x y 2 (by omega), drop_append_le x y 2 (by omega),
      ih (x.drop 2) (by simp; omega)]

theorem decodeBytes_length (x : List Nat) (n : Nat) : (decodeBytes x n).length = n := by
  induction n generalizing x with
  | zero => simp [decodeBytes]
  | succ n ih => simp [decodeBytes, ih]

theorem storeBytes_eq_storeBuf (h : HexRecord) (bs : List Nat) :
    h.storeBytes bs =
      { h with
        _pageBuf := (storeBuf h._pageBuf h._pageLen bs).1
        _pageLen := (storeBuf h._pageBuf h._pageLen bs).2 } := by
  induction bs generalizing h with
  | nil => rfl
  | cons b bs ih => simp only [storeBytes, storeBuf, ih]

theorem framed_addPage : Framed HexRecord.addPage := by
  intro h
  simp only [addPage, core]
  split_ifs <;> simp

theorem framed_flushOpen : Framed HexRecord.flushOpen := by
  intro h
  have := framed_addPage h
  simp only [flushOpen, core] at *
  split_ifs <;> simp_all

theorem framed_flushFull : Framed HexRecord.flushFull := by
  intro h
  have := framed_addPage h
  simp only [flushFull, core] at *
  split_ifs <;> simp_all

theorem framed_startData (addr : Nat) : Framed (fun h => h.startData addr) := by
  intro h
  have := framed_addPage h
  simp only [startData, core, addPage] at *
  split_ifs <;> simp_all

theorem framed_storeBytes (bs : List Nat) : Framed (fun h => h.storeBytes bs) := by
  intro h
  simp only [storeBytes_eq_storeBuf, core]
  simp

theorem framed_comp {F G : HexRecord → HexRecord} (hF : Framed F) (hG : Framed G) :
    Framed (fun h => G (F h)) := by
  intro h
  obtain ⟨f1, f2, f3, f4, f5, f6, f7⟩ := hF h
  obtain ⟨g1, g2, g3, g4, g5, g6, g7⟩ := hG (F h)
  obtain ⟨k1, -⟩ := hG (F h.core)
  refine ⟨?_, by rw [g2, f2], by rw [g3, f3], by rw [g4, f4], by rw [g5, f5],
    by rw [g6, f6], by rw [g7, f7]⟩
  show (G (F h)).core = (G (F h.core)).core
  rw [g1, k1, f1]

theorem dispatch_frame (h : HexRecord) (f : RecFields) :
    (h.dispatch f).1 = (h.core.dispatch f).1
    ∧ (h.dispatch f).2.core = (h.core.dispatch f).2.core
    ∧ (h.dispatch f).2._saved = h._saved
    ∧ (h.dispatch f).2.calls = h.calls
    ∧ (h.dispatch f).2._stop = h._stop
    ∧ (h.dispatch f).2._stopArg = h._stopArg
    ∧ (h.dispatch f).2._resume = h._resume
    ∧ (h.dispatch f).2._resumeArg = h._resumeArg := by
  have h0 := framed_comp (framed_comp (framed_startData f.addr) (framed_storeBytes f.data))
    framed_flushFull h
  have h1 := framed_flushOpen h
  simp only [dispatch]
  split_ifs
  · exact ⟨rfl, h0⟩
  · refine ⟨rfl, ?_⟩
    simp only [core] at h1 ⊢
    simp_all
  · refine ⟨rfl, ?_⟩
    simp only [core] at h1 ⊢
    simp_all
  · simp [core]
  · simp [core]
  · simp [core]

theorem sound_addPage {h : HexRecord} (hs : Sound h) :
    Sound h.addPage ∧ h.addPage._pageSz = h._pageSz := by
  obtain ⟨h1, h2⟩ := hs
  simp [addPage, Sound, h1, h2]

theorem sound_flushOpen {h : HexRecord} (hs : Sound h) :
    Sound h.flushOpen ∧ h.flushOpen._pageSz = h._pageSz := by
  unfold flushOpen
  split
  · exact sound_addPage hs
  · exact ⟨hs, rfl⟩

theorem sound_flushFull {h : HexRecord} (hs : Sound h) :
    Sound h.flushFull ∧ h.flushFull._pageSz = h._pageSz := by
  unfold flushFull
  split
  · exact sound_addPage hs
  · exact ⟨hs, rfl⟩

theorem sound_startData {h : HexRecord} (addr : Nat) (hs : Sound h) :
    Sound (h.startData addr) ∧ (h.startData addr)._pageSz = h._pageSz := by
  have ha := sound_addPage hs
  simp only [startData]
  split_ifs <;> simp_all [Sound]

theorem sound_storeBytes {h : HexRecord} (bs : List Nat) (hs : Sound h) :
    Sound (h.storeBytes bs) ∧ (h.storeBytes bs)._pageSz = h._pageSz := by
  rw [storeBytes_eq_storeBuf]
  exact ⟨hs, rfl⟩

theorem dispatch_ok (h : HexRecord) (f : RecFields)
    (ht : f.type = 0 ∨ f.type = 1 ∨ f.type = 2 ∨ f.type = 5 ∨ f.type = 4) (hs : Sound h) :
    (h.dispatch f).1 = true ∧ Sound (h.dispatch f).2
      ∧ (h.dispatch f).2._pageSz = h._pageSz := by
  have a1 := sound_startData f.addr hs
  have a2 := sound_storeBytes f.data a1.1
  have a3 := sound_flushFull a2.1
  have b1 := sound_flushOpen hs
  simp only [dispatch]
  split_ifs with c0 c1 c4 c5 c2
  · exact ⟨rfl, a3.1, by rw [a3.2, a2.2, a1.2]⟩
  · exact ⟨rfl, b1.1, b1.2⟩
  · exact ⟨rfl, b1.1, b1.2⟩
  · exact ⟨rfl, hs, rfl⟩
  · exact ⟨rfl, hs, rfl⟩
  · omega

theorem drop_takeWhile_length (p : Nat → Bool) (l : List Nat) :
    l.drop (l.takeWhile p).length = l.dropWhile p := by
  induction l with
  | nil => simp
  | cons a l ih =>
    by_cases h : p a = true
    · simp [List.takeWhile_cons, List.dropWhile_cons, h, ih]
    · simp [List.takeWhile_cons, List.dropWhile_cons, h]

theorem dropWhile_eq_self_of_takeWhile_nil (p : Nat → Bool) (l : List Nat)
    (h : (l.takeWhile p).length = 0) : l.dropWhile p = l := by
  rw [← drop_takeWhile_length, h]
  rfl

/-- One round of the inner loop of `_write` on a buffer of at least 11
characters, with the skipping of line terminators written as `dropWhile`. -/
theorem processSaved_succ (qEmpty : Bool) (fuel : Nat) (h : HexRecord)
    (hlen : 11 ≤ h._saved.length) :
    processSaved qEmpty (fuel + 1) h =
      if (h._saved.dropWhile isCRLF).length < 11 then
        (true, { h with _saved := h._saved.dropWhile isCRLF })
      else if (h._saved.dropWhile isCRLF).headD 0 ≠ 58 then
        (false, { h with
          _saved := h._saved.dropWhile isCRLF
          _errMessage := "Expected start of record in POST data, got " })
      else if !checkHex ((h._saved.dropWhile isCRLF).drop 1) 2 then
        (false, { h with _saved := h._saved.dropWhile isCRLF })
      else if (h._saved.dropWhile isCRLF).length
          < 11 + (getHexValue ((h._saved.dropWhile isCRLF).drop 1) 2 % 256) * 2 then
        (true, { h with _saved := h._saved.dropWhile isCRLF })
      else
        match ({ h with _saved := h._saved.dropWhile isCRLF }).processRecord
            (11 + (getHexValue ((h._saved.dropWhile isCRLF).drop 1) 2 % 256) * 2) with
        | (false, h2) => (false, h2)
        | (true, h2) =>
          processSaved qEmpty fuel
            { (if qEmpty = true ∧ h2._lastPage ≠ [] then
                { h2 with calls := h2.calls ++ [(h2._stop, h2._stopArg)] }
              else h2) with
              _saved := (if qEmpty = true ∧ h2._lastPage ≠ [] then
                { h2 with calls := h2.calls ++ [(h2._stop, h2._stopArg)] }
              else h2)._saved.drop
                (11 + (getHexValue ((h._saved.dropWhile isCRLF).drop 1) 2 % 256) * 2) } := by
  have hge : h._saved.length ≥ 11 := hlen
  by_cases hskip : (h._saved.takeWhile isCRLF).length > 0
  · simp only [processSaved, hge, if_true, hskip, true_and, drop_takeWhile_length]
  · have h0 : (h._saved.takeWhile isCRLF).length = 0 := by omega
    have hd := dropWhile_eq_self_of_takeWhile_nil isCRLF h._saved h0
    have hnl : ¬ h._saved.length < 11 := by omega
    rw [hd]
    simp only [processSaved, hge, if_true, hskip, false_and, if_false, hnl]

theorem processSaved_short (qEmpty : Bool) (fuel : Nat) (h : HexRecord)
    (hlen : h._saved.length < 11) : processSaved qEmpty fuel h = (true, h) := by
  cases fuel with
  | zero => rfl
  | succ fuel =>
    have : ¬ h._saved.length ≥ 11 := by omega
    simp only [processSaved, this, if_false]

theorem validRecord_iff (r : List Nat) :
    validRecord r = true ↔
      r.headD 0 = 58 ∧ checkHex (r.drop 1) (r.length - 1) = true
        ∧ r.length = 11 + (getHexValue (r.drop 1) 2 % 256) * 2
        ∧ verifyChecksum (r.drop 1) (r.length - 1) = true
        ∧ ((readRecord r).type = 0 ∨ (readRecord r).type = 1 ∨ (readRecord r).type = 2
            ∨ (readRecord r).type = 5 ∨ ((readRecord r).type = 4 ∧ 15 ≤ r.length)) := by
  simp [validRecord, and_assoc, or_assoc]

theorem validToken_cases {t : List Nat} (h : validToken t = true) :
    t = [10] ∨ t = [13] ∨ (validRecord t = true ∧ t.length ≤ 128) := by
  simpa [validToken, or_assoc] using h

theorem validRecord_length {r : List Nat} (h : validRecord r = true) : 11 ≤ r.length := by
  have := ((validRecord_iff r).1 h).2.2.1
  omega

theorem validRecord_head {r : List Nat} (h : validRecord r = true) :
    ∃ r', r = 58 :: r' := by
  have hl := validRecord_length h
  have hh := ((validRecord_iff r).1 h).1
  cases r with
  | nil => simp at hl
  | cons c r' =>
    simp at hh
    exact ⟨r', by rw [hh]⟩

theorem validRecord_hex {r : List Nat} (h : validRecord r = true) :
    ∀ c ∈ r.drop 1, isHexChar c = true := by
  have hc := ((validRecord_iff r).1 h).2.1
  have := ((checkHex_iff _ _).1 hc).2
  intro c hcm
  apply this
  rw [List.take_of_length_le (by simp)]
  exact hcm

theorem isHexChar_ne_zero {c : Nat} (h : isHexChar c = true) : c ≠ 0 := by
  rintro rfl
  exact absurd h (by decide)

theorem validToken_ne_zero {t : List Nat} (h : validToken t = true) : ∀ c ∈ t, c ≠ 0 := by
  rcases validToken_cases h with rfl | rfl | ⟨hr, _⟩
  · simp
  · simp
  · obtain ⟨r', rfl⟩ := validRecord_head hr
    intro c hc
    rcases List.mem_cons.1 hc with rfl | hc
    · decide
    · exact isHexChar_ne_zero (validRecord_hex hr c (by simpa using hc))

theorem flatten_ne_zero {ts : List (List Nat)} (hts : ∀ t ∈ ts, validToken t = true) :
    ∀ c ∈ ts.flatten, c ≠ 0 := by
  intro c hc
  obtain ⟨t, ht, hct⟩ := List.mem_flatten.1 hc
  exact validToken_ne_zero (hts t ht) c hct

theorem cstr_eq_self {B : List Nat} (h : ∀ c ∈ B, c ≠ 0) : cstr B = B := by
  unfold cstr
  rw [List.takeWhile_eq_self_iff]
  intro c hc
  simpa using h c hc

theorem parseAll_append (g : HexRecord) (a b : List (List Nat)) :
    g.parseAll (a ++ b) = (g.parseAll a).parseAll b := by
  induction a generalizing g with
  | nil => rfl
  | cons t a ih =>
    simp only [List.cons_append, parseAll]
    split <;> exact ih _

theorem parseAll_crlf (g : HexRecord) (a : List (List Nat)) (ha : ∀ t ∈ a, t.length = 1) :
    g.parseAll a = g := by
  induction a with
  | nil => rfl
  | cons t a ih =>
    simp only [parseAll, ha t (List.mem_cons_self _ _), if_true]
    exact ih (fun t ht => ha t (List.mem_cons_of_mem _ ht))

/-- The line terminators at the front of the buffer are items of the text. -/
theorem skip_crlf_tokens (B U : List Nat) (ts : List (List Nat))
    (hts : ∀ t ∈ ts, validToken t = true) (hj : B ++ U = ts.flatten) :
    ∃ pre post, ts = pre ++ post ∧ (∀ t ∈ pre, t.length = 1)
      ∧ B.dropWhile isCRLF ++ U = post.flatten := by
  induction B generalizing ts with
  | nil => exact ⟨[], ts, rfl, by simp, by simpa using hj⟩
  | cons c B ih =>
    by_cases hc : isCRLF c = true
    · cases ts with
      | nil => simp at hj
      | cons t ts =>
        have hrest : ∀ t ∈ ts, validToken t = true := fun x hx => hts x (List.mem_cons_of_mem _ hx)
        have key : t.length = 1 ∧ B ++ U = ts.flatten := by
          rcases validToken_cases (hts t (List.mem_cons_self _ _)) with rfl | rfl | ⟨hr, _⟩
          · simp at hj
            exact ⟨rfl, hj.2⟩
          · simp at hj
            exact ⟨rfl, hj.2⟩
          · obtain ⟨r', rfl⟩ := validRecord_head hr
            simp at hj
            rw [hj.1] at hc
            exact absurd hc (by decide)
        obtain ⟨pre, post, h1, h2, h3⟩ := ih ts hrest key.2
        refine ⟨t :: pre, post, by rw [h1]; rfl, ?_, ?_⟩
        · intro x hx
          rcases List.mem_cons.1 hx with rfl | hx
          · exact key.1
          · exact h2 x hx
        · simpa [List.dropWhile_cons, hc] using h3
    · refine ⟨[], ts, rfl, by simp, ?_⟩
      simpa [List.dropWhile_cons, hc] using hj

/-- A buffer that does not start with a line terminator starts with the next
record of the text. -/
theorem head_token_record (B U : List Nat) (ts : List (List Nat))
    (hts : ∀ t ∈ ts, validToken t = true) (hj : B ++ U = ts.flatten) (hB : B ≠ [])
    (hhead : isCRLF (B.headD 0) = false) :
    ∃ r rest, ts = r :: rest ∧ validRecord r = true ∧ r.length ≤ 128 := by
  cases ts with
  | nil =>
    simp at hj
    exact absurd hj.1 hB
  | cons t ts =>
    cases B with
    | nil => exact absurd rfl hB
    | cons c B =>
      rcases validToken_cases (hts t (List.mem_cons_self _ _)) with rfl | rfl | ⟨hr, hl⟩
      · simp at hj
        simp [hj.1] at hhead
        exact absurd hhead (by decide)
      · simp at hj
        simp [hj.1] at hhead
        exact absurd hhead (by decide)
      · exact ⟨t, ts, rfl, hr, hl⟩

theorem headD_dropWhile_isCRLF (B : List Nat) :
    isCRLF ((B.dropWhile isCRLF).headD 0) = false := by
  induction B with
  | nil => decide
  | cons c B ih =>
    by_cases hc : isCRLF c = true
    · simpa [List.dropWhile_cons, hc] using ih
    · simp [List.dropWhile_cons, hc]

theorem dispatch_congr (h : HexRecord) (f f' : RecFields) (ht : f.type = f'.type)
    (ha : f.addr = f'.addr) (hd : f.data = f'.data) (he : f.type = 4 → f.ext = f'.ext) :
    h.dispatch f = h.dispatch f' := by
  by_cases h4 : f.type = 4
  · have : f = f' := by
      cases f
      cases f'
      simp_all
    rw [this]
  · have h4' : ¬ f'.type = 4 := by rw [← ht]; exact h4
    simp only [dispatch, ht, ha, hd, h4', if_false]

/-- The first three characters of a buffer that starts with a valid record. -/
theorem record_header (B U r X : List Nat) (hr : validRecord r = true)
    (hj : B ++ U = r ++ X) (hB : 11 ≤ B.length) :
    B.headD 0 = 58 ∧ checkHex (B.drop 1) 2 = true
      ∧ getHexValue (B.drop 1) 2 = getHexValue (r.drop 1) 2 := by
  have hl := validRecord_length hr
  have hhex := validRecord_hex hr
  rcases r with _ | ⟨r0, _ | ⟨r1, _ | ⟨r2, r'⟩⟩⟩ <;> simp at hl
  rcases B with _ | ⟨b0, _ | ⟨b1, _ | ⟨b2, B'⟩⟩⟩ <;> simp at hB
  simp at hj
  obtain ⟨h0, h1, h2, _⟩ := hj
  obtain ⟨r'', hr''⟩ := validRecord_head hr
  simp at hr''
  subst h0 h1 h2
  have ha : isHexChar b1 = true := hhex b1 (by simp)
  have hb : isHexChar b2 = true := hhex b2 (by simp)
  refine ⟨by simp [hr''.1], ?_, ?_⟩
  · simp [checkHex, ha, hb]
  · simp only [List.drop_succ_cons, List.drop_zero, getHexValue_two]

theorem validRecord_lenField {r : List Nat} (hr : validRecord r = true) :
    getHexValue (r.drop 1) 2 < 256 := by
  have hl := validRecord_length hr
  have hhex := validRecord_hex hr
  rcases r with _ | ⟨r0, _ | ⟨r1, _ | ⟨r2, r'⟩⟩⟩ <;> simp at hl
  have ha := hexDigit_lt (hhex r1 (by simp))
  have hb := hexDigit_lt (hhex r2 (by simp))
  simp only [List.drop_succ_cons, List.drop_zero, getHexValue_two]
  omega

theorem split_record (B U r X : List Nat) (hj : B ++ U = r ++ X) (hlen : r.length ≤ B.length) :
    ∃ B2, B = r ++ B2 ∧ X = B2 ++ U := by
  rcases List.append_eq_append_iff.1 hj with ⟨a, h1, h2⟩ | ⟨c, h1, h2⟩
  · have : a = [] := by
      have := congrArg List.length h1
      simp at this
      exact List.eq_nil_of_length_eq_zero (by omega)
    subst this
    exact ⟨[], by simpa using h1.symm, by simpa using h2.symm⟩
  · exact ⟨c, h1, h2⟩

theorem readRecord_append (r B2 : List Nat) (hr : validRecord r = true) :
    (readRecord (r ++ B2)).type = (readRecord r).type
      ∧ (readRecord (r ++ B2)).addr = (readRecord r).addr
      ∧ (readRecord (r ++ B2)).data = (readRecord r).data
      ∧ (13 ≤ r.length → (readRecord (r ++ B2)).ext = (readRecord r).ext) := by
  have hl := validRecord_length hr
  have hlen := ((validRecord_iff r).1 hr).2.2.1
  have hlf := validRecord_lenField hr
  have hd1 : (r ++ B2).drop 1 = r.drop 1 ++ B2 := drop_append_le r B2 1 (by omega)
  have hl1 : (r.drop 1).length = r.length - 1 := by simp
  simp only [readRecord, hd1]
  rw [drop_append_le _ B2 6 (by omega), drop_append_le _ B2 2 (by omega),
    drop_append_le _ B2 8 (by omega)]
  rw [getHexValue_append _ B2 2 (by simp; omega), getHexValue_append _ B2 4 (by simp; omega),
    getHexValue_append (r.drop 1) B2 2 (by simp; omega)]
  refine ⟨rfl, rfl, ?_, ?_⟩
  · rw [decodeBytes_append]
    rw [List.length_drop, List.length_drop]
    omega
  · intro h13
    rw [getHexValue_append _ B2 4 (by simp; omega)]

/-- `processRecord` on a buffer that starts with a valid record. -/
theorem processRecord_valid (h : HexRecord) (r B2 : List Nat) (hr : validRecord r = true)
    (hs : Sound h) (hsaved : h._saved = r ++ B2) :
    ∃ h2, h.processRecord r.length = (true, h2) ∧ Sound h2 ∧ h2._pageSz = h._pageSz
      ∧ h2.core = (h.core.dispatch (readRecord r)).2.core
      ∧ h2._saved = h._saved ∧ h2.calls = h.calls ∧ h2._stop = h._stop
      ∧ h2._stopArg = h._stopArg ∧ h2._resume = h._resume
      ∧ h2._resumeArg = h._resumeArg := by
  have hv := (validRecord_iff r).1 hr
  have hl := validRecord_length hr
  have hd1 : h._saved.drop 1 = r.drop 1 ++ B2 := by
    rw [hsaved]
    exact drop_append_le r B2 1 (by omega)
  have hhex : checkHex (h._saved.drop 1) (r.length - 1) = true := by
    rw [hd1, checkHex_append _ _ _ (by simp)]
    exact hv.2.1
  have hsum : verifyChecksum (h._saved.drop 1) (r.length - 1) = true := by
    rw [hd1, verifyChecksum_append _ _ _ (by simp)]
    exact hv.2.2.2.1
  have hra := readRecord_append r B2 hr
  have hty : (readRecord r).type = 0 ∨ (readRecord r).type = 1 ∨ (readRecord r).type = 2
      ∨ (readRecord r).type = 5 ∨ (readRecord r).type = 4 := by
    rcases hv.2.2.2.2 with h0 | h0 | h0 | h0 | h0
    · exact Or.inl h0
    · exact Or.inr (Or.inl h0)
    · exact Or.inr (Or.inr (Or.inl h0))
    · exact Or.inr (Or.inr (Or.inr (Or.inl h0)))
    · exact Or.inr (Or.inr (Or.inr (Or.inr h0.1)))
  have hcongr : h.dispatch (readRecord h._saved) = h.dispatch (readRecord r) := by
    rw [hsaved]
    apply dispatch_congr _ _ _ hra.1 hra.2.1 hra.2.2.1
    intro h4
    apply hra.2.2.2
    rw [hra.1] at h4
    rcases hv.2.2.2.2 with h0 | h0 | h0 | h0 | h0
    · omega
    · omega
    · omega
    · omega
    · omega
  have hok := dispatch_ok h (readRecord r) hty hs
  have hfr := dispatch_frame h (readRecord r)
  refine ⟨(h.dispatch (readRecord r)).2, ?_, hok.2.1, hok.2.2, hfr.2.1, hfr.2.2.1, hfr.2.2.2.1,
    hfr.2.2.2.2.1, hfr.2.2.2.2.2.1, hfr.2.2.2.2.2.2.1, hfr.2.2.2.2.2.2.2⟩
  rw [processRecord_of_checks h r.length hhex hsum, hcongr]
  exact Prod.ext hok.1 rfl

theorem core_with_saved (h : HexRecord) (s : List Nat) :
    ({ h with _saved := s } : HexRecord).core = h.core := rfl

theorem core_with_calls (h : HexRecord) (c : List (Nat × Nat)) :
    ({ h with calls := c } : HexRecord).core = h.core := rfl

theorem core_core (h : HexRecord) : h.core.core = h.core := rfl

/-- The inner loop of `_write` on a buffer that holds the front of a valid
text: it returns normally, has taken a whole number of items from the text, has
treated the records among them like `parseAll`, and stops blocked. -/
theorem processSaved_valid (qEmpty : Bool) :
    ∀ (fuel : Nat) (h : HexRecord) (U : List Nat) (ts : List (List Nat)),
      h._saved.length ≤ fuel → (∀ t ∈ ts, validToken t = true) →
      h._saved ++ U = ts.flatten → Sound h →
      ∃ h2 pre post, processSaved qEmpty fuel h = (true, h2) ∧ ts = pre ++ post
        ∧ h2._saved ++ U = post.flatten ∧ h2.core = h.core.parseAll pre
        ∧ blocked h2._saved post ∧ Sound h2 ∧ h2._pageSz = h._pageSz
        ∧ h2._stop = h._stop ∧ h2._stopArg = h._stopArg ∧ h2._resume = h._resume
        ∧ h2._resumeArg = h._resumeArg
        ∧ (∀ c ∈ h2.calls, c ∈ h.calls ∨ c = (h._stop, h._stopArg)) := by
  intro fuel
  induction fuel with
  | zero =>
    intro h U ts hfuel hts hj hs
    refine ⟨h, [], ts, rfl, rfl, hj, rfl, Or.inl (by omega), hs, rfl, rfl, rfl, rfl, rfl,
      fun c hc => Or.inl hc⟩
  | succ fuel ih =>
    intro h U ts hfuel hts hj hs
    by_cases hlen : h._saved.length < 11
    · refine ⟨h, [], ts, processSaved_short _ _ _ hlen, rfl, hj, rfl, Or.inl hlen, hs, rfl,
        rfl, rfl, rfl, rfl, fun c hc => Or.inl hc⟩
    · have hge : 11 ≤ h._saved.length := by omega
      obtain ⟨pre1, post1, hts1, hpre1, hj1⟩ := skip_crlf_tokens h._saved U ts hts hj
      have hpost1 : ∀ t ∈ post1, validToken t = true := fun t ht =>
        hts t (by rw [hts1]; exact List.mem_append_right _ ht)
      have hdl : (h._saved.dropWhile isCRLF).length ≤ h._saved.length := by
        rw [← drop_takeWhile_length]
        simp
      rw [processSaved_succ qEmpty fuel h hge]
      by_cases hl1 : (h._saved.dropWhile isCRLF).length < 11
      · rw [if_pos hl1]
        exact ⟨_, pre1, post1, rfl, hts1, hj1, by rw [parseAll_crlf _ _ hpre1]; rfl,
          Or.inl hl1, hs, rfl, rfl, rfl, rfl, rfl, fun c hc => Or.inl hc⟩
      · rw [if_neg hl1]
        have hB1 : h._saved.dropWhile isCRLF ≠ [] := by
          intro hnil
          rw [hnil] at hl1
          simp at hl1
        obtain ⟨r, rest, hpost, hr, hr128⟩ := head_token_record _ U post1 hpost1 hj1 hB1
          (headD_dropWhile_isCRLF _)
        have hj2 : h._saved.dropWhile isCRLF ++ U = r ++ rest.flatten := by
          rw [hj1, hpost]
          simp
        obtain ⟨hhead, hhex, hval⟩ := record_header _ U r _ hr hj2 (by omega)
        have hlf := validRecord_lenField hr
        have hrl := ((validRecord_iff r).1 hr).2.2.1
        have hrecLen : 11 + (getHexValue ((h._saved.dropWhile isCRLF).drop 1) 2 % 256) * 2
            = r.length := by
          rw [hval, hrl]
        rw [if_neg (fun hne => hne hhead), if_neg (by rw [hhex]; decide), hrecLen]
        by_cases hfit : (h._saved.dropWhile isCRLF).length < r.length
        · rw [if_pos hfit]
          exact ⟨_, pre1, post1, rfl, hts1, hj1, by rw [parseAll_crlf _ _ hpre1]; rfl,
            Or.inr ⟨r, rest, hpost, hr, hfit⟩, hs, rfl, rfl, rfl, rfl, rfl, fun c hc => Or.inl hc⟩
        · rw [if_neg hfit]
          obtain ⟨B2, hB2, hrest⟩ := split_record _ U r _ hj2 (by omega)
          obtain ⟨h2, hproc, hs2, hsz2, hcore2, hsv2, hcalls2, hst2, hsa2, hre2, hra2⟩ :=
            processRecord_valid { h with _saved := h._saved.dropWhile isCRLF } r B2 hr hs hB2
          rw [hproc]
          simp only []
          have hrestv : ∀ t ∈ rest, validToken t = true := fun t ht =>
            hpost1 t (by rw [hpost]; exact List.mem_cons_of_mem _ ht)
          have hB2len : B2.length + 11 ≤ h._saved.length := by
            have := congrArg List.length hB2
            simp at this
            have := validRecord_length hr
            omega
          -- the state handed to the next round
          have hnext : ∀ h3 : HexRecord, h3.core = h2.core → Sound h3 → h3._pageSz = h2._pageSz →
              h3._saved = h2._saved → h3._stop = h2._stop → h3._stopArg = h2._stopArg →
              h3._resume = h2._resume → h3._resumeArg = h2._resumeArg →
              (∀ c ∈ h3.calls, c ∈ h.calls ∨ c = (h._stop, h._stopArg)) →
              ∃ h4 pre post, processSaved qEmpty fuel
                  { h3 with _saved := h3._saved.drop r.length } = (true, h4)
                ∧ ts = pre ++ post ∧ h4._saved ++ U = post.flatten
                ∧ h4.core = h.core.parseAll pre ∧ blocked h4._saved post ∧ Sound h4
                ∧ h4._pageSz = h._pageSz ∧ h4._stop = h._stop ∧ h4._stopArg = h._stopArg
                ∧ h4._resume = h._resume ∧ h4._resumeArg = h._resumeArg
                ∧ (∀ c ∈ h4.calls, c ∈ h.calls ∨ c = (h._stop, h._stopArg)) := by
            intro h3 hc3 hs3 hsz3 hsv3 hst3 hsa3 hre3 hra3 hcl3
            have hdrop : h3._saved.drop r.length = B2 := by
              rw [hsv3, hsv2]
              show (h._saved.dropWhile isCRLF).drop r.length = B2
              rw [hB2]
              simp
            rw [hdrop]
            obtain ⟨h4, pre', post', hp, htsr, hj4, hcore4, hbl4, hs4, hsz4, hst4, hsa4, hre4,
              hra4, hcl4⟩ := ih { h3 with _saved := B2 } U rest (by show B2.length ≤ fuel; omega)
                hrestv (by show B2 ++ U = rest.flatten; rw [hrest]) hs3
            have hst3' : h3._stop = h._stop := by rw [hst3, hst2]
            have hsa3' : h3._stopArg = h._stopArg := by rw [hsa3, hsa2]
            refine ⟨h4, pre1 ++ r :: pre', post', hp, ?_, hj4, ?_, hbl4, hs4, ?_, ?_, ?_, ?_, ?_,
              ?_⟩
            · rw [hts1, hpost, htsr]
              simp
            · rw [hcore4, parseAll_append, parseAll_crlf _ _ hpre1]
              have hrne : ¬ r.length = 1 := by
                have := validRecord_length hr
                omega
              simp only [parseAll, hrne, if_false]
              congr 1
              rw [core_with_saved, hc3, hcore2]
              rfl
            · rw [hsz4]
              show h3._pageSz = h._pageSz
              rw [hsz3, hsz2]
            · rw [hst4]
              show h3._stop = h._stop
              rw [hst3, hst2]
            · rw [hsa4]
              show h3._stopArg = h._stopArg
              rw [hsa3, hsa2]
            · rw [hre4]
              show h3._resume = h._resume
              rw [hre3, hre2]
            · rw [hra4]
              show h3._resumeArg = h._resumeArg
              rw [hra3, hra2]
            · intro c hc
              rcases hcl4 c hc with h5 | h5
              · exact hcl3 c h5
              · right
                rw [h5]
                show (h3._stop, h3._stopArg) = _
                rw [hst3', hsa3']
          have hcl2 : ∀ c ∈ h2.calls, c ∈ h.calls ∨ c = (h._stop, h._stopArg) := by
            intro c hc
            rw [hcalls2] at hc
            exact Or.inl hc
          by_cases hq : qEmpty = true ∧ h2._lastPage ≠ []
          · simp only [if_pos hq]
            refine hnext { h2 with calls := h2.calls ++ [(h2._stop, h2._stopArg)] } rfl hs2 rfl
              rfl rfl rfl rfl rfl ?_
            intro c hc
            rcases List.mem_append.1 hc with h5 | h5
            · exact hcl2 c h5
            · right
              rw [List.mem_singleton.1 h5, hst2, hsa2]
          · simp only [if_neg hq]
            exact hnext h2 rfl hs2 rfl rfl rfl rfl rfl rfl hcl2

theorem blocked_length {B : List Nat} {ts : List (List Nat)}
    (hts : ∀ t ∈ ts, validToken t = true) (hb : blocked B ts) : B.length < 128 := by
  rcases hb with hb | ⟨r, rest, rfl, hr, hlt⟩
  · omega
  · have hl := validRecord_length hr
    rcases validToken_cases (hts r (List.mem_cons_self _ _)) with h1 | h1 | ⟨_, h128⟩
    · rw [h1] at hl
      simp at hl
    · rw [h1] at hl
      simp at hl
    · omega

/-- One round of the outer loop of `_write` when the buffer holds no `0` and is
not full. -/
theorem writeLoop_succ (qEmpty : Bool) (ret fuel : Nat) (D : List Nat) (h : HexRecord)
    (hD : 0 < D.length) (hc : cstr h._saved = h._saved) (hlt : h._saved.length < h._pageSz)
    (cpy : Nat)
    (hcpy : cpy = if h._pageSz - h._saved.length > D.length then D.length
      else h._pageSz - h._saved.length) :
    writeLoop qEmpty ret (fuel + 1) D h =
      match processSaved qEmpty (h._saved ++ D.take cpy).length
          { h with _saved := h._saved ++ D.take cpy } with
      | (false, h1) => some (0, h1)
      | (true, h1) => writeLoop qEmpty ret fuel (D.drop cpy) h1 := by
  have hD' : D.length > 0 := hD
  simp only [writeLoop, hD', if_true, hc, hlt, ← hcpy]

/-- The outer loop of `_write` on the front of a valid text: it returns `ret`,
and with what was left in the buffer it has taken a whole number of items and
stops blocked. -/
theorem writeLoop_valid (qEmpty : Bool) (ret : Nat) :
    ∀ (fuel : Nat) (D : List Nat) (h : HexRecord) (U : List Nat) (ts : List (List Nat)),
      D.length < fuel → (∀ t ∈ ts, validToken t = true) →
      h._saved ++ (D ++ U) = ts.flatten → Sound h → h._pageSz = 128 → blocked h._saved ts →
      ∃ h2 pre post, writeLoop qEmpty ret fuel D h = some (ret, h2) ∧ ts = pre ++ post
        ∧ h2._saved ++ U = post.flatten ∧ h2.core = h.core.parseAll pre
        ∧ blocked h2._saved post ∧ Sound h2 ∧ h2._pageSz = 128
        ∧ h2._stop = h._stop ∧ h2._stopArg = h._stopArg ∧ h2._resume = h._resume
        ∧ h2._resumeArg = h._resumeArg ∧ (∀ t ∈ post, validToken t = true)
        ∧ (∀ c ∈ h2.calls, c ∈ h.calls ∨ c = (h._stop, h._stopArg)) := by
  intro fuel
  induction fuel with
  | zero =>
    intro D h U ts hfuel
    omega
  | succ fuel ih =>
    intro D h U ts hfuel hts hj hs hsz hbl
    by_cases hD : D.length = 0
    · have hDnil : D = [] := List.eq_nil_of_length_eq_zero hD
      subst hDnil
      refine ⟨h, [], ts, by simp [writeLoop], rfl, by simpa using hj, rfl, hbl, hs, hsz, rfl,
        rfl, rfl, rfl, hts, fun c hc => Or.inl hc⟩
    · have hDpos : 0 < D.length := by omega
      have hnz : ∀ c ∈ h._saved, c ≠ 0 := fun c hc =>
        flatten_ne_zero hts c (by rw [← hj]; exact List.mem_append_left _ hc)
      have hc := cstr_eq_self hnz
      have hlt := blocked_length hts hbl
      obtain ⟨cpy, hcpy⟩ : ∃ cpy, cpy = if h._pageSz - h._saved.length > D.length then D.length
          else h._pageSz - h._saved.length := ⟨_, rfl⟩
      have hcpy1 : 1 ≤ cpy ∧ cpy ≤ D.length := by
        rw [hcpy, hsz]
        split <;> omega
      rw [writeLoop_succ qEmpty ret fuel D h hDpos hc (by rw [hsz]; exact hlt) cpy hcpy]
      obtain ⟨h1, pre1, post1, hp1, hts1, hj1, hcore1, hbl1, hs1, hsz1, hst1, hsa1, hre1, hra1,
        hcl1⟩ :=
        processSaved_valid qEmpty (h._saved ++ D.take cpy).length
          { h with _saved := h._saved ++ D.take cpy } (D.drop cpy ++ U) ts (le_refl _) hts
          (by
            show (h._saved ++ D.take cpy) ++ (D.drop cpy ++ U) = ts.flatten
            rw [← hj]
            rw [List.append_assoc, ← List.append_assoc (D.take cpy), List.take_append_drop]) hs
      rw [hp1]
      simp only []
      have hpost1 : ∀ t ∈ post1, validToken t = true := fun t ht =>
        hts t (by rw [hts1]; exact List.mem_append_right _ ht)
      obtain ⟨h2, pre2, post2, hp2, hts2, hj2, hcore2, hbl2, hs2, hsz2, hst2, hsa2, hre2, hra2,
        hpost2, hcl2⟩ := ih (D.drop cpy) h1 U post1 (by simp; omega) hpost1 hj1 hs1
          (by rw [hsz1]; exact hsz) hbl1
      refine ⟨h2, pre1 ++ pre2, post2, hp2, by rw [hts1, hts2, List.append_assoc], hj2, ?_, hbl2,
        hs2, hsz2, by rw [hst2, hst1], by rw [hsa2, hsa1], by rw [hre2, hre1],
        by rw [hra2, hra1], hpost2, ?_⟩
      · rw [hcore2, hcore1, parseAll_append]
        rfl
      · intro c hc
        rcases hcl2 c hc with h5 | h5
        · exact hcl1 c h5
        · right
          rw [h5, hst1, hsa1]

theorem hasError_of_sound {h : HexRecord} (hs : Sound h) : h.hasError = false := by
  simp [hasError, hs.2]

/-- One `write` call with the next part of a valid text. -/
theorem write_valid (stop resume cbArg fuel : Nat) (D : List Nat) (h : HexRecord)
    (U : List Nat) (ts : List (List Nat)) (hfuel : D.length < fuel)
    (hts : ∀ t ∈ ts, validToken t = true) (hj : h._saved ++ (D ++ U) = ts.flatten)
    (hs : Sound h) (hsz : h._pageSz = 128) (hbl : blocked h._saved ts)
    (hcl : ∀ c ∈ h.calls, c = (stop, cbArg)) :
    ∃ h2 pre post, h.write D stop resume cbArg fuel = some (D.length, h2) ∧ ts = pre ++ post
      ∧ h2._saved ++ U = post.flatten ∧ h2.core = h.core.parseAll pre
      ∧ blocked h2._saved post ∧ Sound h2 ∧ h2._pageSz = 128
      ∧ (∀ t ∈ post, validToken t = true) ∧ (∀ c ∈ h2.calls, c = (stop, cbArg)) := by
  obtain ⟨h2, pre, post, hw, h1, h2', h3, h4, h5, h6, -, -, -, -, h7, h8⟩ :=
    writeLoop_valid (h._lastPage == []) D.length fuel D
      { h with _stop := stop, _stopArg := cbArg, _resume := resume, _resumeArg := cbArg }
      U ts hfuel hts hj hs hsz hbl
  refine ⟨h2, pre, post, ?_, h1, h2', h3, h4, h5, h6, h7, ?_⟩
  · simp only [write, hasError_of_sound hs, _write]
    exact hw
  · intro c hc
    rcases h8 c hc with h9 | h9
    · exact hcl c h9
    · exact h9

/-- Successive `write` calls with the chunks of the next part of a valid text. -/
theorem writeChunks_valid (stop resume cbArg fuel : Nat) :
    ∀ (chunks : List (List Nat)) (h : HexRecord) (U : List Nat) (ts : List (List Nat)),
      (∀ c ∈ chunks, c.length < fuel) → (∀ t ∈ ts, validToken t = true) →
      h._saved ++ (chunks.flatten ++ U) = ts.flatten → Sound h → h._pageSz = 128 →
      blocked h._saved ts → (∀ c ∈ h.calls, c = (stop, cbArg)) →
      ∃ h2 pre post, h.writeChunks stop resume cbArg fuel chunks
          = some (chunks.map List.length, h2) ∧ ts = pre ++ post
        ∧ h2._saved ++ U = post.flatten ∧ h2.core = h.core.parseAll pre
        ∧ blocked h2._saved post ∧ Sound h2 ∧ h2._pageSz = 128
        ∧ (∀ t ∈ post, validToken t = true) ∧ (∀ c ∈ h2.calls, c = (stop, cbArg)) := by
  intro chunks
  induction chunks with
  | nil =>
    intro h U ts hfuel hts hj hs hsz hbl hcl
    exact ⟨h, [], ts, rfl, rfl, by simpa using hj, rfl, hbl, hs, hsz, hts, hcl⟩
  | cons c cs ih =>
    intro h U ts hfuel hts hj hs hsz hbl hcl
    obtain ⟨h1, pre1, post1, hw1, hts1, hj1, hcore1, hbl1, hs1, hsz1, hpost1, hcl1⟩ :=
      write_valid stop resume cbArg fuel c h (cs.flatten ++ U) ts
        (hfuel c (List.mem_cons_self _ _)) hts (by simpa using hj) hs hsz hbl hcl
    obtain ⟨h2, pre2, post2, hw2, hts2, hj2, hcore2, hbl2, hs2, hsz2, hpost2, hcl2⟩ :=
      ih h1 U post1 (fun x hx => hfuel x (List.mem_cons_of_mem _ hx)) hpost1 hj1 hs1 hsz1 hbl1 hcl1
    refine ⟨h2, pre1 ++ pre2, post2, ?_, by rw [hts1, hts2, List.append_assoc], hj2, ?_, hbl2,
      hs2, hsz2, hpost2, hcl2⟩
    · simp only [writeChunks, hw1, hw2, List.map_cons]
    · rw [hcore2, hcore1, parseAll_append]

/-- When the whole text has been written and the inner loop is blocked, no
record is left in the buffer. -/
theorem blocked_final (post : List (List Nat)) (hpost : ∀ t ∈ post, validToken t = true)
    (hbl : blocked post.flatten post) : ∀ t ∈ post, t.length = 1 := by
  rcases hbl with hb | ⟨r, rest, rfl, hr, hlt⟩
  · intro t ht
    rcases validToken_cases (hpost t ht) with h1 | h1 | ⟨hr, _⟩
    · rw [h1]; rfl
    · rw [h1]; rfl
    · have := validRecord_length hr
      have hle : t.length ≤ post.flatten.length := by
        rw [List.length_flatten]
        exact List.single_le_sum (by simp) _ (List.mem_map_of_mem _ ht)
      omega
  · simp at hlt

theorem parsed_of_core {h1 h2 : HexRecord} (h : h1.core = h2.core) :
    h1._lastPage = h2._lastPage ∧ h1._address = h2._address ∧ h1._pageLen = h2._pageLen
      ∧ h1._pageBuf = h2._pageBuf ∧ h1._eof = h2._eof := by
  have e1 : h1.core._lastPage = h2.core._lastPage := by rw [h]
  have e2 : h1.core._address = h2.core._address := by rw [h]
  have e3 : h1.core._pageLen = h2.core._pageLen := by rw [h]
  have e4 : h1.core._pageBuf = h2.core._pageBuf := by rw [h]
  have e5 : h1.core._eof = h2.core._eof := by rw [h]
  exact ⟨e1, e2, e3, e4, e5⟩

/-- All chunks of a valid text written by successive calls on a fresh parser of
page size 128 whose allocator never fails. -/
theorem writeChunks_fresh (stop resume cbArg fuel : Nat) (toks chunks : List (List Nat))
    (hvalid : ∀ t ∈ toks, validToken t = true) (hsplit : chunks.flatten = toks.flatten)
    (hfuel : toks.flatten.length < fuel) :
    ∃ h2, (HexRecord.new 128 []).writeChunks stop resume cbArg fuel chunks
        = some (chunks.map List.length, h2)
      ∧ h2.core = (HexRecord.new 128 []).core.parseAll toks ∧ Sound h2
      ∧ (∀ c ∈ h2.calls, c = (stop, cbArg)) := by
  have hlen : ∀ c ∈ chunks, c.length < fuel := by
    intro c hc
    have hle : c.length ≤ chunks.flatten.length := by
      rw [List.length_flatten]
      exact List.single_le_sum (by simp) _ (List.mem_map_of_mem _ hc)
    rw [hsplit] at hle
    omega
  obtain ⟨h2, pre, post, hw, hts, hj, hcore, hbl, hs, hsz, hpost, hcl⟩ :=
    writeChunks_valid stop resume cbArg fuel chunks (HexRecord.new 128 []) [] toks hlen hvalid
      (by
        show [] ++ (chunks.flatten ++ []) = toks.flatten
        simp [hsplit])
      ⟨rfl, rfl⟩ rfl (Or.inl (by decide)) (by intro c hc; cases hc)
  refine ⟨h2, hw, ?_, hs, hcl⟩
  have hj' : h2._saved = post.flatten := by simpa using hj
  rw [hj'] at hbl
  rw [hcore, hts, parseAll_append, parseAll_crlf _ post (blocked_final post hpost hbl)]

set_option maxRecDepth 1000000 in
theorem writeLoop_stuck (fuel : Nat) :
    writeLoop true 152 fuel (longFile.drop 128) stuckParser = none := by
  induction fuel with
  | zero => rfl
  | succ fuel ih =>
    have step : writeLoop true 152 (fuel + 1) (longFile.drop 128) stuckParser
        = writeLoop true 152 fuel (longFile.drop 128) stuckParser := by
      rfl
    rw [step, ih]

set_option maxRecDepth 1000000 in
theorem write_longFile (fuel : Nat) :
    (HexRecord.new 128 []).write longFile 7 8 9 fuel = none := by
  cases fuel with
  | zero => rfl
  | succ fuel =>
    have step : (HexRecord.new 128 []).write longFile 7 8 9 (fuel + 1)
        = writeLoop true 152 fuel (longFile.drop 128) stuckParser := by
      rfl
    rw [step, writeLoop_stuck]

theorem storeBuf_eq (buf : List Nat) (len : Nat) (bs : List Nat)
    (h1 : len + bs.length ≤ buf.length) (h2 : len + bs.length < 65536) :
    storeBuf buf len bs = (buf.take len ++ bs ++ buf.drop (len + bs.length), len + bs.length) := by
  induction bs generalizing buf len with
  | nil => simp [storeBuf]
  | cons b bs ih =>
    simp only [List.length_cons] at h1 h2
    have hlt : len < buf.length := by omega
    have hmod : (len + 1) % 65536 = len + 1 := Nat.mod_eq_of_lt (by omega)
    simp only [storeBuf, hmod]
    rw [ih (buf.set len b) (len + 1) (by simp; omega) (by omega)]
    have e1 : (buf.set len b).take (len + 1) = buf.take len ++ [b] := by
      rw [List.set_eq_take_append_cons_drop, if_pos hlt]
      rw [List.take_append_eq_append_take]
      simp [List.length_take, Nat.min_eq_left (Nat.le_of_lt hlt)]
    have e2 : (buf.set len b).drop (len + 1 + bs.length) = buf.drop (len + 1 + bs.length) :=
      List.drop_set_of_lt b buf (by omega)
    rw [e1, e2]
    simp [Nat.add_assoc, Nat.add_comm 1]

theorem high_or_low_mod (A a : Nat) (ha : a < 65536) :
    ((A &&& 4294901760) ||| a) % 65536 = a := by
  have h1 := Nat.and_pow_two_sub_one_eq_mod ((A &&& 4294901760) ||| a) 16
  have h2 := Nat.and_pow_two_sub_one_eq_mod a 16
  norm_num at h1 h2
  rw [← h1, Nat.and_distrib_right, Nat.and_assoc, h2]
  have h3 : (4294901760 : Nat) &&& 65535 = 0 := by decide
  rw [h3, Nat.and_zero, Nat.zero_or]
  exact Nat.mod_eq_of_lt ha

/-- The continuation test of the data case, for an open page whose address has
the low 16 bits `a`. -/
theorem next_address (A a n : Nat) (ha : a < 65536) :
    ((((A &&& 4294901760) ||| a) + n) % 4294967296) &&& 65535 = (a + n) % 65536 := by
  have h1 := Nat.and_pow_two_sub_one_eq_mod ((((A &&& 4294901760) ||| a) + n) % 4294967296) 16
  norm_num at h1
  rw [h1, Nat.add_mod, high_or_low_mod A a ha, Nat.add_mod_mod]

theorem readRecord_addr_lt (r : List Nat) (hr : validRecord r = true) :
    (readRecord r).addr < 65536 := by
  have hl := validRecord_length hr
  have hhex := validRecord_hex hr
  rcases r with _ | ⟨r0, _ | ⟨r1, _ | ⟨r2, _ | ⟨r3, _ | ⟨r4, _ | ⟨r5, _ | ⟨r6, r'⟩⟩⟩⟩⟩⟩⟩ <;>
    simp at hl
  have h3 := hexDigit_lt (hhex r3 (by simp))
  have h4 := hexDigit_lt (hhex r4 (by simp))
  have h5 := hexDigit_lt (hhex r5 (by simp))
  have h6 := hexDigit_lt (hhex r6 (by simp))
  simp only [readRecord, List.drop_succ_cons, List.drop_zero, getHexValue_four]
  omega

theorem readRecord_data_length (r : List Nat) (hr : validRecord r = true) :
    (readRecord r).data.length < 256 := by
  have := validRecord_lenField hr
  simp only [readRecord, decodeBytes_length]
  omega

theorem processRecord_data (h : HexRecord) (r : List Nat) (hr : validRecord r = true)
    (ht : (readRecord r).type = 0) :
    ({ h with _saved := r } : HexRecord).processRecord r.length
      = (true, ((({ h with _saved := r } : HexRecord).startData (readRecord r).addr).storeBytes
          (readRecord r).data).flushFull) := by
  have hv := (validRecord_iff r).1 hr
  rw [processRecord_of_checks _ _ hv.2.1 hv.2.2.2.1]
  simp only [dispatch, ht, if_true]

theorem storeBytes_eq (h : HexRecord) (bs : List Nat)
    (h1 : h._pageLen + bs.length ≤ h._pageBuf.length) (h2 : h._pageLen + bs.length < 65536) :
    h.storeBytes bs =
      { h with
        _pageBuf := h._pageBuf.take h._pageLen ++ bs ++ h._pageBuf.drop (h._pageLen + bs.length)
        _pageLen := h._pageLen + bs.length } := by
  rw [storeBytes_eq_storeBuf, storeBuf_eq _ _ _ h1 h2]

theorem startData_empty (h : HexRecord) (addr : Nat) (h0 : h._pageLen = 0) :
    h.startData addr = { h with _address := (h._address &&& 4294901760) ||| addr } := by
  simp [startData, h0]

theorem startData_cont (h : HexRecord) (addr : Nat) (h0 : 0 < h._pageLen)
    (hc : addr = (h._address + h._pageLen) % 4294967296 &&& 65535) :
    h.startData addr = h := by
  have hne : h._pageLen ≠ 0 := by omega
  simp [startData, ← hc, hne]

theorem startData_gap (h : HexRecord) (addr : Nat) (h0 : 0 < h._pageLen)
    (hc : addr ≠ (h._address + h._pageLen) % 4294967296 &&& 65535) (hheap : h.heap = []) :
    h.startData addr =
      { h with
        heap := []
        _lastPage := h._lastPage ++
          [{ len := h._pageLen, addr := h._address, data := h._pageBuf.take h._pageLen }]
        _pageLen := 0
        _address := (h._address &&& 4294901760) ||| addr } := by
  simp [startData, h0, hc, addPage, hheap]

theorem flushFull_open (h : HexRecord) (h0 : h._pageLen < h._pageSz) : h.flushFull = h := by
  have : ¬ h._pageLen ≥ h._pageSz := by omega
  simp [flushFull, this]

theorem flushFull_full (h : HexRecord) (h0 : h._pageSz ≤ h._pageLen) (hheap : h.heap = []) :
    h.flushFull =
      { h with
        heap := []
        _lastPage := h._lastPage ++
          [{ len := h._pageLen, addr := h._address, data := h._pageBuf.take h._pageLen }]
        _pageLen := 0 } := by
  have : h._pageLen ≥ h._pageSz := h0
  simp [flushFull, this, addPage, hheap]

theorem take_append_self_length (d x : List Nat) : (d ++ x).take d.length = d := by
  simp

theorem take_append_append (d1 d2 x : List Nat) :
    (d1 ++ (d2 ++ x)).take (d1.length + d2.length) = d1 ++ d2 := by
  have h : List.take (d1.length + d2.length) ((d1 ++ d2) ++ x) = d1 ++ d2 :=
    List.take_left' (by simp)
  rwa [List.append_assoc] at h

theorem checksumFrom_eq_pairSum (s fuel : Nat) (buf : List Nat) (n : Nat)
    (hn : n ≤ buf.length) (hfuel : n ≤ 2 * fuel + 1) (hs : s < 256) :
    checksumFrom s fuel buf n = (s + pairSum (buf.take n)) % 256 := by
  induction fuel generalizing s buf n with
  | zero =>
    have hn1 : n = 0 ∨ n = 1 := by omega
    rcases hn1 with rfl | rfl
    · simp [checksumFrom, pairSum]
      omega
    · cases buf with
      | nil => simp at hn
      | cons a buf =>
        simp [checksumFrom, pairSum]
        omega
  | succ fuel ih =>
    by_cases h2 : n ≥ 2
    · rcases buf with _ | ⟨a, _ | ⟨b, rest⟩⟩
      · simp at hn; omega
      · simp at hn; omega
      · obtain ⟨m, rfl⟩ : ∃ m, n = m + 2 := ⟨n - 2, by omega⟩
        simp only [checksumFrom, h2, if_true, getHexValue_two, List.drop_succ_cons, List.drop_zero,
          Nat.add_sub_cancel, List.take_succ_cons, pairSum]
        rw [ih _ rest m (by simp at hn; omega) (by omega) (Nat.mod_lt _ (by norm_num))]
        omega
    · have hn1 : n = 0 ∨ n = 1 := by omega
      rcases hn1 with rfl | rfl
      · simp [checksumFrom, pairSum]
        omega
      · cases buf with
        | nil => simp at hn
        | cons a buf =>
          simp [checksumFrom, pairSum]
          omega

theorem verifyChecksum_eq (buf : List Nat) (n : Nat) (hn : n ≤ buf.length) :
    verifyChecksum buf n = (pairSum (buf.take n) % 256 == 0) := by
  unfold verifyChecksum
  rw [checksumFrom_eq_pairSum 0 n buf n hn (by omega) (by norm_num)]
  simp

theorem hexDigit_of_key {c c' : Nat} (h : hexKey c' = hexKey c) : hexDigit c' = hexDigit c := by
  simp only [hexKey, Prod.mk.injEq, decide_eq_decide] at h
  unfold hexDigit
  rw [h.1]
  by_cases h57 : c > 57
  · rw [if_pos h57, if_pos (h.2.2 h57)]
  · rw [if_neg h57, if_neg (fun h' => h57 (h.2.1 h'))]

theorem getD_set_eq (L : List Nat) (p q c : Nat) (hp : p < L.length) :
    (L.set p c).getD q 0 = if q = p then c else L.getD q 0 := by
  simp only [List.getD_eq_getElem?_getD, List.getElem?_set]
  by_cases hq : q = p
  · subst hq
    simp [hp]
  · have : ¬ p = q := fun h => hq h.symm
    simp [hq, this]

theorem digitValue_eq {c : Nat} (h : isHexChar c = true) : digitValue c = hexDigit c := by
  have hle := isHexChar_le h
  revert h
  have : ∀ c ≤ 102, isHexChar c = true → digitValue c = hexDigit c := by decide
  exact this c hle

theorem pairSum_eq_sum : ∀ (n : Nat) (l : List Nat), l.length ≤ n →
    (∀ c ∈ l, isHexChar c = true) → pairSum l = (bytesOfText l).sum := by
  intro n
  induction n using Nat.strong_induction_on with
  | _ n ih =>
    intro l hl hhex
    match l, hl, hhex with
    | [], _, _ => rfl
    | [_], _, _ => rfl
    | a :: b :: rest, hl, hhex =>
      have ha : isHexChar a = true := hhex a (by simp)
      have hb : isHexChar b = true := hhex b (by simp)
      have h1 := hexDigit_lt ha
      have h2 := hexDigit_lt hb
      simp only [pairSum, bytesOfText, List.sum_cons, digitValue_eq ha, digitValue_eq hb]
      simp only [List.length_cons] at hl
      rw [ih (n - 2) (by omega) rest (by omega) (fun c hc => hhex c (by simp [hc]))]
      rw [Nat.mod_eq_of_lt (by omega)]

theorem ext_address (H A : Nat) (hH : H < 65536) (hA : A < 65536) :
    ((((H <<< 16) % 4294967296) &&& 4294901760) ||| A) = H * 65536 + A := by
  have h1 : (H <<< 16) % 4294967296 = H <<< 16 := by
    apply Nat.mod_eq_of_lt
    rw [Nat.shiftLeft_eq]
    omega
  have h2 : (4294901760 : Nat) = 65535 <<< 16 := by decide
  have h4 : H <<< 16 &&& 65535 <<< 16 = H <<< 16 := by
    apply Nat.eq_of_testBit_eq
    intro i
    have e : (65535 : Nat) = 2 ^ 16 - 1 := by norm_num
    rw [Nat.testBit_and, Nat.testBit_shiftLeft, Nat.testBit_shiftLeft, e,
      Nat.testBit_two_pow_sub_one]
    by_cases hi : i - 16 < 16
    · simp [hi]
      tauto
    · have hp : H < 2 ^ (i - 16) :=
        lt_of_lt_of_le hH (by
          have := Nat.pow_le_pow_right (show 0 < 2 by decide) (show 16 ≤ i - 16 by omega)
          simpa using this)
      simp [Nat.testBit_lt_two_pow hp]
  have h5 := Nat.mul_add_lt_is_or (show A < 2 ^ 16 by simpa using hA) H
  rw [h1, h2, h4, Nat.shiftLeft_eq, Nat.mul_comm H, ← h5]

theorem readRecord_ext (r : List Nat) (hi lo : Nat) (hr : validRecord r = true)
    (hd : (readRecord r).data = [hi, lo]) :
    (readRecord r).ext = 256 * hi + lo ∧ hi < 256 ∧ lo < 256 := by
  have hv := (validRecord_iff r).1 hr
  have hlf := validRecord_lenField hr
  have hhex := validRecord_hex hr
  have hlen : (readRecord r).data.length = 2 := by rw [hd]; rfl
  simp only [readRecord, decodeBytes_length] at hlen
  have hlen' : getHexValue (r.drop 1) 2 = 2 := by omega
  have hl : r.length = 15 := by rw [hv.2.2.1, hlen']
  rcases r with _ | ⟨r0, _ | ⟨r1, _ | ⟨r2, _ | ⟨r3, _ | ⟨r4, _ | ⟨r5, _ | ⟨r6, _ | ⟨r7,
    _ | ⟨r8, _ | ⟨r9, _ | ⟨r10, _ | ⟨r11, _ | ⟨r12, r'⟩⟩⟩⟩⟩⟩⟩⟩⟩⟩⟩⟩⟩ <;> simp at hl
  have h9 := hexDigit_lt (hhex r9 (by simp))
  have h10 := hexDigit_lt (hhex r10 (by simp))
  have h11 := hexDigit_lt (hhex r11 (by simp))
  have h12 := hexDigit_lt (hhex r12 (by simp))
  simp only [readRecord, List.drop_succ_cons, List.drop_zero] at hd hlen' ⊢
  rw [hlen'] at hd
  simp only [Nat.reduceMod, decodeBytes, List.drop_succ_cons, List.drop_zero, getHexValue_two,
    List.cons.injEq, and_true] at hd
  rw [getHexValue_four]
  omega

theorem flushOpen_eq (h : HexRecord) (hheap : h.heap = []) :
    h.flushOpen =
      { h with
        heap := []
        _lastPage :=
          if h._pageLen > 0 then
            h._lastPage ++
              [{ len := h._pageLen, addr := h._address, data := h._pageBuf.take h._pageLen }]
          else h._lastPage
        _pageLen := 0 } := by
  by_cases h0 : h._pageLen > 0
  · simp [flushOpen, h0, addPage, hheap]
  · have hz : h._pageLen = 0 := by omega
    simp only [flushOpen, h0, if_false]
    rw [← hz, ← hheap]

theorem low_and_high (a : Nat) (ha : a < 65536) : a &&& 4294901760 = 0 := by
  apply Nat.eq_of_testBit_eq
  intro i
  have e : (4294901760 : Nat) = (2 ^ 16 - 1) <<< 16 := by decide
  rw [Nat.testBit_and, e, Nat.testBit_shiftLeft, Nat.testBit_two_pow_sub_one, Nat.zero_testBit]
  by_cases hi : 16 ≤ i
  · have hp : a < 2 ^ i :=
      lt_of_lt_of_le ha (by
        have := Nat.pow_le_pow_right (show 0 < 2 by decide) hi
        simpa using this)
    simp [Nat.testBit_lt_two_pow hp]
  · simp [hi]

theorem high_or_low_high (A a : Nat) (ha : a < 65536) :
    ((A &&& 4294901760) ||| a) &&& 4294901760 = A &&& 4294901760 := by
  rw [Nat.and_distrib_right, Nat.and_assoc, Nat.and_self, low_and_high a ha, Nat.or_zero]

theorem low16 (x : Nat) : x % 4294967296 &&& 65535 = x % 65536 := by
  have h1 := Nat.and_pow_two_sub_one_eq_mod (x % 4294967296) 16
  norm_num at h1
  exact h1

/-- One data record processed with page allocations succeeding. -/
theorem data_step (h : HexRecord) (r : List Nat) (hr : validRecord r = true)
    (ht : (readRecord r).type = 0) (hheap : h.heap = [])
    (hcont : 0 < h._pageLen →
      (readRecord r).addr = (h._address + h._pageLen) % 4294967296 &&& 65535)
    (hfit : h._pageLen + (readRecord r).data.length ≤ h._pageBuf.length)
    (h16 : h._pageLen + (readRecord r).data.length < 65536) :
    ∃ h1, ({ h with _saved := r } : HexRecord).processRecord r.length = (true, h1)
      ∧ h1.heap = [] ∧ h1._pageSz = h._pageSz ∧ h1._pageBuf.length = h._pageBuf.length
      ∧ h1._eof = h._eof ∧ h1._errMessage = h._errMessage
      ∧ h1._address = (if 0 < h._pageLen then h._address
          else (h._address &&& 4294901760) ||| (readRecord r).addr)
      ∧ (h._pageLen + (readRecord r).data.length < h._pageSz →
          h1._lastPage = h._lastPage ∧ h1._pageLen = h._pageLen + (readRecord r).data.length
          ∧ h1._pageBuf.take (h._pageLen + (readRecord r).data.length)
              = h._pageBuf.take h._pageLen ++ (readRecord r).data)
      ∧ (h._pageSz ≤ h._pageLen + (readRecord r).data.length →
          h1._lastPage = h._lastPage ++
            [{ len := h._pageLen + (readRecord r).data.length
               addr := (if 0 < h._pageLen then h._address
                 else (h._address &&& 4294901760) ||| (readRecord r).addr)
               data := h._pageBuf.take h._pageLen ++ (readRecord r).data }]
          ∧ h1._pageLen = 0) := by
  have htake : (h._pageBuf.take h._pageLen ++ (readRecord r).data
      ++ h._pageBuf.drop (h._pageLen + (readRecord r).data.length)).take
        (h._pageLen + (readRecord r).data.length)
      = h._pageBuf.take h._pageLen ++ (readRecord r).data := by
    rw [List.append_assoc]
    have hl : (h._pageBuf.take h._pageLen).length = h._pageLen := by
      rw [List.length_take]
      omega
    have := take_append_append (h._pageBuf.take h._pageLen) (readRecord r).data
      (h._pageBuf.drop (h._pageLen + (readRecord r).data.length))
    rw [hl] at this
    exact this
  have hlen : (h._pageBuf.take h._pageLen ++ (readRecord r).data
      ++ h._pageBuf.drop (h._pageLen + (readRecord r).data.length)).length
      = h._pageBuf.length := by
    simp only [List.length_append, List.length_take, List.length_drop]
    omega
  rw [processRecord_data h r hr ht]
  by_cases h0 : 0 < h._pageLen
  · rw [startData_cont _ _ (by exact h0) (by exact hcont h0),
      storeBytes_eq _ _ (by exact hfit) (by exact h16)]
    by_cases hfull : h._pageLen + (readRecord r).data.length < h._pageSz
    · rw [flushFull_open _ (by exact hfull)]
      exact ⟨_, rfl, hheap, rfl, hlen, rfl, rfl, by simp [h0], fun _ => ⟨rfl, rfl, htake⟩,
        fun hh => by omega⟩
    · rw [flushFull_full _ (by show h._pageSz ≤ h._pageLen + (readRecord r).data.length; omega)
        (by exact hheap)]
      refine ⟨_, rfl, rfl, rfl, hlen, rfl, rfl, by simp [h0], fun hh => by omega,
        fun _ => ⟨?_, rfl⟩⟩
      simp only [h0, if_true]
      show h._lastPage ++ [{ len := _, addr := _, data := List.take _ _ }] = _
      rw [htake]
  · have hz : h._pageLen = 0 := by omega
    rw [startData_empty _ _ (by exact hz),
      storeBytes_eq _ _ (by exact hfit) (by exact h16)]
    by_cases hfull : h._pageLen + (readRecord r).data.length < h._pageSz
    · rw [flushFull_open _ (by exact hfull)]
      exact ⟨_, rfl, hheap, rfl, hlen, rfl, rfl, by simp [h0], fun _ => ⟨rfl, rfl, htake⟩,
        fun hh => by omega⟩
    · rw [flushFull_full _ (by show h._pageSz ≤ h._pageLen + (readRecord r).data.length; omega)
        (by exact hheap)]
      refine ⟨_, rfl, rfl, rfl, hlen, rfl, rfl, by simp [h0], fun hh => by omega,
        fun _ => ⟨?_, rfl⟩⟩
      simp only [h0, if_false]
      show h._lastPage ++ [{ len := _, addr := _, data := List.take _ _ }] = _
      rw [htake]

theorem contiguous_cons (a : Nat) (r : List Nat) (rs : List (List Nat)) :
    contiguous a (r :: rs) = true ↔
      validRecord r = true ∧ (readRecord r).type = 0 ∧ (readRecord r).addr = a
        ∧ contiguous ((a + (readRecord r).data.length) % 65536) rs = true := by
  simp [contiguous, and_assoc]

theorem allData_cons (r : List Nat) (rs : List (List Nat)) :
    allData (r :: rs) = (readRecord r).data ++ allData rs := by
  simp [allData]

theorem processAll_cons (h h1 : HexRecord) (r : List Nat) (rs : List (List Nat))
    (e : ({ h with _saved := r } : HexRecord).processRecord r.length = (true, h1)) :
    h.processAll (r :: rs) = h1.processAll rs := by
  simp only [processAll, e]

/-- Data records without data met while no page is open queue nothing. -/
theorem processAll_empty :
    ∀ (rs : List (List Nat)) (h : HexRecord) (a : Nat), contiguous a rs = true →
      (allData rs).length = 0 → h._pageLen = 0 → 0 < h._pageSz → h.heap = [] →
      ∃ h2, h.processAll rs = (true, h2) ∧ h2._lastPage = h._lastPage ∧ h2._pageLen = 0
        ∧ h2.heap = [] ∧ h2._eof = h._eof ∧ h2._errMessage = h._errMessage
        ∧ h2._pageSz = h._pageSz := by
  intro rs
  induction rs with
  | nil =>
    intro h a _ _ h0 _ hheap
    exact ⟨h, rfl, rfl, h0, hheap, rfl, rfl, rfl⟩
  | cons r rs ih =>
    intro h a hc hd h0 hP hheap
    obtain ⟨hr, ht, -, hc'⟩ := (contiguous_cons a r rs).1 hc
    rw [allData_cons, List.length_append] at hd
    obtain ⟨h1, e1, k1, k2, -, k4, k5, -, kopen, -⟩ :=
      data_step h r hr ht hheap (fun hpos => by omega) (by omega) (by omega)
    obtain ⟨o1, o2, -⟩ := kopen (by omega)
    obtain ⟨h2, e2, m1, m2, m3, m4, m5, m6⟩ :=
      ih h1 _ hc' (by omega) (by omega) (by omega) k1
    exact ⟨h2, by rw [processAll_cons h h1 r rs e1, e2], by rw [m1, o1], m2, m3,
      by rw [m4, k4], by rw [m5, k5], by rw [m6, k2]⟩

/-- Contiguous data records that fill the open page exactly queue one page. -/
theorem processAll_fill :
    ∀ (rs : List (List Nat)) (h : HexRecord) (a : Nat), contiguous a rs = true →
      h.heap = [] → h._pageLen < h._pageSz → h._pageSz ≤ h._pageBuf.length →
      h._pageSz < 65536 →
      (0 < h._pageLen → a = (h._address + h._pageLen) % 4294967296 &&& 65535) →
      a < 65536 →
      h._pageLen + (allData rs).length = h._pageSz →
      ∃ h2, h.processAll rs = (true, h2)
        ∧ h2._lastPage = h._lastPage ++
            [{ len := h._pageSz
               addr := (if 0 < h._pageLen then h._address
                 else (h._address &&& 4294901760) ||| a)
               data := h._pageBuf.take h._pageLen ++ allData rs }]
        ∧ h2._pageLen = 0 ∧ h2.heap = [] ∧ h2._eof = h._eof
        ∧ h2._errMessage = h._errMessage ∧ h2._pageSz = h._pageSz := by
  intro rs
  induction rs with
  | nil =>
    intro h a _ _ hlt _ _ _ _ htot
    simp [allData] at htot
    omega
  | cons r rs ih =>
    intro h a hc hheap hlt hbuf h16 hnext ha htot
    obtain ⟨hr, ht, hra, hc'⟩ := (contiguous_cons a r rs).1 hc
    rw [allData_cons, List.length_append] at htot
    obtain ⟨h1, e1, k1, k2, k3, k4, k5, k6, kopen, kfull⟩ :=
      data_step h r hr ht hheap (fun hpos => by rw [hra]; exact hnext hpos) (by omega)
        (by omega)
    rw [processAll_cons h h1 r rs e1, allData_cons]
    rw [hra] at k6
    by_cases hfull : h._pageLen + (readRecord r).data.length < h._pageSz
    · obtain ⟨o1, o2, o3⟩ := kopen hfull
      have hnext' : 0 < h1._pageLen →
          (a + (readRecord r).data.length) % 65536
            = (h1._address + h1._pageLen) % 4294967296 &&& 65535 := by
        intro hpos
        rw [k6, o2, low16]
        by_cases h0 : 0 < h._pageLen
        · have := hnext h0
          rw [low16] at this
          rw [if_pos h0]
          omega
        · have hz : h._pageLen = 0 := by omega
          have := high_or_low_mod h._address a ha
          rw [if_neg h0, hz]
          omega
      obtain ⟨h2, e2, m1, m2, m3, m4, m5, m6⟩ :=
        ih h1 _ hc' k1 (by omega) (by omega) (by omega) hnext' (Nat.mod_lt _ (by decide))
          (by omega)
      refine ⟨h2, e2, ?_, m2, m3, by rw [m4, k4], by rw [m5, k5], by rw [m6, k2]⟩
      rw [m1, o1, k2, o2, o3, k6, List.append_assoc]
      by_cases h0 : 0 < h._pageLen
      · have hpos : 0 < h._pageLen + (readRecord r).data.length := by omega
        simp only [h0, hpos, if_true]
      · have hz : h._pageLen = 0 := by omega
        simp only [h0, if_false]
        by_cases hn : 0 < h._pageLen + (readRecord r).data.length
        · simp only [hn, if_true]
        · have hd0 : (readRecord r).data.length = 0 := by omega
          simp only [hn, if_false, hd0, Nat.add_zero, high_or_low_high _ _ ha,
            Nat.mod_eq_of_lt ha, ite_self]
    · obtain ⟨f1, f2⟩ := kfull (by omega)
      obtain ⟨h2, e2, m1, m2, m3, m4, m5, m6⟩ :=
        processAll_empty rs h1 _ hc' (by omega) f2 (by omega) k1
      refine ⟨h2, e2, ?_, m2, m3, by rw [m4, k4], by rw [m5, k5], by rw [m6, k2]⟩
      have hnil : allData rs = [] := List.length_eq_zero.1 (by omega)
      have hP : h._pageLen + (readRecord r).data.length = h._pageSz := by omega
      rw [m1, f1, hra, hnil, List.append_nil, hP]

set_option maxRecDepth 1000000 in
theorem writeLoop_stuck_longRecord (fuel : Nat) :
    writeLoop true 151 fuel ((longRecord ++ [10] ++ eofRecord).drop 128) stuckParser = none := by
  induction fuel with
  | zero => rfl
  | succ fuel ih =>
    have step : writeLoop true 151 (fuel + 1) ((longRecord ++ [10] ++ eofRecord).drop 128)
        stuckParser
        = writeLoop true 151 fuel ((longRecord ++ [10] ++ eofRecord).drop 128) stuckParser := by
      rfl
    rw [step, ih]

set_option maxRecDepth 1000000 in
theorem write_longRecord (fuel : Nat) :
    (HexRecord.new 128 []).write (longRecord ++ [10] ++ eofRecord) 7 8 9 fuel = none := by
  cases fuel with
  | zero => rfl
  | succ fuel =>
    have step : (HexRecord.new 128 []).write (longRecord ++ [10] ++ eofRecord) 7 8 9 (fuel + 1)
        = writeLoop true 151 fuel ((longRecord ++ [10] ++ eofRecord).drop 128) stuckParser := by
      rfl
    rw [step, writeLoop_stuck_longRecord]

theorem write_fresh (toks : List (List Nat)) (stop resume cbArg fuel : Nat)
    (hvalid : ∀ t ∈ toks, validToken t = true) (hfuel : toks.flatten.length < fuel) :
    ∃ h2, (HexRecord.new 128 []).write toks.flatten stop resume cbArg fuel
        = some (toks.flatten.length, h2)
      ∧ h2.core = (HexRecord.new 128 []).core.parseAll toks ∧ Sound h2
      ∧ (∀ c ∈ h2.calls, c = (stop, cbArg)) := by
  obtain ⟨h1, hw1, hc1, hs1, hcl1⟩ :=
    writeChunks_fresh stop resume cbArg fuel toks [toks.flatten] hvalid (by simp) hfuel
  refine ⟨h1, ?_, hc1, hs1, hcl1⟩
  simp only [writeChunks] at hw1
  cases hw : (HexRecord.new 128 []).write toks.flatten stop resume cbArg fuel with
  | none => simp [hw] at hw1
  | some r =>
    simp [hw] at hw1
    rw [List.length_flatten, ← hw1.1, ← hw1.2]

theorem flatten_map_single (l : List Nat) : (l.map (fun c => [c])).flatten = l := by
  induction l with
  | nil => rfl
  | cons c l ih => simp [ih]

theorem sameOutput_refl (s : AVRFlash) : s.sameOutput s :=
  ⟨rfl, rfl, rfl, rfl, rfl, rfl, rfl, rfl, rfl, rfl, rfl, rfl, rfl⟩

theorem sameOutput_trans {s t u : AVRFlash} (h1 : s.sameOutput t) (h2 : t.sameOutput u) :
    s.sameOutput u := by
  obtain ⟨a1, a2, a3, a4, a5, a6, a7, a8, a9, a10, a11, a12, a13⟩ := h1
  obtain ⟨b1, b2, b3, b4, b5, b6, b7, b8, b9, b10, b11, b12, b13⟩ := h2
  exact ⟨b1.trans a1, b2.trans a2, b3.trans a3, b4.trans a4, b5.trans a5, b6.trans a6,
    b7.trans a7, b8.trans a8, b9.trans a9, b10.trans a10, b11.trans a11, b12.trans a12,
    b13.trans a13⟩

theorem sameOutput_fetchLoop : ∀ (fuel : Nat) (s : AVRFlash), s.sameOutput (AVRFlash.fetchLoop fuel s) := by
  intro fuel
  induction fuel with
  | zero => intro s; exact sameOutput_refl s
  | succ fuel ih =>
    intro s
    unfold AVRFlash.fetchLoop
    split
    · split
      · exact sameOutput_refl s
      · exact sameOutput_trans (sameOutput_refl _) (ih _)
    · exact sameOutput_refl s

theorem sameOutput_fetchUart (s : AVRFlash) : s.sameOutput s.fetchUart :=
  sameOutput_trans (sameOutput_fetchLoop _ s) (sameOutput_refl _)

theorem sameOutput_acksLoop : ∀ (fuel : Nat) (s : AVRFlash), s.sameOutput (AVRFlash.acksLoop fuel s) := by
  intro fuel
  induction fuel with
  | zero => intro s; exact sameOutput_refl s
  | succ fuel ih =>
    intro s
    unfold AVRFlash.acksLoop
    split
    · exact sameOutput_trans (sameOutput_refl _) (ih _)
    · exact sameOutput_refl s

theorem sameOutput_processAcks (s : AVRFlash) : s.sameOutput s.processAcks :=
  sameOutput_acksLoop _ s

theorem sameOutput_waitAck : ∀ (polls : List (List Nat)) (s : AVRFlash),
    s.sameOutput (AVRFlash.waitAck polls s).2 := by
  intro polls
  induction polls with
  | nil =>
    intro s
    unfold AVRFlash.waitAck
    split
    · exact sameOutput_refl _
    · exact sameOutput_refl s
  | cons p polls ih =>
    intro s
    unfold AVRFlash.waitAck
    split
    · have h0 : s.sameOutput ({ s with uartRx := s.uartRx ++ p } : AVRFlash) :=
        ⟨rfl, rfl, rfl, rfl, rfl, rfl, rfl, rfl, rfl, rfl, rfl, rfl, rfl⟩
      exact sameOutput_trans
        (sameOutput_trans (sameOutput_trans h0 (sameOutput_fetchUart _))
          (sameOutput_processAcks _)) (ih _)
    · exact sameOutput_refl s

/-- What `programPage` does to the outside: it sends nothing for a page that
is too long, the load-address command alone when the ack does not arrive during
the wait, and else the load-address and the program-page command. -/
theorem programPage_out (s : AVRFlash) (fp : FlashPage) (polls : List (List Nat)) :
    (s.programPage fp polls).2._lastPage = s._lastPage
    ∧ (s.programPage fp polls).2._resume = s._resume
    ∧ (s.programPage fp polls).2._resumeArg = s._resumeArg
    ∧ (s.programPage fp polls).2._doneCB = s._doneCB
    ∧ (s.programPage fp polls).2._doneCBArg = s._doneCBArg
    ∧ (s.programPage fp polls).2.calls = s.calls
    ∧ (s.programPage fp polls).2.timer = s.timer
    ∧ ∃ bytes, (s.programPage fp polls).2.uartTx = s.uartTx ++ bytes
      ∧ (s.programPage fp polls).2.events = s.events ++ bytes.map Event.tx
      ∧ (s._pageSz < fp.len → bytes = [])
      ∧ (fp.len ≤ s._pageSz → bytes = fp.loadCmd ∨ bytes = fp.loadCmd ++ fp.progCmd) := by
  unfold AVRFlash.programPage
  by_cases hlen : fp.len > s._pageSz
  · rw [if_pos hlen]
    exact ⟨rfl, rfl, rfl, rfl, rfl, rfl, rfl, [], by simp, by simp, fun _ => rfl,
      fun h => by omega⟩
  · rw [if_neg hlen]
    simp only []
    generalize hs1 : ({ (((s.uartWrite STK_LOAD_ADDRESS).uartWrite
        ((fp.addr >>> 1) % 65536 &&& 255)).uartWrite
        (((fp.addr >>> 1) % 65536) >>> 8)).uartWrite CRC_EOP with _ackWait := true } : AVRFlash)
      = s1
    have hw := sameOutput_waitAck polls s1
    obtain ⟨a1, a2, a3, a4, a5, a6, a7, a8, a9, a10, a11, a12, a13⟩ := hw
    have b1 : s1._lastPage = s._lastPage := by rw [← hs1]; rfl
    have b2 : s1._resume = s._resume := by rw [← hs1]; rfl
    have b3 : s1._resumeArg = s._resumeArg := by rw [← hs1]; rfl
    have b4 : s1._doneCB = s._doneCB := by rw [← hs1]; rfl
    have b5 : s1._doneCBArg = s._doneCBArg := by rw [← hs1]; rfl
    have b6 : s1.uartTx = s.uartTx ++ fp.loadCmd := by
      rw [← hs1]
      simp [AVRFlash.uartWrite, FlashPage.loadCmd]
    have b7 : s1.events = s.events ++ fp.loadCmd.map Event.tx := by
      rw [← hs1]
      simp [AVRFlash.uartWrite, FlashPage.loadCmd]
    have b8 : s1.calls = s.calls := by rw [← hs1]; rfl
    have b9 : s1.timer = s.timer := by rw [← hs1]; rfl
    rcases hwa : AVRFlash.waitAck polls s1 with ⟨b, s2⟩
    rw [hwa] at a1 a2 a3 a4 a5 a6 a7 a8 a9
    simp only at a1 a2 a3 a4 a5 a6 a7 a8 a9
    cases b with
    | false =>
      simp only []
      exact ⟨a1.trans b1, a2.trans b2, a3.trans b3, a4.trans b4, a5.trans b5, a8.trans b8,
        a9.trans b9, fp.loadCmd, a6.trans b6, a7.trans b7, fun h => absurd h (by omega),
        fun _ => Or.inl rfl⟩
    | true =>
      simp only []
      refine ⟨?_, ?_, ?_, ?_, ?_, ?_, ?_, fp.loadCmd ++ fp.progCmd, ?_, ?_,
        fun h => absurd h (by omega), fun _ => Or.inr rfl⟩
      · simp only [AVRFlash.uartWrite, AVRFlash.uartWriteBuf]
        exact a1.trans b1
      · simp only [AVRFlash.uartWrite, AVRFlash.uartWriteBuf]
        exact a2.trans b2
      · simp only [AVRFlash.uartWrite, AVRFlash.uartWriteBuf]
        exact a3.trans b3
      · simp only [AVRFlash.uartWrite, AVRFlash.uartWriteBuf]
        exact a4.trans b4
      · simp only [AVRFlash.uartWrite, AVRFlash.uartWriteBuf]
        exact a5.trans b5
      · simp only [AVRFlash.uartWrite, AVRFlash.uartWriteBuf]
        exact a8.trans b8
      · simp only [AVRFlash.uartWrite, AVRFlash.uartWriteBuf]
        exact a9.trans b9
      · simp [AVRFlash.uartWrite, AVRFlash.uartWriteBuf, FlashPage.progCmd, a6, b6]
      · simp [AVRFlash.uartWrite, AVRFlash.uartWriteBuf, FlashPage.progCmd, a7, b7]
        rfl

/-- The idle tick with a page in the queue: the head page is taken from the
queue (with the resume call if it was the last one) and handed to
`programPage`. -/
theorem timerCB_idle_page (s : AVRFlash) (now : Nat) (polls : List (List Nat))
    (fp : FlashPage) (rest : List FlashPage)
    (hstate : s._progState = stateIdle) (hq : s._lastPage = fp :: rest) :
    ∃ s2 : AVRFlash,
      s.timerCB now polls
        = ({ (s2.programPage fp polls).2 with
              _progState := stateProg, _stateStart := now % 4294967296 }).armTimer CB_INTERVAL
      ∧ s2._lastPage = rest ∧ s2._resume = s._resume ∧ s2._resumeArg = s._resumeArg
      ∧ s2._doneCB = s._doneCB ∧ s2._doneCBArg = s._doneCBArg ∧ s2._pageSz = s._pageSz
      ∧ s2.uartTx = s.uartTx
      ∧ s2.calls = s.calls
          ++ (if rest = [] ∧ s._resume ≠ 0 then [(s._resume, s._resumeArg)] else [])
      ∧ s2.events = s.events
          ++ (if rest = [] ∧ s._resume ≠ 0 then [Event.resume s._resume s._resumeArg] else []) := by
  obtain ⟨a1, a2, a3, a4, a5, a6, a7, a8, a9, a10, a11, a12, a13⟩ :=
    sameOutput_trans (sameOutput_fetchUart s) (sameOutput_processAcks s.fetchUart)
  rw [hq] at a1
  unfold AVRFlash.timerCB
  simp only [hstate, a1]
  by_cases hrest : rest = []
  · by_cases hres : s.fetchUart.processAcks._resume ≠ 0
    · have hres' : s._resume ≠ 0 := by rw [← a2]; exact hres
      simp only [hrest, true_and, hres, hres', if_true, ne_eq, not_false_eq_true]
      exact ⟨_, rfl, rfl, a2, a3, a4, a5, a10, a6, by simp [a8, a2, a3], by simp [a7, a2, a3]⟩
    · have hres' : ¬ s._resume ≠ 0 := by rw [← a2]; exact hres
      simp only [hrest, true_and, hres, hres', if_true, if_false]
      exact ⟨_, rfl, rfl, a2, a3, a4, a5, a10, a6, by simp [a8], by simp [a7]⟩
  · simp only [hrest, false_and, if_false]
    exact ⟨_, rfl, rfl, a2, a3, a4, a5, a10, a6, by simp [a8], by simp [a7]⟩

/-- The idle tick with an empty queue and a completion callback. -/
theorem timerCB_idle_done (s : AVRFlash) (now : Nat) (polls : List (List Nat))
    (hstate : s._progState = stateIdle) (hq : s._lastPage = []) (hcb : s._doneCB ≠ 0) :
    (s.timerCB now polls).uartTx = s.uartTx ++ [STK_LEAVE_PROGMODE, CRC_EOP]
    ∧ (s.timerCB now polls).events = s.events
        ++ [Event.tx STK_LEAVE_PROGMODE, Event.tx CRC_EOP, Event.done s._doneCB s._doneCBArg]
    ∧ (s.timerCB now polls).calls = s.calls ++ [(s._doneCB, s._doneCBArg)]
    ∧ (s.timerCB now polls).timer = s.timer
    ∧ (s.timerCB now polls)._lastPage = []
    ∧ (s.timerCB now polls)._progState = stateIdle := by
  obtain ⟨a1, a2, a3, a4, a5, a6, a7, a8, a9, a10, a11, a12, a13⟩ :=
    sameOutput_trans (sameOutput_fetchUart s) (sameOutput_processAcks s.fetchUart)
  rw [hq] at a1
  rw [hstate] at a11
  have hcb' : s.fetchUart.processAcks._doneCB ≠ 0 := by rw [a4]; exact hcb
  unfold AVRFlash.timerCB
  simp only [hstate, a1, hcb', if_true, ne_eq, not_false_eq_true]
  refine ⟨?_, ?_, ?_, ?_, ?_, ?_⟩
  · simp [AVRFlash.uartWrite, a6, STK_LEAVE_PROGMODE, CRC_EOP]
  · simp [AVRFlash.uartWrite, a7, a4, a5, STK_LEAVE_PROGMODE, CRC_EOP]
  · simp [AVRFlash.uartWrite, a8, a4, a5]
  · exact a9
  · exact a1
  · exact a11

/-- The idle tick with an empty queue and no completion callback: at most the
keep-alive sync request is sent and nothing is called. -/
theorem timerCB_idle_wait (s : AVRFlash) (now : Nat) (polls : List (List Nat))
    (hstate : s._progState = stateIdle) (hq : s._lastPage = []) (hcb : s._doneCB = 0) :
    ∃ bytes, (s.timerCB now polls).uartTx = s.uartTx ++ bytes
      ∧ (s.timerCB now polls).events = s.events ++ bytes.map Event.tx
      ∧ (bytes = [] ∨ bytes = [STK_GET_SYNC, CRC_EOP])
      ∧ (s.timerCB now polls).calls = s.calls
      ∧ (s.timerCB now polls)._lastPage = [] := by
  obtain ⟨a1, a2, a3, a4, a5, a6, a7, a8, a9, a10, a11, a12, a13⟩ :=
    sameOutput_trans (sameOutput_fetchUart s) (sameOutput_processAcks s.fetchUart)
  rw [hq] at a1
  have hcb' : ¬ s.fetchUart.processAcks._doneCB ≠ 0 := by rw [a4, hcb]; simp
  unfold AVRFlash.timerCB
  simp only [hstate, a1, hcb', if_false]
  split
  · refine ⟨[], ?_, ?_, Or.inl rfl, ?_, ?_⟩ <;>
      simp [AVRFlash.checkFinish, a4, hcb, a6, a7, a8, a1] <;> split <;> simp [a6, a7, a8, a1]
  · split
    · refine ⟨[STK_GET_SYNC, CRC_EOP], ?_, ?_, Or.inr rfl, ?_, ?_⟩ <;>
        simp [AVRFlash.armTimer, AVRFlash.uartWrite, a6, a7, a8, a1, STK_GET_SYNC, CRC_EOP]
    · refine ⟨[], ?_, ?_, Or.inl rfl, ?_, ?_⟩ <;> simp [AVRFlash.armTimer, a6, a7, a8, a1]

theorem sameFlow_refl (s : AVRFlash) : s.sameFlow s := ⟨rfl, rfl, rfl, rfl⟩

theorem sameFlow_trans {s t u : AVRFlash} (h1 : s.sameFlow t) (h2 : t.sameFlow u) :
    s.sameFlow u := by
  obtain ⟨a1, a2, a3, a4⟩ := h1
  obtain ⟨b1, b2, b3, b4⟩ := h2
  exact ⟨b1.trans a1, b2.trans a2, b3.trans a3, b4.trans a4⟩

theorem sameFlow_of_sameOutput {s t : AVRFlash} (h : s.sameOutput t) : s.sameFlow t := by
  obtain ⟨a1, a2, a3, a4, a5, a6, a7, a8, a9, a10, a11, a12, a13⟩ := h
  exact ⟨a1, a2, a3, by simp [AVRFlash.resumeCount, a7]⟩

theorem sameFlow_uartWrite (s : AVRFlash) (b : Nat) : s.sameFlow (s.uartWrite b) := by
  refine ⟨rfl, rfl, rfl, ?_⟩
  simp [AVRFlash.resumeCount, AVRFlash.uartWrite, Event.isResume]

theorem sameFlow_setBaudrate (s : AVRFlash) (r : Nat) : s.sameFlow (s.setBaudrate r) := by
  unfold AVRFlash.setBaudrate
  split
  · exact sameFlow_refl s
  · exact ⟨rfl, rfl, rfl, rfl⟩

theorem sameFlow_checkFinish (s : AVRFlash) : s.sameFlow s.checkFinish := by
  unfold AVRFlash.checkFinish
  split
  · refine ⟨rfl, rfl, rfl, ?_⟩
    simp [AVRFlash.resumeCount, Event.isResume]
  · split
    · exact ⟨rfl, rfl, rfl, rfl⟩
    · exact sameFlow_refl s

theorem sameFlow_nextBaud (s : AVRFlash) : s.sameFlow s.nextBaud := by
  unfold AVRFlash.nextBaud
  exact sameFlow_trans (sameFlow_setBaudrate s _) ⟨rfl, rfl, rfl, rfl⟩

theorem sameFlow_checkSyncAck (s : AVRFlash) : s.sameFlow s.checkSyncAck.2 := by
  have h := sameFlow_of_sameOutput (sameOutput_fetchUart s)
  unfold AVRFlash.checkSyncAck
  simp only []
  split
  · exact sameFlow_trans h ⟨rfl, rfl, rfl, rfl⟩
  · split
    · exact sameFlow_trans h ⟨rfl, rfl, rfl, rfl⟩
    · split
      · exact sameFlow_trans h ⟨rfl, rfl, rfl, rfl⟩
      · exact h

theorem sameFlow_parseResponse (s : AVRFlash) : s.sameFlow s.parseResponse.2 := by
  have h := sameFlow_of_sameOutput (sameOutput_fetchUart s)
  have h2 := sameFlow_trans h (sameFlow_of_sameOutput (sameOutput_processAcks s.fetchUart))
  unfold AVRFlash.parseResponse
  simp only []
  split
  · split
    · exact h2
    · split
      · refine sameFlow_trans h2 ?_
        exact sameFlow_trans
          (sameFlow_trans (sameFlow_trans (sameFlow_uartWrite _ _) (sameFlow_uartWrite _ _))
            (sameFlow_uartWrite _ _)) ⟨rfl, rfl, rfl, rfl⟩
      · exact sameFlow_trans h2 ⟨rfl, rfl, rfl, rfl⟩
  · split
    · exact h
    · split
      · refine sameFlow_trans h ?_
        have h3 : s.fetchUart.sameFlow
            ({ s.fetchUart with _optibootVers := s.fetchUart._responseBuf.getD 1 0 } : AVRFlash) :=
          ⟨rfl, rfl, rfl, rfl⟩
        refine sameFlow_trans h3 ?_
        exact sameFlow_trans
          (sameFlow_trans (sameFlow_trans (sameFlow_uartWrite _ _) (sameFlow_uartWrite _ _))
            (sameFlow_uartWrite _ _)) ⟨rfl, rfl, rfl, rfl⟩
      · exact sameFlow_trans h ⟨rfl, rfl, rfl, rfl⟩
  · split
    · exact h
    · split
      · exact sameFlow_trans h ⟨rfl, rfl, rfl, rfl⟩
      · exact sameFlow_trans h ⟨rfl, rfl, rfl, rfl⟩
  · exact h

theorem sameFlow_timerCB (s : AVRFlash) (now : Nat) (polls : List (List Nat))
    (h : s._progState ≠ stateIdle) : s.sameFlow (s.timerCB now polls) := by
  unfold AVRFlash.timerCB
  cases hst : s._progState
  case stateIdle => exact absurd hst h
  case stateInit =>
    simp only []
    exact ⟨rfl, rfl, rfl, by
      simp [AVRFlash.resumeCount, AVRFlash.uartWrite, AVRFlash.armTimer, Event.isResume]⟩
  case stateSync =>
    simp only []
    have hc := sameFlow_checkSyncAck s
    rcases hck : s.checkSyncAck with ⟨b, s1⟩
    rw [hck] at hc
    cases b with
    | true =>
      simp only []
      refine sameFlow_trans hc ⟨rfl, rfl, rfl, ?_⟩
      simp [AVRFlash.resumeCount, AVRFlash.uartWrite, AVRFlash.armTimer, Event.isResume]
    | false =>
      simp only []
      split
      · exact sameFlow_trans hc ⟨rfl, rfl, rfl, rfl⟩
      · split
        · refine sameFlow_trans hc (sameFlow_trans ?_ (sameFlow_checkFinish _))
          exact ⟨rfl, rfl, rfl, rfl⟩
        · refine sameFlow_trans hc (sameFlow_trans (sameFlow_nextBaud s1) ?_)
          exact ⟨rfl, rfl, rfl, rfl⟩
  case stateProg =>
    simp only []
    have h1 : s.sameFlow s.fetchUart.processAcks :=
      sameFlow_of_sameOutput
        (sameOutput_trans (sameOutput_fetchUart s) (sameOutput_processAcks s.fetchUart))
    split
    · refine sameFlow_trans h1 ⟨rfl, rfl, rfl, ?_⟩
      simp [AVRFlash.resumeCount, AVRFlash.uartWrite, AVRFlash.armTimer, Event.isResume]
    · split
      · refine sameFlow_trans h1 (sameFlow_trans ?_ (sameFlow_checkFinish _))
        exact ⟨rfl, rfl, rfl, rfl⟩
      · exact sameFlow_trans h1 ⟨rfl, rfl, rfl, rfl⟩
  all_goals
    simp only []
    have hc := sameFlow_parseResponse s
    rcases hck : s.parseResponse with ⟨b, s1⟩
    rw [hck] at hc
    cases b with
    | true =>
      simp only []
      exact sameFlow_trans hc ⟨rfl, rfl, rfl, rfl⟩
    | false =>
      simp only []
      split
      · exact sameFlow_trans hc (sameFlow_checkFinish _)
      · split
        · refine sameFlow_trans hc (sameFlow_trans ?_ (sameFlow_checkFinish _))
          exact ⟨rfl, rfl, rfl, rfl⟩
        · exact sameFlow_trans hc ⟨rfl, rfl, rfl, rfl⟩

theorem countP_tx (bytes : List Nat) :
    (bytes.map Event.tx).countP Event.isResume = 0 := by
  induction bytes with
  | nil => rfl
  | cons b bs ih => simp [List.countP_cons, ih, Event.isResume]

theorem sameFlow_timerCB_idle_empty (s : AVRFlash) (now : Nat) (polls : List (List Nat))
    (hstate : s._progState = stateIdle) (hq : s._lastPage = []) :
    s.sameFlow (s.timerCB now polls) := by
  have h1 : s.sameFlow s.fetchUart.processAcks :=
    sameFlow_of_sameOutput
      (sameOutput_trans (sameOutput_fetchUart s) (sameOutput_processAcks s.fetchUart))
  have a1 : s.fetchUart.processAcks._lastPage = [] := h1.1.trans hq
  unfold AVRFlash.timerCB
  simp only [hstate]
  split
  · rename_i fp rest heq
    rw [a1] at heq
    cases heq
  · split
    · refine sameFlow_trans h1 ⟨rfl, rfl, rfl, ?_⟩
      simp [AVRFlash.resumeCount, AVRFlash.uartWrite, Event.isResume]
    · split
      · refine sameFlow_trans h1 (sameFlow_trans ?_ (sameFlow_checkFinish _))
        exact ⟨rfl, rfl, rfl, rfl⟩
      · split
        · refine sameFlow_trans h1 ⟨rfl, rfl, rfl, ?_⟩
          simp [AVRFlash.resumeCount, AVRFlash.uartWrite, AVRFlash.armTimer, Event.isResume]
        · exact sameFlow_trans h1 ⟨rfl, rfl, rfl, rfl⟩

/-- The queue and the resume callback across one call of `timerCB`. -/
theorem timerCB_flow (s : AVRFlash) (now : Nat) (polls : List (List Nat)) :
    (s.timerCB now polls)._resume = s._resume
    ∧ (s.timerCB now polls)._resumeArg = s._resumeArg
    ∧ (s.timerCB now polls)._lastPage
        = (if s._progState = stateIdle then s._lastPage.tail else s._lastPage)
    ∧ (s.timerCB now polls).resumeCount = s.resumeCount
        + (if s._progState = stateIdle ∧ s._lastPage.length = 1 ∧ s._resume ≠ 0 then 1 else 0) := by
  by_cases hstate : s._progState = stateIdle
  · cases hq : s._lastPage with
    | nil =>
      obtain ⟨f1, f2, f3, f4⟩ := sameFlow_timerCB_idle_empty s now polls hstate hq
      refine ⟨f2, f3, ?_, ?_⟩
      · rw [f1, hq, if_pos hstate]
        rfl
      · rw [f4]
        simp
    | cons fp rest =>
      obtain ⟨s2, e, b1, b2, b3, b4, b5, b6, b7, b8, b9⟩ :=
        timerCB_idle_page s now polls fp rest hstate hq
      obtain ⟨c1, c2, c3, c4, c5, c6, c7, bytes, c8, c9, c10, c11⟩ :=
        programPage_out s2 fp polls
      rw [e]
      refine ⟨c2.trans b2, c3.trans b3, ?_, ?_⟩
      · rw [if_pos hstate]
        exact c1.trans b1
      · show ((s2.programPage fp polls).2.events).countP Event.isResume = _
        rw [c9, b9, List.countP_append, List.countP_append, countP_tx]
        by_cases hr : rest = [] ∧ s._resume ≠ 0
        · have hr' : s._progState = stateIdle ∧ (fp :: rest).length = 1 ∧ s._resume ≠ 0 :=
            ⟨hstate, by simp [hr.1], hr.2⟩
          rw [if_pos hr, if_pos hr']
          rfl
        · have hr' : ¬ (s._progState = stateIdle ∧ (fp :: rest).length = 1 ∧ s._resume ≠ 0) := by
            rintro ⟨-, h1, h2⟩
            exact hr ⟨by simpa using h1, h2⟩
          rw [if_neg hr, if_neg hr']
          rfl
  · obtain ⟨f1, f2, f3, f4⟩ := sameFlow_timerCB s now polls hstate
    refine ⟨f2, f3, ?_, ?_⟩
    · rw [f1, if_neg hstate]
    · rw [f4]
      simp [hstate]

/-- The queue and the resume callback across one step of a run. -/
theorem tick_flow (s : AVRFlash) (rx : List Nat) (now : Nat) (polls : List (List Nat)) :
    ((s.receive rx).tick now polls)._resume = s._resume
    ∧ ((s.receive rx).tick now polls)._resumeArg = s._resumeArg
    ∧ ((s.receive rx).tick now polls)._lastPage
        = (if s.timer ≠ none ∧ s._progState = stateIdle then s._lastPage.tail else s._lastPage)
    ∧ ((s.receive rx).tick now polls).resumeCount = s.resumeCount
        + (if s.timer ≠ none ∧ s._progState = stateIdle ∧ s._lastPage.length = 1
            ∧ s._resume ≠ 0 then 1 else 0) := by
  cases ht : s.timer with
  | none =>
    have e : (s.receive rx).tick now polls = s.receive rx := by
      simp only [AVRFlash.tick, AVRFlash.receive, ht]
    rw [e]
    refine ⟨rfl, rfl, ?_, ?_⟩
    · simp [AVRFlash.receive]
    · simp [AVRFlash.receive, AVRFlash.resumeCount]
  | some ms =>
    have e : (s.receive rx).tick now polls
        = AVRFlash.timerCB { s.receive rx with timer := none } now polls := by
      simp only [AVRFlash.tick, AVRFlash.receive, ht]
    obtain ⟨f1, f2, f3, f4⟩ := timerCB_flow { s.receive rx with timer := none } now polls
    rw [e]
    refine ⟨f1, f2, ?_, ?_⟩
    · rw [f3]
      simp [AVRFlash.receive]
    · rw [f4]
      simp [AVRFlash.receive, AVRFlash.resumeCount]

theorem run_empty : ∀ (steps : List (List Nat × Nat × List (List Nat))) (s : AVRFlash),
    s._lastPage = [] → (s.run steps)._lastPage = [] := by
  intro steps
  induction steps with
  | nil => intro s h; exact h
  | cons st steps ih =>
    intro s h
    obtain ⟨rx, now, polls⟩ := st
    simp only [AVRFlash.run]
    apply ih
    rw [(tick_flow s rx now polls).2.2.1, h]
    simp

theorem run_flow : ∀ (steps : List (List Nat × Nat × List (List Nat))) (s : AVRFlash),
    s._resume ≠ 0 →
    (s.run steps).resumeCount = s.resumeCount
      + (if s._lastPage ≠ [] ∧ (s.run steps)._lastPage = [] then 1 else 0) := by
  intro steps
  induction steps with
  | nil =>
    intro s _
    simp only [AVRFlash.run]
    have : ¬ (s._lastPage ≠ [] ∧ s._lastPage = []) := fun h => h.1 h.2
    rw [if_neg this]
    rfl
  | cons st steps ih =>
    intro s hres
    obtain ⟨rx, now, polls⟩ := st
    obtain ⟨f1, f2, f3, f4⟩ := tick_flow s rx now polls
    have hres' : ((s.receive rx).tick now polls)._resume ≠ 0 := by rw [f1]; exact hres
    have hih := ih _ hres'
    simp only [AVRFlash.run]
    rw [hih, f4]
    by_cases hd : s.timer ≠ none ∧ s._progState = stateIdle
    · rw [if_pos hd] at f3
      rcases hq : s._lastPage with _ | ⟨fp, _ | ⟨fp2, rest⟩⟩
      · rw [hq] at f3
        simp [f3]
      · rw [hq] at f3
        have hfin := run_empty steps _ f3
        simp [f3, hfin, hd, hres]
      · rw [hq] at f3
        simp [f3]
    · rw [if_neg hd] at f3
      have hd' : ¬ (s.timer ≠ none ∧ s._progState = stateIdle ∧ s._lastPage.length = 1
          ∧ s._resume ≠ 0) := fun h => hd ⟨h.1, h.2.1⟩
      rw [if_neg hd', f3]
      rfl

theorem chain_frame {mem mem2 : Nat → Option PageNode} :
    ∀ (cs : List (Nat × FlashPage)) (p e : Nat), (∀ c ∈ cs, mem2 c.1 = mem c.1) →
      Chain mem p cs e → Chain mem2 p cs e := by
  intro cs
  induction cs with
  | nil => intro p e _ h; exact h
  | cons c cs ih =>
    intro p e hf h
    obtain ⟨h1, nx, h2, h3⟩ := h
    refine ⟨h1, nx, ?_, ih nx e (fun c' hc' => hf c' (List.mem_cons_of_mem _ hc')) h3⟩
    rw [hf c (List.mem_cons_self _ _)]
    exact h2

theorem chain_append {mem : Nat → Option PageNode} :
    ∀ (xs ys : List (Nat × FlashPage)) (p e : Nat),
      Chain mem p (xs ++ ys) e ↔ ∃ m, Chain mem p xs m ∧ Chain mem m ys e := by
  intro xs
  induction xs with
  | nil =>
    intro ys p e
    constructor
    · intro h
      exact ⟨p, rfl, h⟩
    · rintro ⟨m, h1, h2⟩
      have : p = m := h1
      rw [this]
      exact h2
  | cons c xs ih =>
    intro ys p e
    constructor
    · rintro ⟨h1, nx, h2, h3⟩
      obtain ⟨m, h4, h5⟩ := (ih ys nx e).1 h3
      exact ⟨m, ⟨h1, nx, h2, h4⟩, h5⟩
    · rintro ⟨m, ⟨h1, nx, h2, h4⟩, h5⟩
      exact ⟨h1, nx, h2, (ih ys nx e).2 ⟨m, h4, h5⟩⟩

theorem chain_mem {mem : Nat → Option PageNode} :
    ∀ (cs : List (Nat × FlashPage)) (p e : Nat), Chain mem p cs e →
      ∀ c ∈ cs, ∃ nx, mem c.1 = some { next := nx, page := c.2 } := by
  intro cs
  induction cs with
  | nil => intro p e _ c hc; cases hc
  | cons c0 cs ih =>
    intro p e h c hc
    obtain ⟨-, nx, h2, h3⟩ := h
    rcases List.mem_cons.1 hc with rfl | hc
    · exact ⟨nx, h2⟩
    · exact ih nx e h3 c hc

theorem chain_single {mem : Nat → Option PageNode} (p e : Nat) (c : Nat × FlashPage) :
    Chain mem p [c] e ↔ p = c.1 ∧ mem c.1 = some { next := e, page := c.2 } := by
  constructor
  · rintro ⟨h1, nx, h2, h3⟩
    have : nx = e := h3
    rw [this] at h2
    exact ⟨h1, h2⟩
  · rintro ⟨h1, h2⟩
    exact ⟨h1, e, h2, rfl⟩

theorem chain_start {mem : Nat → Option PageNode} (cs : List (Nat × FlashPage)) (p e : Nat)
    (h : Chain mem p cs e) (hne : cs ≠ []) : p = (cs.head?.map Prod.fst).getD 0 := by
  cases cs with
  | nil => exact absurd rfl hne
  | cons c cs => exact h.1

/-- The cells after `addPage` on an empty queue. -/
theorem addPage_empty (q : PageQueue) (fp : Nat) (page : FlashPage) (hfp : fp ≠ 0)
    (hq : q._lastPage = 0) :
    (q.addPage fp page)._lastPage = fp
    ∧ (q.addPage fp page).mem fp = some { next := fp, page := page }
    ∧ ∀ a, a ≠ fp → (q.addPage fp page).mem a = q.mem a := by
  refine ⟨?_, ?_, ?_⟩
  · simp [PageQueue.addPage, hfp]
  · simp [PageQueue.addPage, hfp, hq, PageQueue.store, PageQueue.setNext, PageQueue.page]
  · intro a ha
    simp [PageQueue.addPage, hfp, hq, PageQueue.store, PageQueue.setNext, ha]

/-- The cells after `addPage` on a queue that is not empty. -/
theorem addPage_nonempty (q : PageQueue) (fp : Nat) (page : FlashPage) (al a1 : Nat)
    (pl : FlashPage) (hfp : fp ≠ 0) (hq : q._lastPage = al) (hal : al ≠ 0) (hne : fp ≠ al)
    (hm : q.mem al = some { next := a1, page := pl }) :
    (q.addPage fp page)._lastPage = fp
    ∧ (q.addPage fp page).mem fp = some { next := a1, page := page }
    ∧ (q.addPage fp page).mem al = some { next := fp, page := pl }
    ∧ ∀ a, a ≠ fp → a ≠ al → (q.addPage fp page).mem a = q.mem a := by
  have hne' : al ≠ fp := fun h => hne h.symm
  refine ⟨?_, ?_, ?_, ?_⟩
  · simp [PageQueue.addPage, hfp]
  · simp [PageQueue.addPage, hfp, hq, hal, PageQueue.store, PageQueue.setNext, PageQueue.page,
      PageQueue.next, hne, hne', hm]
  · simp [PageQueue.addPage, hfp, hq, hal, PageQueue.store, PageQueue.setNext, PageQueue.page,
      PageQueue.next, hne, hne', hm]
  · intro a h1 h2
    simp [PageQueue.addPage, hfp, hq, hal, PageQueue.store, PageQueue.setNext, h1, h2]

/-- The idle tick on a queue of one page. -/
theorem takePage_single (q : PageQueue) (a1 : Nat) (p1 : FlashPage) (hq : q._lastPage = a1)
    (ha : a1 ≠ 0) (hm : q.mem a1 = some { next := a1, page := p1 }) :
    ∃ q2, q.takePage = some (p1, q2) ∧ q2._lastPage = 0
      ∧ q2.mem a1 = none ∧ ∀ a, a ≠ a1 → q2.mem a = q.mem a := by
  refine ⟨({ q with _lastPage := 0 } : PageQueue).free a1, ?_, rfl, ?_, ?_⟩
  · simp [PageQueue.takePage, hq, ha, PageQueue.next, hm, PageQueue.page]
  · simp [PageQueue.free]
  · intro a h
    simp [PageQueue.free, h]

/-- The idle tick on a queue of more than one page. -/
theorem takePage_many (q : PageQueue) (al a1 a2 : Nat) (pl p1 : FlashPage)
    (hq : q._lastPage = al) (hal : al ≠ 0) (hne : al ≠ a1)
    (hml : q.mem al = some { next := a1, page := pl })
    (hm1 : q.mem a1 = some { next := a2, page := p1 }) :
    ∃ q2, q.takePage = some (p1, q2) ∧ q2._lastPage = al
      ∧ q2.mem al = some { next := a2, page := pl } ∧ q2.mem a1 = none
      ∧ ∀ a, a ≠ al → a ≠ a1 → q2.mem a = q.mem a := by
  have hne' : a1 ≠ al := fun h => hne h.symm
  refine ⟨(q.setNext al a2).free a1, ?_, ?_, ?_, ?_, ?_⟩
  · simp [PageQueue.takePage, hq, hal, PageQueue.next, hml, hm1, hne, PageQueue.page,
      PageQueue.setNext, PageQueue.store, hne']
  · simp [PageQueue.free, PageQueue.setNext, PageQueue.store, hq]
  · simp [PageQueue.free, PageQueue.setNext, PageQueue.store, PageQueue.page, hml, hne]
  · simp [PageQueue.free]
  · intro a h1 h2
    simp [PageQueue.free, PageQueue.setNext, PageQueue.store, h1, h2]

theorem nil_or_snoc (l : List (Nat × FlashPage)) : l = [] ∨ ∃ init c, l = init ++ [c] := by
  rcases List.eq_nil_or_concat l with h | ⟨init, c, h⟩
  · exact Or.inl h
  · exact Or.inr ⟨init, c, by rw [h, List.concat_eq_append]⟩

theorem last_snoc (init : List (Nat × FlashPage)) (c : Nat × FlashPage) :
    (((init ++ [c]).getLast?).map Prod.fst).getD 0 = c.1 := by
  simp [List.getLast?_append]

theorem rep_null (q : PageQueue) (cells : List (Nat × FlashPage)) (h : q.Rep cells) :
    q._lastPage = 0 ↔ cells = [] := by
  obtain ⟨-, h2, h3, -⟩ := h
  rcases nil_or_snoc cells with rfl | ⟨init, c, rfl⟩
  · simp [h3]
  · have hc := h2 c (by simp)
    rw [last_snoc] at h3
    constructor
    · intro h0
      rw [h3] at h0
      exact absurd h0 hc
    · intro h0
      simp at h0

theorem rep_enqueue (q : PageQueue) (cells : List (Nat × FlashPage)) (fp : Nat)
    (page : FlashPage) (h : q.Rep cells) (hfp : fp ≠ 0) (hfree : q.mem fp = none) :
    (q.addPage fp page).Rep (cells ++ [(fp, page)]) := by
  obtain ⟨h1, h2, h3, h4⟩ := h
  have hfresh : ∀ c ∈ cells, c.1 ≠ fp := by
    intro c hc hcf
    obtain ⟨nx, hm⟩ := chain_mem cells _ _ h4 c hc
    rw [hcf, hfree] at hm
    cases hm
  have hnodup : ((cells ++ [(fp, page)]).map Prod.fst).Nodup := by
    rw [List.map_append, List.nodup_append]
    refine ⟨h1, by simp, ?_⟩
    intro a ha hb
    simp only [List.map_cons, List.map_nil, List.mem_singleton] at hb
    obtain ⟨c, hc, rfl⟩ := List.mem_map.1 ha
    exact hfresh c hc hb
  have hnz : ∀ c ∈ cells ++ [(fp, page)], c.1 ≠ 0 := by
    intro c hc
    rcases List.mem_append.1 hc with hc | hc
    · exact h2 c hc
    · simp only [List.mem_singleton] at hc
      rw [hc]
      exact hfp
  rcases nil_or_snoc cells with rfl | ⟨init, ⟨al, pl⟩, rfl⟩
  · have hq : q._lastPage = 0 := by simpa using h3
    obtain ⟨e1, e2, -⟩ := addPage_empty q fp page hfp hq
    refine ⟨hnodup, hnz, ?_, ?_⟩
    · simp [e1]
    · simp only [List.nil_append, List.head?_cons, Option.map_some', Option.getD_some]
      exact (chain_single _ _ _).2 ⟨rfl, e2⟩
  · have hq : q._lastPage = al := by
      rw [last_snoc] at h3
      exact h3
    have hal : al ≠ 0 := h2 (al, pl) (by simp)
    have hne : fp ≠ al := fun hh => hfresh (al, pl) (by simp) hh.symm
    obtain ⟨m, c1, c2⟩ := (chain_append init [(al, pl)] _ _).1 h4
    obtain ⟨c3, c4⟩ := (chain_single _ _ _).1 c2
    simp only at c3 c4
    obtain ⟨e1, e2, e3, e4⟩ := addPage_nonempty q fp page al _ pl hfp hq hal hne c4
    have hhd : (((init ++ [(al, pl)]) ++ [(fp, page)]).head?.map Prod.fst).getD 0
        = ((init ++ [(al, pl)]).head?.map Prod.fst).getD 0 := by
      cases init <;> simp
    refine ⟨hnodup, hnz, ?_, ?_⟩
    · rw [last_snoc]
      exact e1
    · rw [hhd, List.append_assoc]
      refine (chain_append init _ _ _).2 ⟨m, ?_, ?_⟩
      · refine chain_frame init _ _ ?_ c1
        intro c hc
        apply e4
        · exact hfresh c (by simp [hc])
        · intro hcal
          rw [List.map_append, List.nodup_append] at h1
          exact h1.2.2 (List.mem_map.2 ⟨c, hc, rfl⟩) (by simp [hcal])
      · rw [c3]
        exact ⟨rfl, fp, e3, (chain_single _ _ _).2 ⟨rfl, e2⟩⟩

theorem rep_take_empty (q : PageQueue) (h : q.Rep []) : q.takePage = none := by
  have hq : q._lastPage = 0 := (rep_null q [] h).2 rfl
  simp [PageQueue.takePage, hq]

theorem rep_dequeue (q : PageQueue) (a1 : Nat) (p1 : FlashPage)
    (rest : List (Nat × FlashPage)) (h : q.Rep ((a1, p1) :: rest)) :
    ∃ q2, q.takePage = some (p1, q2) ∧ q2.Rep rest := by
  obtain ⟨h1, h2, h3, h4⟩ := h
  have ha1 : a1 ≠ 0 := h2 (a1, p1) (by simp)
  simp only [List.head?_cons, Option.map_some', Option.getD_some] at h4
  obtain ⟨-, a2, m1, c1⟩ := h4
  simp only at m1
  simp only [List.map_cons, List.nodup_cons] at h1
  rcases nil_or_snoc rest with rfl | ⟨init, ⟨al, pl⟩, rfl⟩
  · have hq : q._lastPage = a1 := by simpa using h3
    have ha2 : a2 = a1 := c1
    rw [ha2] at m1
    obtain ⟨q2, e1, e2, -, -⟩ := takePage_single q a1 p1 hq ha1 m1
    refine ⟨q2, e1, by simp, by simp, ?_, ?_⟩
    · simpa using e2
    · rfl
  · have hq : q._lastPage = al := by
      rw [← List.cons_append, last_snoc] at h3
      exact h3
    have hal : al ≠ 0 := h2 (al, pl) (by simp)
    have hne : al ≠ a1 := by
      intro hh
      apply h1.1
      rw [← hh]
      simp
    obtain ⟨m, c2, c3⟩ := (chain_append init [(al, pl)] _ _).1 c1
    obtain ⟨c4, c5⟩ := (chain_single _ _ _).1 c3
    simp only at c4 c5
    obtain ⟨q2, e1, e2, e3, e4, e5⟩ := takePage_many q al a1 a2 pl p1 hq hal hne c5 m1
    have hstart := chain_start _ _ _ c1 (by simp)
    refine ⟨q2, e1, h1.2, fun c hc => h2 c (List.mem_cons_of_mem _ hc), ?_, ?_⟩
    · rw [last_snoc]
      exact e2
    · rw [← hstart]
      refine (chain_append init _ _ _).2 ⟨m, ?_, ?_⟩
      · refine chain_frame init _ _ ?_ c2
        intro c hc
        apply e5
        · intro hcal
          have hnd := h1.2
          rw [List.map_append, List.nodup_append] at hnd
          exact hnd.2.2 (List.mem_map.2 ⟨c, hc, rfl⟩) (by simp [hcal])
        · intro hca1
          apply h1.1
          rw [← hca1]
          exact List.mem_map.2 ⟨c, by simp [hc], rfl⟩
      · rw [c4]
        exact (chain_single _ _ _).2 ⟨rfl, e3⟩

theorem rep_empty : PageQueue.empty.Rep [] := by
  refine ⟨by simp, by simp, rfl, rfl⟩

/-- The operations on the cells do what the operations on the list do. -/
theorem runOps_fifo : ∀ (ops : List QueueOp) (q : PageQueue) (cells : List (Nat × FlashPage)),
    q.Rep cells → q.allocOk ops = true →
    (q.runOps ops).1 = (fifoOps (cells.map Prod.snd) ops).1
    ∧ ((q.runOps ops).2._lastPage = 0 ↔ (fifoOps (cells.map Prod.snd) ops).2 = []) := by
  intro ops
  induction ops with
  | nil =>
    intro q cells h _
    refine ⟨rfl, ?_⟩
    simp only [PageQueue.runOps, fifoOps]
    rw [rep_null q cells h]
    simp
  | cons op ops ih =>
    intro q cells h hok
    cases op with
    | enqueue fp page =>
      simp only [PageQueue.allocOk, Bool.and_eq_true, Bool.or_eq_true, beq_iff_eq,
        Option.isNone_iff_eq_none] at hok
      simp only [PageQueue.runOps, fifoOps]
      by_cases hfp : fp = 0
      · have e : q.addPage fp page = q := by simp [PageQueue.addPage, hfp]
        rw [e] at hok ⊢
        rw [if_pos hfp]
        exact ih q cells h hok.2
      · have hfree : q.mem fp = none := by
          rcases hok.1 with h0 | h0
          · exact absurd h0 hfp
          · exact h0
        have := ih _ _ (rep_enqueue q cells fp page h hfp hfree) hok.2
        rw [if_neg hfp]
        simpa using this
    | dequeue =>
      cases cells with
      | nil =>
        have e := rep_take_empty q h
        simp only [PageQueue.allocOk, e] at hok
        simp only [PageQueue.runOps, fifoOps, e, List.map_nil]
        exact ih q [] h hok
      | cons c rest =>
        obtain ⟨a1, p1⟩ := c
        obtain ⟨q2, e, hrep⟩ := rep_dequeue q a1 p1 rest h
        simp only [PageQueue.allocOk, e] at hok
        simp only [PageQueue.runOps, fifoOps, e, List.map_cons]
        obtain ⟨i1, i2⟩ := ih q2 rest hrep hok
        exact ⟨by rw [i1], i2⟩

/-- The list gives its pages back in the order in which they were added. -/
theorem fifoOps_order : ∀ (ops : List QueueOp) (l : List FlashPage),
    (fifoOps l ops).1 ++ (fifoOps l ops).2 = l ++ enqueued ops := by
  intro ops
  induction ops with
  | nil => intro l; simp [fifoOps, enqueued]
  | cons op ops ih =>
    intro l
    cases op with
    | enqueue fp page =>
      simp only [fifoOps, enqueued]
      by_cases hfp : fp = 0
      · simp only [hfp, if_true]
        exact ih l
      · simp only [hfp, if_false]
        rw [ih]
        simp
    | dequeue =>
      cases l with
      | nil =>
        simp only [fifoOps, enqueued]
        exact ih []
      | cons fp rest =>
        simp only [fifoOps, enqueued, List.cons_append]
        rw [ih]

set_option maxRecDepth 1000000 in
theorem write_longFile_first (fuel : Nat) :
    (HexRecord.new 128 []).write longFile 7 8 9 (fuel + 1)
      = HexRecord.writeLoop true 152 fuel (longFile.drop 128) stuckParser := rfl

set_option maxRecDepth 1000000 in
theorem writeLoop_stuck_round (fuel : Nat) :
    HexRecord.writeLoop true 152 (fuel + 1) (longFile.drop 128) stuckParser
      = HexRecord.writeLoop true 152 fuel (longFile.drop 128) stuckParser := rfl

theorem sameDone_refl (s : AVRFlash) : s.sameDone s := ⟨rfl, rfl, rfl, rfl⟩

theorem sameDone_trans {s t u : AVRFlash} (h1 : s.sameDone t) (h2 : t.sameDone u) :
    s.sameDone u := by
  obtain ⟨a1, a2, a3, a4⟩ := h1
  obtain ⟨b1, b2, b3, b4⟩ := h2
  exact ⟨b1.trans a1, b2.trans a2, b3.trans a3, b4.trans a4⟩

theorem sameDone_of_sameOutput {s t : AVRFlash} (h : s.sameOutput t) : s.sameDone t := by
  obtain ⟨a1, a2, a3, a4, a5, a6, a7, a8, a9, a10, a11, a12, a13⟩ := h
  exact ⟨a4, a5, a9, by simp [AVRFlash.doneEvents, a7]⟩

theorem sameDone_uartWrite (s : AVRFlash) (b : Nat) : s.sameDone (s.uartWrite b) := by
  refine ⟨rfl, rfl, rfl, ?_⟩
  simp [AVRFlash.doneEvents, AVRFlash.uartWrite, Event.isDone]

theorem sameDone_setBaudrate (s : AVRFlash) (r : Nat) : s.sameDone (s.setBaudrate r) := by
  unfold AVRFlash.setBaudrate
  split
  · exact sameDone_refl s
  · exact ⟨rfl, rfl, rfl, rfl⟩

theorem sameDone_nextBaud (s : AVRFlash) : s.sameDone s.nextBaud := by
  unfold AVRFlash.nextBaud
  exact sameDone_trans (sameDone_setBaudrate s _) ⟨rfl, rfl, rfl, rfl⟩

theorem sameDone_checkSyncAck (s : AVRFlash) : s.sameDone s.checkSyncAck.2 := by
  have h := sameDone_of_sameOutput (sameOutput_fetchUart s)
  unfold AVRFlash.checkSyncAck
  simp only []
  split
  · exact sameDone_trans h ⟨rfl, rfl, rfl, rfl⟩
  · split
    · exact sameDone_trans h ⟨rfl, rfl, rfl, rfl⟩
    · split
      · exact sameDone_trans h ⟨rfl, rfl, rfl, rfl⟩
      · exact h

theorem sameDone_parseResponse (s : AVRFlash) : s.sameDone s.parseResponse.2 := by
  have h := sameDone_of_sameOutput (sameOutput_fetchUart s)
  have h2 := sameDone_trans h (sameDone_of_sameOutput (sameOutput_processAcks s.fetchUart))
  unfold AVRFlash.parseResponse
  simp only []
  split
  · split
    · exact h2
    · split
      · refine sameDone_trans h2 ⟨rfl, rfl, rfl, ?_⟩
        simp [AVRFlash.doneEvents, AVRFlash.uartWrite, Event.isDone]
      · exact sameDone_trans h2 ⟨rfl, rfl, rfl, rfl⟩
  · split
    · exact h
    · split
      · refine sameDone_trans h ⟨rfl, rfl, rfl, ?_⟩
        simp [AVRFlash.doneEvents, AVRFlash.uartWrite, Event.isDone]
      · exact sameDone_trans h ⟨rfl, rfl, rfl, rfl⟩
  · split
    · exact h
    · split
      · exact sameDone_trans h ⟨rfl, rfl, rfl, rfl⟩
      · exact sameDone_trans h ⟨rfl, rfl, rfl, rfl⟩
  · exact h

theorem filter_done_tx (bytes : List Nat) :
    (bytes.map Event.tx).filter Event.isDone = [] := by
  induction bytes with
  | nil => rfl
  | cons b bs ih => simp [List.filter_cons, ih, Event.isDone]

theorem sameDone_programPage (s : AVRFlash) (fp : FlashPage) (polls : List (List Nat)) :
    s.sameDone (s.programPage fp polls).2 := by
  obtain ⟨c1, c2, c3, c4, c5, c6, c7, bytes, c8, c9, c10, c11⟩ := programPage_out s fp polls
  refine ⟨c4, c5, c7, ?_⟩
  simp [AVRFlash.doneEvents, c9, filter_done_tx]

theorem ended_checkFinish (s : AVRFlash) : s.ended s.checkFinish := by
  unfold AVRFlash.checkFinish
  by_cases h : s._doneCB ≠ 0
  · rw [if_pos h]
    refine ⟨rfl, rfl, rfl, ?_⟩
    simp [AVRFlash.doneEvents, Event.isDone, h]
  · rw [if_neg h]
    split
    · refine ⟨rfl, rfl, rfl, ?_⟩
      simp [AVRFlash.doneEvents, h]
    · refine ⟨rfl, rfl, rfl, ?_⟩
      simp [AVRFlash.doneEvents, h]

theorem ended_of_sameDone {s t u : AVRFlash} (h1 : s.sameDone t) (h2 : t.ended u) :
    s.ended u := by
  obtain ⟨a1, a2, a3, a4⟩ := h1
  obtain ⟨b1, b2, b3, b4⟩ := h2
  refine ⟨b1.trans a1, b2.trans a2, b3.trans a3, ?_⟩
  rw [b4, a4, a1, a2]

theorem rearmed_of_sameDone {s t u : AVRFlash} (h1 : s.sameDone t) (h2 : t.rearmed u) :
    s.rearmed u := by
  obtain ⟨a1, a2, a3, a4⟩ := h1
  obtain ⟨b1, b2, b3, b4⟩ := h2
  exact ⟨b1.trans a1, b2.trans a2, b3, b4.trans a4⟩

theorem timerCB_done_idle_empty (s : AVRFlash) (now : Nat) (polls : List (List Nat))
    (hstate : s._progState = stateIdle) (hq : s._lastPage = []) :
    s.rearmed (s.timerCB now polls) ∨ s.ended (s.timerCB now polls) := by
  have ho := sameOutput_trans (sameOutput_fetchUart s) (sameOutput_processAcks s.fetchUart)
  have h1 : s.sameDone s.fetchUart.processAcks := sameDone_of_sameOutput ho
  have a1 : s.fetchUart.processAcks._lastPage = [] := ho.1.trans hq
  unfold AVRFlash.timerCB
  simp only [hstate]
  split
  · rename_i fp rest heq
    rw [a1] at heq
    cases heq
  · split
    · rename_i hcb
      right
      refine ended_of_sameDone h1 ⟨rfl, rfl, rfl, ?_⟩
      simp [AVRFlash.doneEvents, AVRFlash.uartWrite, Event.isDone, hcb]
    · split
      · right
        refine ended_of_sameDone h1 (ended_of_sameDone ?_ (ended_checkFinish _))
        exact ⟨rfl, rfl, rfl, rfl⟩
      · left
        split
        · refine rearmed_of_sameDone h1 ⟨rfl, rfl, ?_, ?_⟩
          · simp [AVRFlash.armTimer]
          · simp [AVRFlash.doneEvents, AVRFlash.uartWrite, AVRFlash.armTimer, Event.isDone]
        · refine rearmed_of_sameDone h1 ⟨rfl, rfl, ?_, rfl⟩
          simp [AVRFlash.armTimer]

theorem filter_done_resume (s : AVRFlash) (rest : List FlashPage) :
    (if rest = [] ∧ s._resume ≠ 0 then [Event.resume s._resume s._resumeArg] else []).filter
      Event.isDone = [] := by
  split <;> simp [Event.isDone]

theorem timerCB_done_other (s : AVRFlash) (now : Nat) (polls : List (List Nat))
    (h : s._progState ≠ stateIdle) :
    s.rearmed (s.timerCB now polls) ∨ s.ended (s.timerCB now polls) := by
  unfold AVRFlash.timerCB
  cases hst : s._progState
  case stateIdle => exact absurd hst h
  case stateInit =>
    simp only []
    left
    refine ⟨rfl, rfl, ?_, ?_⟩
    · simp [AVRFlash.armTimer]
    · simp [AVRFlash.doneEvents, AVRFlash.uartWrite, AVRFlash.armTimer, Event.isDone]
  case stateSync =>
    simp only []
    have hc := sameDone_checkSyncAck s
    rcases hck : s.checkSyncAck with ⟨b, s1⟩
    rw [hck] at hc
    cases b with
    | true =>
      simp only []
      left
      refine rearmed_of_sameDone hc ⟨rfl, rfl, ?_, ?_⟩
      · simp [AVRFlash.armTimer]
      · simp [AVRFlash.doneEvents, AVRFlash.uartWrite, AVRFlash.armTimer, Event.isDone]
    | false =>
      simp only []
      split
      · left
        refine rearmed_of_sameDone hc ⟨rfl, rfl, ?_, rfl⟩
        simp [AVRFlash.armTimer]
      · split
        · right
          refine ended_of_sameDone hc (ended_of_sameDone ?_ (ended_checkFinish _))
          exact ⟨rfl, rfl, rfl, rfl⟩
        · left
          refine rearmed_of_sameDone hc (rearmed_of_sameDone (sameDone_nextBaud s1) ?_)
          refine ⟨rfl, rfl, ?_, rfl⟩
          simp [AVRFlash.armTimer]
  case stateProg =>
    simp only []
    have h1 : s.sameDone s.fetchUart.processAcks :=
      sameDone_of_sameOutput
        (sameOutput_trans (sameOutput_fetchUart s) (sameOutput_processAcks s.fetchUart))
    split
    · left
      refine rearmed_of_sameDone h1 ⟨rfl, rfl, ?_, ?_⟩
      · simp [AVRFlash.armTimer]
      · simp [AVRFlash.doneEvents, AVRFlash.uartWrite, AVRFlash.armTimer, Event.isDone]
    · split
      · right
        refine ended_of_sameDone h1 (ended_of_sameDone ?_ (ended_checkFinish _))
        exact ⟨rfl, rfl, rfl, rfl⟩
      · left
        refine rearmed_of_sameDone h1 ⟨rfl, rfl, ?_, rfl⟩
        simp [AVRFlash.armTimer]
  all_goals
    simp only []
    have hc := sameDone_parseResponse s
    rcases hck : s.parseResponse with ⟨b, s1⟩
    rw [hck] at hc
    cases b with
    | true =>
      simp only []
      left
      refine rearmed_of_sameDone hc ⟨rfl, rfl, ?_, rfl⟩
      simp [AVRFlash.armTimer]
    | false =>
      simp only []
      split
      · right
        exact ended_of_sameDone hc (ended_checkFinish _)
      · split
        · right
          refine ended_of_sameDone hc (ended_of_sameDone ?_ (ended_checkFinish _))
          exact ⟨rfl, rfl, rfl, rfl⟩
        · left
          refine rearmed_of_sameDone hc ⟨rfl, rfl, ?_, rfl⟩
          simp [AVRFlash.armTimer]

/-- One call of `timerCB`: either the timer is armed again and the completion
callback is not called, or the timer is left alone and the callback, if there
is one, is called once. -/
theorem timerCB_done (s : AVRFlash) (now : Nat) (polls : List (List Nat)) :
    s.rearmed (s.timerCB now polls) ∨ s.ended (s.timerCB now polls) := by
  by_cases hstate : s._progState = stateIdle
  · cases hq : s._lastPage with
    | nil => exact timerCB_done_idle_empty s now polls hstate hq
    | cons fp rest =>
      left
      obtain ⟨s2, e, b1, b2, b3, b4, b5, b6, b7, b8, b9⟩ :=
        timerCB_idle_page s now polls fp rest hstate hq
      obtain ⟨c1, c2, c3, c4, c5, c6, c7, bytes, c8, c9, c10, c11⟩ :=
        programPage_out s2 fp polls
      rw [e]
      refine ⟨c4.trans b4, c5.trans b5, ?_, ?_⟩
      · simp [AVRFlash.armTimer]
      · show ((s2.programPage fp polls).2.events).filter Event.isDone = _
        rw [c9, b9, List.filter_append, List.filter_append, filter_done_tx, filter_done_resume]
        simp [AVRFlash.doneEvents]
  · exact timerCB_done_other s now polls hstate

/-- The completion callback across one step of a run. -/
theorem tick_done (s : AVRFlash) (rx : List Nat) (now : Nat) (polls : List (List Nat)) :
    ((s.receive rx).tick now polls)._doneCB = s._doneCB
    ∧ ((s.receive rx).tick now polls)._doneCBArg = s._doneCBArg
    ∧ (s.timer = none → ((s.receive rx).tick now polls).timer = none)
    ∧ ((s.receive rx).tick now polls).doneEvents = s.doneEvents
        ++ (if s.timer ≠ none ∧ ((s.receive rx).tick now polls).timer = none ∧ s._doneCB ≠ 0
            then [Event.done s._doneCB s._doneCBArg] else []) := by
  cases ht : s.timer with
  | none =>
    have e : (s.receive rx).tick now polls = s.receive rx := by
      simp only [AVRFlash.tick, AVRFlash.receive, ht]
    rw [e]
    refine ⟨rfl, rfl, fun _ => ?_, ?_⟩
    · simp [AVRFlash.receive, ht]
    · simp [AVRFlash.receive, AVRFlash.doneEvents]
  | some ms =>
    have e : (s.receive rx).tick now polls
        = AVRFlash.timerCB { s.receive rx with timer := none } now polls := by
      simp only [AVRFlash.tick, AVRFlash.receive, ht]
    rw [e]
    have hd := timerCB_done { s.receive rx with timer := none } now polls
    generalize AVRFlash.timerCB { s.receive rx with timer := none } now polls = T at hd ⊢
    rcases hd with ⟨f1, f2, f3, f4⟩ | ⟨f1, f2, f3, f4⟩
    · have f4' : T.doneEvents = s.doneEvents := f4
      refine ⟨f1, f2, (by intro h; cases h), ?_⟩
      rw [if_neg (fun h => f3 h.2.1), List.append_nil]
      exact f4'
    · have f3' : T.timer = none := f3
      have f4' : T.doneEvents = s.doneEvents
          ++ (if s._doneCB ≠ 0 then [Event.done s._doneCB s._doneCBArg] else []) := f4
      refine ⟨f1, f2, (by intro h; cases h), ?_⟩
      rw [f4']
      by_cases hcb : s._doneCB ≠ 0
      · rw [if_pos hcb, if_pos ⟨by simp, f3', hcb⟩]
      · rw [if_neg hcb, if_neg (fun h => hcb h.2.2)]

/-- The completion callback across a run: it is called at most once, and
exactly when the run leaves the timer unarmed. -/
theorem run_done : ∀ (steps : List (List Nat × Nat × List (List Nat))) (s : AVRFlash),
    (s.run steps)._doneCB = s._doneCB ∧ (s.run steps)._doneCBArg = s._doneCBArg
    ∧ (s.timer = none → (s.run steps).timer = none)
    ∧ (s.run steps).doneEvents = s.doneEvents
        ++ (if s.timer ≠ none ∧ (s.run steps).timer = none ∧ s._doneCB ≠ 0
            then [Event.done s._doneCB s._doneCBArg] else []) := by
  intro steps
  induction steps with
  | nil =>
    intro s
    refine ⟨rfl, rfl, fun h => h, ?_⟩
    simp only [AVRFlash.run]
    have : ¬ (s.timer ≠ none ∧ s.timer = none ∧ s._doneCB ≠ 0) := fun h => h.1 h.2.1
    rw [if_neg this, List.append_nil]
  | cons st steps ih =>
    intro s
    obtain ⟨rx, now, polls⟩ := st
    obtain ⟨f1, f2, f3, f4⟩ := tick_done s rx now polls
    obtain ⟨g1, g2, g3, g4⟩ := ih ((s.receive rx).tick now polls)
    simp only [AVRFlash.run]
    refine ⟨g1.trans f1, g2.trans f2, fun h => g3 (f3 h), ?_⟩
    rw [g4, f4, f1, f2]
    by_cases ht : s.timer = none
    · have h1 := f3 ht
      have h2 := g3 h1
      simp [ht, h1]
    · by_cases ht2 : ((s.receive rx).tick now polls).timer = none
      · have h2 := g3 ht2
        simp [ht, ht2, h2]
      · simp [ht, ht2]

theorem signatureOk_iff (buf : List Nat) :
    signatureOk buf = true ↔
      (buf.getD 0 0 = STK_INSYNC ∧ buf.getD 4 0 = STK_OK ∧ buf.getD 1 0 = 0x1e
        ∧ buf.getD 2 0 = 0x95 ∧ buf.getD 3 0 = 0x0f) := by
  simp only [signatureOk, Bool.and_eq_true, beq_iff_eq]
  tauto

theorem parseResponse_getSig (s : AVRFlash) (hstate : s._progState = stateGetSig)
    (hlen : 5 ≤ s.fetchUart.processAcks._responseLen) :
    s.parseResponse =
      if signatureOk s.fetchUart.processAcks._responseBuf = true then
        (true, { ((s.fetchUart.processAcks.uartWrite STK_GET_PARAMETER).uartWrite 0x82).uartWrite
          CRC_EOP with _progState := stateGetVersLo, _responseLen := 0 })
      else
        (false, { s.fetchUart.processAcks with _errMessage := "bad programmer signature: 0x" }) := by
  have hps : s.fetchUart._progState = stateGetSig := by
    rw [(sameOutput_fetchUart s).2.2.2.2.2.2.2.2.2.2.1, hstate]
  have hl : ¬ s.fetchUart.processAcks._responseLen < 5 := by omega
  unfold AVRFlash.parseResponse
  simp only [hps, hl, if_false, signatureOk_iff]

theorem and255 (x : Nat) : x &&& 255 = x % 256 := by
  have h := Nat.and_pow_two_sub_one_eq_mod x 8
  norm_num at h
  exact h

theorem shr8 (x : Nat) : x >>> 8 = x / 256 := by
  rw [Nat.shiftRight_eq_div_pow]

theorem shr1 (x : Nat) : x >>> 1 = x / 2 := by
  rw [Nat.shiftRight_eq_div_pow]

theorem map_mod_id (l : List Nat) (h : ∀ b ∈ l, b < 256) : l.map (fun b => b % 256) = l := by
  induction l with
  | nil => rfl
  | cons b bs ih =>
    simp only [List.map_cons]
    rw [ih (fun c hc => h c (List.mem_cons_of_mem _ hc)),
      Nat.mod_eq_of_lt (h b (List.mem_cons_self _ _))]

theorem loadCmd_eq (fp : FlashPage) :
    fp.loadCmd = [STK_LOAD_ADDRESS, fp.addr / 2 % 256, fp.addr / 2 / 256 % 256, CRC_EOP] := by
  simp only [FlashPage.loadCmd, and255, shr8, shr1, STK_LOAD_ADDRESS, CRC_EOP]
  congr 1
  congr 1
  · omega
  · congr 1
    omega

theorem progCmd_eq (fp : FlashPage) (hlen : fp.len < 65536) (hdata : fp.data.length = fp.len)
    (hbytes : ∀ b ∈ fp.data, b < 256) :
    fp.progCmd = [STK_PROG_PAGE, fp.len / 256, fp.len % 256, 70] ++ fp.data ++ [CRC_EOP] := by
  have ht : fp.data.take fp.len = fp.data := by
    rw [← hdata]
    exact List.take_length _
  simp only [FlashPage.progCmd, and255, shr8, ht, map_mod_id _ hbytes, STK_PROG_PAGE, CRC_EOP]
  congr 1
  congr 1
  congr 1
  congr 1
  · omega
  · congr 1
    omega

/-- The bytes `programPage` sends when the ack to the load-address command
arrives during the wait. -/
theorem programPage_ok (s : AVRFlash) (fp : FlashPage) (polls : List (List Nat))
    (hlen : fp.len ≤ s._pageSz)
    (hack : (AVRFlash.waitAck polls (s.sendLoadAddress fp)).1 = true) :
    (s.programPage fp polls).1 = true
    ∧ (s.programPage fp polls).2.uartTx = s.uartTx ++ fp.loadCmd ++ fp.progCmd
    ∧ (s.programPage fp polls).2._ackWait = true := by
  have hw := sameOutput_waitAck polls (s.sendLoadAddress fp)
  have hl : ¬ fp.len > s._pageSz := by omega
  have e : s.programPage fp polls =
      match AVRFlash.waitAck polls (s.sendLoadAddress fp) with
      | (false, s2) => (false, s2)
      | (true, s2) =>
        (true, { ((((s2.uartWrite STK_PROG_PAGE).uartWrite (fp.len >>> 8)).uartWrite
          (fp.len &&& 255)).uartWrite 70).uartWriteBuf fp.data fp.len |>.uartWrite CRC_EOP with
          _ackWait := true }) := by
    unfold AVRFlash.programPage
    rw [if_neg hl]
    rfl
  rw [e]
  rcases hwa : AVRFlash.waitAck polls (s.sendLoadAddress fp) with ⟨b, s2⟩
  rw [hwa] at hack hw
  simp only at hack
  subst hack
  have h6 : s2.uartTx = s.uartTx ++ fp.loadCmd := by
    rw [hw.2.2.2.2.2.1]
    simp [AVRFlash.sendLoadAddress, AVRFlash.uartWrite, FlashPage.loadCmd]
  refine ⟨rfl, ?_, rfl⟩
  simp [AVRFlash.uartWrite, AVRFlash.uartWriteBuf, FlashPage.progCmd, h6]

theorem fetchLoop_bounds : ∀ (fuel : Nat) (s : AVRFlash),
    s._responseBuf.length = RESP_SZ → s._responseLen ≤ RESP_SZ - 1 →
    (AVRFlash.fetchLoop fuel s)._responseBuf.length = RESP_SZ
    ∧ (AVRFlash.fetchLoop fuel s)._responseLen ≤ RESP_SZ - 1 := by
  intro fuel
  induction fuel with
  | zero => intro s h1 h2; exact ⟨h1, h2⟩
  | succ fuel ih =>
    intro s h1 h2
    unfold AVRFlash.fetchLoop
    split
    · rename_i hlt
      split
      · exact ⟨h1, h2⟩
      · apply ih
        · simp [h1]
        · show s._responseLen + 1 ≤ RESP_SZ - 1
          omega
    · exact ⟨h1, h2⟩

theorem fetchUart_bounds (s : AVRFlash) (h1 : s._responseBuf.length = RESP_SZ)
    (h2 : s._responseLen ≤ RESP_SZ - 1) :
    s.fetchUart._responseBuf.length = RESP_SZ ∧ s.fetchUart._responseLen ≤ RESP_SZ - 1 := by
  obtain ⟨g1, g2⟩ := fetchLoop_bounds (RESP_SZ - 1 - s._responseLen) s h1 h2
  unfold AVRFlash.fetchUart
  exact ⟨by simp [g1], g2⟩

theorem keep_last (buf : List Nat) (len : Nat) (hlen : len ≤ buf.length) (h32 : 32 < len) :
    ((memmove buf 0 (len - 32) 32).set 32 0).take 32 = (buf.take len).drop (len - 32) := by
  have h1 : ((memmove buf 0 (len - 32) 32).set 32 0).take 32
      = (memmove buf 0 (len - 32) 32).take 32 := by
    rw [List.set_take]
    apply List.set_eq_of_length_le
    rw [List.length_take]
    exact Nat.min_le_left _ _
  have h2 : ((buf.drop (len - 32)).take 32).length = 32 := by
    rw [List.length_take, List.length_drop]
    omega
  rw [h1]
  simp only [memmove, List.take_zero, List.nil_append, Nat.zero_add]
  rw [List.take_append_of_le_length (by omega), List.take_take, List.drop_take]
  congr 1
  omega

/-! ## Data held by the parser -/

theorem data_le_58 (r : List Nat) (hr : validRecord r = true) (hfit : r.length ≤ 128) :
    (readRecord r).data.length ≤ 58 := by
  have hv := (validRecord_iff r).1 hr
  have hlf := validRecord_lenField hr
  have e : (readRecord r).data.length = getHexValue (r.drop 1) 2 := by
    simp only [readRecord, decodeBytes_length]
    omega
  have := hv.2.2.1
  omega

theorem queuedData_append (h : HexRecord) (p : FlashPage) :
    ((h._lastPage ++ [p]).map FlashPage.data).flatten = h.queuedData ++ p.data := by
  simp [HexRecord.queuedData]

theorem pending_flushOpen (h : HexRecord) (hi : h.BufInv) :
    h.flushOpen.pending = h.pending ∧ h.flushOpen.BufInv ∧ h.flushOpen._pageLen = 0
      ∧ h.flushOpen._eof = h._eof ∧ h.flushOpen._errMessage = h._errMessage := by
  obtain ⟨i1, i2, i3, i4⟩ := hi
  rw [flushOpen_eq h i1]
  refine ⟨?_, ⟨rfl, by show 0 < 128; decide, i3, i4⟩, rfl, rfl, rfl⟩
  by_cases h0 : h._pageLen > 0
  · simp only [HexRecord.pending, HexRecord.queuedData, h0, if_true]
    simp
  · have hz : h._pageLen = 0 := by omega
    simp only [HexRecord.pending, HexRecord.queuedData, hz]
    simp

theorem pending_startData (h : HexRecord) (addr : Nat) (hi : h.BufInv) :
    (h.startData addr).pending = h.pending ∧ (h.startData addr).BufInv
      ∧ (h.startData addr)._eof = h._eof
      ∧ (h.startData addr)._errMessage = h._errMessage := by
  obtain ⟨i1, i2, i3, i4⟩ := hi
  by_cases h0 : 0 < h._pageLen
  · by_cases hc : addr = (h._address + h._pageLen) % 4294967296 &&& 65535
    · rw [startData_cont h addr h0 hc]
      exact ⟨rfl, ⟨i1, i2, i3, i4⟩, rfl, rfl⟩
    · rw [startData_gap h addr h0 hc i1]
      refine ⟨?_, ⟨rfl, by show 0 < 128; decide, i3, i4⟩, rfl, rfl⟩
      simp only [HexRecord.pending, HexRecord.queuedData]
      simp
  · have hz : h._pageLen = 0 := by omega
    rw [startData_empty h addr hz]
    exact ⟨rfl, ⟨i1, i2, i3, i4⟩, rfl, rfl⟩

theorem pending_storeBytes (h : HexRecord) (d : List Nat) (hi : h.BufInv) (hd : d.length ≤ 64) :
    (h.storeBytes d).pending = h.pending ++ d
      ∧ (h.storeBytes d).heap = [] ∧ (h.storeBytes d)._pageSz = 128
      ∧ (h.storeBytes d)._pageBuf.length = 192
      ∧ (h.storeBytes d)._pageLen = h._pageLen + d.length
      ∧ (h.storeBytes d)._eof = h._eof
      ∧ (h.storeBytes d)._errMessage = h._errMessage := by
  obtain ⟨i1, i2, i3, i4⟩ := hi
  rw [storeBytes_eq h d (by omega) (by omega)]
  refine ⟨?_, i1, i3, ?_, rfl, rfl, rfl⟩
  · simp only [HexRecord.pending, HexRecord.queuedData]
    have hl : (h._pageBuf.take h._pageLen).length = h._pageLen := by
      rw [List.length_take]
      omega
    have := take_append_append (h._pageBuf.take h._pageLen) d
      (h._pageBuf.drop (h._pageLen + d.length))
    rw [hl] at this
    rw [List.append_assoc (h._pageBuf.take h._pageLen), this, List.append_assoc]
  · simp only [List.length_append, List.length_take, List.length_drop]
    omega

theorem pending_flushFull (h : HexRecord) (hheap : h.heap = []) (hsz : h._pageSz = 128)
    (hbuf : h._pageBuf.length = 192) :
    h.flushFull.pending = h.pending ∧ h.flushFull.BufInv
      ∧ h.flushFull._eof = h._eof ∧ h.flushFull._errMessage = h._errMessage := by
  by_cases hfull : h._pageLen < h._pageSz
  · rw [flushFull_open h hfull]
    exact ⟨rfl, ⟨hheap, by omega, hsz, hbuf⟩, rfl, rfl⟩
  · rw [flushFull_full h (by omega) hheap]
    refine ⟨?_, ⟨rfl, by show 0 < 128; decide, hsz, hbuf⟩, rfl, rfl⟩
    simp only [HexRecord.pending, HexRecord.queuedData]
    simp

theorem pending_with_eof (h : HexRecord) (b : Bool) :
    ({ h with _eof := b } : HexRecord).pending = h.pending := rfl

theorem pending_with_address (h : HexRecord) (a : Nat) :
    ({ h with _address := a } : HexRecord).pending = h.pending := rfl

theorem bufInv_with_eof (h : HexRecord) (b : Bool) :
    ({ h with _eof := b } : HexRecord).BufInv ↔ h.BufInv := Iff.rfl

theorem bufInv_with_address (h : HexRecord) (a : Nat) :
    ({ h with _address := a } : HexRecord).BufInv ↔ h.BufInv := Iff.rfl

/-- One valid record through the `switch` of `processRecord`: the data bytes
held grow by the data of a data record and are unchanged by the other
records. -/
theorem dispatch_pending (g : HexRecord) (r : List Nat) (hr : validRecord r = true)
    (hfit : r.length ≤ 128) (hi : g.BufInv) :
    (g.dispatch (readRecord r)).2.pending
        = g.pending ++ (if (readRecord r).type = 0 then (readRecord r).data else [])
    ∧ (g.dispatch (readRecord r)).2.BufInv
    ∧ ((readRecord r).type = 1 →
        (g.dispatch (readRecord r)).2._pageLen = 0 ∧ (g.dispatch (readRecord r)).2._eof = true)
    ∧ ((readRecord r).type ≠ 1 → (g.dispatch (readRecord r)).2._eof = g._eof) := by
  have hd := data_le_58 r hr hfit
  have hv := (validRecord_iff r).1 hr
  by_cases h0 : (readRecord r).type = 0
  · have e : g.dispatch (readRecord r)
        = (true, ((g.startData (readRecord r).addr).storeBytes (readRecord r).data).flushFull) := by
      simp only [dispatch, h0, if_true]
    obtain ⟨p1, q1, e1, -⟩ := pending_startData g (readRecord r).addr hi
    obtain ⟨p2, q2, q3, q4, -, e2, -⟩ :=
      pending_storeBytes (g.startData (readRecord r).addr) (readRecord r).data q1 (by omega)
    obtain ⟨p3, q5, e3, -⟩ := pending_flushFull _ q2 q3 q4
    rw [e, if_pos h0]
    refine ⟨by rw [p3, p2, p1], q5, fun h => by omega, fun _ => by rw [e3, e2, e1]⟩
  · rw [if_neg h0, List.append_nil]
    by_cases h1 : (readRecord r).type = 1
    · have e : g.dispatch (readRecord r) = (true, { g.flushOpen with _eof := true }) := by
        unfold HexRecord.dispatch
        rw [if_neg h0, if_pos h1]
      obtain ⟨p1, q1, z1, -, -⟩ := pending_flushOpen g hi
      rw [e]
      exact ⟨(pending_with_eof _ _).trans p1, (bufInv_with_eof _ _).2 q1,
        fun _ => ⟨z1, rfl⟩, fun h => absurd h1 h⟩
    · by_cases h4 : (readRecord r).type = 4
      · have e : g.dispatch (readRecord r)
            = (true, { g.flushOpen with _address := ((readRecord r).ext <<< 16) % 4294967296 }) := by
          unfold HexRecord.dispatch
          rw [if_neg h0, if_neg h1, if_pos h4]
        obtain ⟨p1, q1, z1, e1, -⟩ := pending_flushOpen g hi
        rw [e]
        exact ⟨(pending_with_address _ _).trans p1, (bufInv_with_address _ _).2 q1,
          fun h => absurd h h1, fun _ => e1⟩
      · have e : g.dispatch (readRecord r) = (true, g) := by
          unfold HexRecord.dispatch
          rw [if_neg h0, if_neg h1, if_neg h4]
          by_cases h5 : (readRecord r).type = 5
          · rw [if_pos h5]
          · rw [if_neg h5]
            rcases hv.2.2.2.2 with h | h | h | h | h
            · exact absurd h h0
            · exact absurd h h1
            · rw [if_pos h]
            · exact absurd h h5
            · exact absurd h.1 h4
        rw [e]
        exact ⟨rfl, hi, fun h => absurd h h1, fun _ => rfl⟩

theorem payloads_append (a b : List (List Nat)) : payloads (a ++ b) = payloads a ++ payloads b := by
  induction a with
  | nil => rfl
  | cons t ts ih =>
    simp only [List.cons_append, payloads]
    split <;> simp [ih]

theorem payloads_crlf (a : List (List Nat)) (ha : ∀ t ∈ a, t.length = 1) : payloads a = [] := by
  induction a with
  | nil => rfl
  | cons t ts ih =>
    have h1 : t.length = 1 := ha t (List.mem_cons_self _ _)
    simp only [payloads, h1, ne_eq, not_true_eq_false, false_and, if_false]
    exact ih (fun t' ht' => ha t' (List.mem_cons_of_mem _ ht'))

/-- The records of a valid text through `parseAll`: the data bytes held grow
by the data of its data records, in order. -/
theorem parseAll_pending : ∀ (toks : List (List Nat)) (g : HexRecord),
    (∀ t ∈ toks, validToken t = true) → g.BufInv →
    (g.parseAll toks).pending = g.pending ++ payloads toks ∧ (g.parseAll toks).BufInv := by
  intro toks
  induction toks with
  | nil =>
    intro g _ hi
    exact ⟨by simp [parseAll, payloads], hi⟩
  | cons t ts ih =>
    intro g hv hi
    have hts : ∀ t' ∈ ts, validToken t' = true := fun t' ht' => hv t' (List.mem_cons_of_mem _ ht')
    rcases validToken_cases (hv t (List.mem_cons_self _ _)) with rfl | rfl | ⟨hr, hfit⟩
    · simpa [parseAll, payloads] using ih g hts hi
    · simpa [parseAll, payloads] using ih g hts hi
    · have hl := validRecord_length hr
      have hne : t.length ≠ 1 := by omega
      obtain ⟨p1, q1, -, -⟩ := dispatch_pending g t hr hfit hi
      have q1' : (g.dispatch (readRecord t)).2.core.BufInv := q1
      obtain ⟨p2, q2⟩ := ih _ hts q1'
      have p1' : (g.dispatch (readRecord t)).2.core.pending
          = g.pending ++ (if (readRecord t).type = 0 then (readRecord t).data else []) := p1
      simp only [parseAll, if_neg hne, payloads]
      refine ⟨?_, q2⟩
      rw [p2, p1']
      by_cases h0 : (readRecord t).type = 0
      · simp [h0, hne]
      · simp [h0]

theorem bufInv_new : (HexRecord.new 128 []).core.BufInv := by
  refine ⟨rfl, by decide, rfl, ?_⟩
  show (List.replicate (128 + 128 / 2) 0).length = 192
  rw [List.length_replicate]

/-! ## Stores into the page buffer -/

theorem storeBytes_fields (bs : List Nat) : ∀ h : HexRecord,
    (h.storeBytes bs).heap = h.heap ∧ (h.storeBytes bs)._pageSz = h._pageSz
      ∧ (h.storeBytes bs)._saved = h._saved := by
  induction bs with
  | nil => intro h; exact ⟨rfl, rfl, rfl⟩
  | cons b bs ih =>
    intro h
    simp only [HexRecord.storeBytes]
    obtain ⟨a1, a2, a3⟩ := ih { h with _pageBuf := h._pageBuf.set h._pageLen b, _pageLen := (h._pageLen + 1) % 65536 }
    exact ⟨a1, a2, a3⟩

theorem addPage_fields (h : HexRecord) (hheap : h.heap = []) :
    h.addPage.heap = [] ∧ h.addPage._pageSz = h._pageSz ∧ h.addPage._saved = h._saved
      ∧ h.addPage._pageLen = 0 := by
  simp [HexRecord.addPage, hheap]

theorem pageInv_flushOpen (h : HexRecord) (hi : h.PageInv) : h.flushOpen.PageInv := by
  obtain ⟨i1, i2, i3, i4⟩ := hi
  unfold HexRecord.flushOpen
  split
  · obtain ⟨a1, a2, a3, a4⟩ := addPage_fields h i3
    exact ⟨by rw [a4]; decide, a2.trans i2, a1, by rw [a3]; exact i4⟩
  · exact ⟨i1, i2, i3, i4⟩

theorem pageInv_flushFull (h : HexRecord) (h2 : h._pageSz = 128) (h3 : h.heap = [])
    (h4 : h._saved.length ≤ 128) : h.flushFull.PageInv := by
  unfold HexRecord.flushFull
  split
  · obtain ⟨a1, a2, a3, a4⟩ := addPage_fields h h3
    exact ⟨by rw [a4]; decide, a2.trans h2, a1, by rw [a3]; exact h4⟩
  · exact ⟨by omega, h2, h3, h4⟩

theorem pageInv_startData (h : HexRecord) (addr : Nat) (hi : h.PageInv) :
    (h.startData addr).PageInv := by
  obtain ⟨i1, i2, i3, i4⟩ := hi
  unfold HexRecord.startData
  simp only []
  split
  · obtain ⟨a1, a2, a3, a4⟩ := addPage_fields h i3
    rw [if_pos a4]
    exact ⟨by show h.addPage._pageLen < 128; rw [a4]; decide, a2.trans i2, a1,
      by show h.addPage._saved.length ≤ 128; rw [a3]; exact i4⟩
  · split
    · exact ⟨i1, i2, i3, i4⟩
    · exact ⟨i1, i2, i3, i4⟩

theorem pageInv_dispatch (h : HexRecord) (f : RecFields) (hi : h.PageInv) :
    (h.dispatch f).2.PageInv := by
  unfold HexRecord.dispatch
  split
  · have hs := pageInv_startData h f.addr hi
    obtain ⟨a1, a2, a3⟩ := storeBytes_fields f.data (h.startData f.addr)
    exact pageInv_flushFull _ (a2.trans hs.2.1) (a1.trans hs.2.2.1) (by rw [a3]; exact hs.2.2.2)
  · split
    · exact pageInv_flushOpen h hi
    · split
      · exact pageInv_flushOpen h hi
      · split
        · exact hi
        · split
          · exact hi
          · exact hi

theorem pageInv_processRecord (h : HexRecord) (len : Nat) (hi : h.PageInv) :
    (h.processRecord len).2.PageInv ∧ (h.processRecord len).2._saved.length = h._saved.length := by
  by_cases c1 : checkHex (h._saved.drop 1) (len - 1) = true
  · by_cases c2 : verifyChecksum (h._saved.drop 1) (len - 1) = true
    · rw [processRecord_of_checks h len c1 c2]
      exact ⟨pageInv_dispatch h _ hi, by rw [(dispatch_frame h _).2.2.1]⟩
    · have c2' : verifyChecksum (h._saved.drop 1) (len - 1) = false := by
        cases hx : verifyChecksum (h._saved.drop 1) (len - 1) with
        | false => rfl
        | true => exact absurd hx c2
      have e : h.processRecord len = (false, { h with
          _saved := h._saved.set (1 + (if len - 1 > 32 then 32 else len - 1)) 0
          _errMessage := "Invalid checksum for record " }) := by
        simp only [HexRecord.processRecord, c1, c2', Bool.not_true, Bool.not_false, if_true]
        simp
      rw [e]
      obtain ⟨i1, i2, i3, i4⟩ := hi
      exact ⟨⟨i1, i2, i3, by simpa using i4⟩, by simp⟩
  · have c1' : checkHex (h._saved.drop 1) (len - 1) = false := by
      cases hx : checkHex (h._saved.drop 1) (len - 1) with
      | false => rfl
      | true => exact absurd hx c1
    have e : h.processRecord len
        = (false, { h with _errMessage := "Invalid hex character found" }) := by
      simp only [HexRecord.processRecord, c1', Bool.not_false, if_true]
    rw [e]
    exact ⟨hi, rfl⟩

theorem lenField_lt (buf : List Nat) (n : Nat) (hn : 2 ≤ n) (hck : checkHex buf n = true) :
    getHexValue buf 2 < 256 := by
  obtain ⟨h1, h2⟩ := (checkHex_iff buf n).1 hck
  rcases buf with _ | ⟨a, _ | ⟨b, rest⟩⟩
  · simp at h1
    omega
  · simp at h1
    omega
  · have ha : isHexChar a = true := h2 a (by
      rcases n with _ | _ | n
      · omega
      · omega
      · simp)
    have hb : isHexChar b = true := h2 b (by
      rcases n with _ | _ | n
      · omega
      · omega
      · simp)
    have := hexDigit_lt ha
    have := hexDigit_lt hb
    rw [getHexValue_two]
    omega

/-- The stores of a call of `processRecord` made by `_write` stay below 192. -/
theorem storeIndices_bound (h : HexRecord) (len : Nat) (hi : h.PageInv)
    (hlen : len = 11 + (getHexValue (h._saved.drop 1) 2 % 256) * 2) (hfit : len ≤ 128) :
    ∀ i ∈ h.storeIndices len, i < 192 := by
  obtain ⟨i1, i2, i3, i4⟩ := hi
  intro i hmem
  unfold HexRecord.storeIndices at hmem
  simp only [] at hmem
  by_cases c1 : checkHex (h._saved.drop 1) (len - 1) = true
  · have hlf := lenField_lt (h._saved.drop 1) (len - 1) (by omega) c1
    rw [c1] at hmem
    simp only [Bool.not_true, Bool.false_eq_true, if_false] at hmem
    split at hmem
    · cases hmem
    · split at hmem
      · rw [List.mem_map] at hmem
        obtain ⟨k, hk, rfl⟩ := hmem
        rw [List.mem_range] at hk
        have hk' : k < 59 := by omega
        have hp : (if h._pageLen > 0 ∧ getHexValue (List.drop 2 (List.drop 1 h._saved)) 4
            ≠ (h._address + h._pageLen) % 4294967296 &&& 65535 then h.addPage else h)._pageLen
            < 128 := by
          split
          · rw [(addPage_fields h i3).2.2.2]
            decide
          · exact i1
        omega
      · cases hmem
  · have c1' : checkHex (h._saved.drop 1) (len - 1) = false := by
      cases hx : checkHex (h._saved.drop 1) (len - 1) with
      | false => rfl
      | true => exact absurd hx c1
    rw [c1'] at hmem
    simp only [Bool.not_false, if_true] at hmem
    cases hmem

/-- A call of `processRecord` made by `_write` stores at most 58 bytes. -/
theorem storeIndices_length (h : HexRecord) (len : Nat)
    (hlen : len = 11 + (getHexValue (h._saved.drop 1) 2 % 256) * 2) (hfit : len ≤ 128) :
    (h.storeIndices len).length ≤ 58 := by
  unfold HexRecord.storeIndices
  simp only []
  by_cases c1 : checkHex (h._saved.drop 1) (len - 1) = true
  · have hlf := lenField_lt (h._saved.drop 1) (len - 1) (by omega) c1
    rw [c1]
    simp only [Bool.not_true, Bool.false_eq_true, if_false]
    split
    · exact Nat.zero_le _
    · split
      · rw [List.length_map, List.length_range]
        omega
      · exact Nat.zero_le _
  · have c1' : checkHex (h._saved.drop 1) (len - 1) = false := by
      cases hx : checkHex (h._saved.drop 1) (len - 1) with
      | false => rfl
      | true => exact absurd hx c1
    rw [c1']
    exact Nat.zero_le _

theorem processSavedLog_succ (qEmpty : Bool) (fuel : Nat) (h : HexRecord)
    (hlen : 11 ≤ h._saved.length) :
    processSavedLog qEmpty (fuel + 1) h =
      if (h._saved.dropWhile isCRLF).length < 11 then []
      else if (h._saved.dropWhile isCRLF).headD 0 ≠ 58 then []
      else if !checkHex ((h._saved.dropWhile isCRLF).drop 1) 2 then []
      else if (h._saved.dropWhile isCRLF).length
          < 11 + (getHexValue ((h._saved.dropWhile isCRLF).drop 1) 2 % 256) * 2 then []
      else
        match ({ h with _saved := h._saved.dropWhile isCRLF }).processRecord
            (11 + (getHexValue ((h._saved.dropWhile isCRLF).drop 1) 2 % 256) * 2) with
        | (false, _) =>
          [({ h with _saved := h._saved.dropWhile isCRLF },
            11 + (getHexValue ((h._saved.dropWhile isCRLF).drop 1) 2 % 256) * 2)]
        | (true, h2) =>
          ({ h with _saved := h._saved.dropWhile isCRLF },
            11 + (getHexValue ((h._saved.dropWhile isCRLF).drop 1) 2 % 256) * 2) ::
          processSavedLog qEmpty fuel
            { (if qEmpty = true ∧ h2._lastPage ≠ [] then
                { h2 with calls := h2.calls ++ [(h2._stop, h2._stopArg)] }
              else h2) with
              _saved := (if qEmpty = true ∧ h2._lastPage ≠ [] then
                { h2 with calls := h2.calls ++ [(h2._stop, h2._stopArg)] }
              else h2)._saved.drop
                (11 + (getHexValue ((h._saved.dropWhile isCRLF).drop 1) 2 % 256) * 2) } := by
  have hge : h._saved.length ≥ 11 := hlen
  by_cases hskip : (h._saved.takeWhile isCRLF).length > 0
  · simp only [processSavedLog, hge, if_true, hskip, true_and, drop_takeWhile_length]
  · have h0 : (h._saved.takeWhile isCRLF).length = 0 := by omega
    have hd := dropWhile_eq_self_of_takeWhile_nil isCRLF h._saved h0
    have hnl : ¬ h._saved.length < 11 := by omega
    rw [hd]
    simp only [processSavedLog, hge, if_true, hskip, false_and, if_false, hnl]

theorem processSavedLog_short (qEmpty : Bool) (fuel : Nat) (h : HexRecord)
    (hlen : h._saved.length < 11) : processSavedLog qEmpty fuel h = [] := by
  cases fuel with
  | zero => rfl
  | succ fuel =>
    have : ¬ h._saved.length ≥ 11 := by omega
    simp only [processSavedLog, this, if_false]

theorem length_dropWhile_le (p : Nat → Bool) (l : List Nat) :
    (l.dropWhile p).length ≤ l.length := by
  induction l with
  | nil => simp
  | cons a l ih =>
    simp only [List.dropWhile_cons]
    split
    · simp only [List.length_cons]
      omega
    · exact le_refl _

theorem pageInv_saved (h : HexRecord) (l : List Nat) (m : String) (hi : h.PageInv)
    (hl : l.length ≤ 128) : ({ h with _saved := l, _errMessage := m } : HexRecord).PageInv :=
  ⟨hi.1, hi.2.1, hi.2.2.1, hl⟩

/-- The inner loop of `_write`: every call of `processRecord` satisfies
`CallInv` and the loop keeps `PageInv`. -/
theorem processSaved_inv (qEmpty : Bool) : ∀ (fuel : Nat) (h : HexRecord), h.PageInv →
    (∀ c ∈ processSavedLog qEmpty fuel h, HexRecord.CallInv c)
    ∧ (processSaved qEmpty fuel h).2.PageInv := by
  intro fuel
  induction fuel with
  | zero =>
    intro h hi
    exact ⟨(fun c hc => by cases hc), hi⟩
  | succ fuel ih =>
    intro h hi
    by_cases hlen : 11 ≤ h._saved.length
    · rw [processSavedLog_succ qEmpty fuel h hlen, processSaved_succ qEmpty fuel h hlen]
      obtain ⟨i1, i2, i3, i4⟩ := hi
      have hdl := length_dropWhile_le isCRLF h._saved
      have hi1 : ({ h with _saved := h._saved.dropWhile isCRLF } : HexRecord).PageInv :=
        ⟨i1, i2, i3, by show (h._saved.dropWhile isCRLF).length ≤ 128; omega⟩
      split
      · exact ⟨(fun c hc => by cases hc), hi1⟩
      · split
        · exact ⟨(fun c hc => by cases hc), pageInv_saved h _ _ ⟨i1, i2, i3, i4⟩ (by omega)⟩
        · split
          · exact ⟨(fun c hc => by cases hc), hi1⟩
          · split
            · exact ⟨(fun c hc => by cases hc), hi1⟩
            · rename_i hfit
              have hb : HexRecord.CallInv
                  (({ h with _saved := h._saved.dropWhile isCRLF } : HexRecord),
                    11 + (getHexValue ((h._saved.dropWhile isCRLF).drop 1) 2 % 256) * 2) :=
                ⟨hi1, rfl, (by
                  show 11 + (getHexValue ((h._saved.dropWhile isCRLF).drop 1) 2 % 256) * 2 ≤ 128
                  have : (h._saved.dropWhile isCRLF).length ≤ 128 := by omega
                  omega)⟩
              obtain ⟨hp, hsl⟩ := pageInv_processRecord
                ({ h with _saved := h._saved.dropWhile isCRLF } : HexRecord)
                (11 + (getHexValue ((h._saved.dropWhile isCRLF).drop 1) 2 % 256) * 2) hi1
              rcases hpr : ({ h with _saved := h._saved.dropWhile isCRLF } : HexRecord).processRecord
                (11 + (getHexValue ((h._saved.dropWhile isCRLF).drop 1) 2 % 256) * 2) with ⟨b, h2⟩
              rw [hpr] at hp hsl
              cases b with
              | false =>
                refine ⟨fun c hc => ?_, hp⟩
                simp only [List.mem_singleton] at hc
                rw [hc]
                exact hb
              | true =>
                simp only []
                obtain ⟨j1, j2, j3, j4⟩ := hp
                have j4 : h2._saved.length ≤ 128 := j4
                have hnext : ({ (if qEmpty = true ∧ h2._lastPage ≠ [] then
                    { h2 with calls := h2.calls ++ [(h2._stop, h2._stopArg)] }
                  else h2) with
                  _saved := (if qEmpty = true ∧ h2._lastPage ≠ [] then
                    { h2 with calls := h2.calls ++ [(h2._stop, h2._stopArg)] }
                  else h2)._saved.drop
                    (11 + (getHexValue ((h._saved.dropWhile isCRLF).drop 1) 2 % 256) * 2) }
                    : HexRecord).PageInv := by
                  split
                  · exact ⟨j1, j2, j3, by
                      show (h2._saved.drop _).length ≤ 128
                      rw [List.length_drop]
                      omega⟩
                  · exact ⟨j1, j2, j3, by
                      show (h2._saved.drop _).length ≤ 128
                      rw [List.length_drop]
                      omega⟩
                obtain ⟨k1, k2⟩ := ih _ hnext
                refine ⟨fun c hc => ?_, k2⟩
                rcases List.mem_cons.1 hc with rfl | hc
                · exact hb
                · exact k1 c hc
    · rw [processSavedLog_short qEmpty _ h (by omega), processSaved_short qEmpty _ h (by omega)]
      exact ⟨(fun c hc => by cases hc), hi⟩

theorem cstr_length_le (l : List Nat) : (cstr l).length ≤ l.length :=
  (List.takeWhile_sublist _).length_le

theorem saved1_length (h : HexRecord) (data : List Nat) (hi : h.PageInv) :
    (if (cstr h._saved).length < h._pageSz then
        cstr h._saved ++ data.take
          (if h._pageSz - (cstr h._saved).length > data.length then data.length
           else h._pageSz - (cstr h._saved).length)
      else cstr h._saved).length ≤ 128 := by
  obtain ⟨i1, i2, i3, i4⟩ := hi
  have hc := cstr_length_le h._saved
  split
  · rw [List.length_append, List.length_take]
    split <;> omega
  · omega

/-- The outer loop of `_write`: every call of `processRecord` satisfies
`CallInv` and a result, when there is one, satisfies `PageInv`. -/
theorem writeLoop_inv (qEmpty : Bool) (ret : Nat) : ∀ (fuel : Nat) (data : List Nat)
    (h : HexRecord), h.PageInv →
    (∀ c ∈ writeLoopLog qEmpty ret fuel data h, HexRecord.CallInv c)
    ∧ (∀ r, writeLoop qEmpty ret fuel data h = some r → r.2.PageInv) := by
  intro fuel
  induction fuel with
  | zero =>
    intro data h hi
    exact ⟨(fun c hc => by cases hc), (fun r hr => by cases hr)⟩
  | succ fuel ih =>
    intro data h hi
    by_cases hd : data.length > 0
    · have hs := saved1_length h data hi
      simp only [HexRecord.writeLoop, HexRecord.writeLoopLog, hd, if_true]
      generalize (if (cstr h._saved).length < h._pageSz then
        cstr h._saved ++ data.take
          (if h._pageSz - (cstr h._saved).length > data.length then data.length
           else h._pageSz - (cstr h._saved).length)
        else cstr h._saved) = saved1 at hs ⊢
      obtain ⟨p1, p2⟩ := processSaved_inv qEmpty saved1.length _
        (pageInv_saved h saved1 h._errMessage hi hs)
      rcases hps : processSaved qEmpty saved1.length
        ({ h with _saved := saved1, _errMessage := h._errMessage } : HexRecord) with ⟨b, h1⟩
      rw [hps] at p2
      cases b with
      | false =>
        refine ⟨fun c hc => ?_, fun r hr => ?_⟩
        · rw [List.append_nil] at hc
          exact p1 c hc
        · cases hr
          exact p2
      | true =>
        obtain ⟨q1, q2⟩ := ih
          (if (cstr h._saved).length < h._pageSz then data.drop
            (if h._pageSz - (cstr h._saved).length > data.length then data.length
             else h._pageSz - (cstr h._saved).length)
           else data) h1 p2
        refine ⟨fun c hc => ?_, fun r hr => q2 r hr⟩
        rcases List.mem_append.1 hc with hc | hc
        · exact p1 c hc
        · exact q1 c hc
    · simp only [HexRecord.writeLoop, HexRecord.writeLoopLog, hd, if_false]
      refine ⟨(fun c hc => by cases hc), fun r hr => ?_⟩
      cases hr
      exact hi

/-- Every call of `processRecord` made during `write` satisfies `CallInv`, and
the parser that `write` returns satisfies `PageInv` again. -/
theorem write_inv (h : HexRecord) (data : List Nat) (stop resume cbArg fuel : Nat)
    (hi : h.PageInv) :
    (∀ c ∈ h.writeLog data stop resume cbArg fuel, HexRecord.CallInv c)
    ∧ (∀ r, h.write data stop resume cbArg fuel = some r → r.2.PageInv) := by
  unfold HexRecord.writeLog HexRecord.write HexRecord._write
  split
  · refine ⟨(fun c hc => by cases hc), fun r hr => ?_⟩
    cases hr
    exact hi
  · exact writeLoop_inv _ _ fuel data _ ⟨hi.1, hi.2.1, hi.2.2.1, hi.2.2.2⟩

/-- The stores of the copy loop of `processRecord`: the page buffer after the
loop is the buffer before it with byte `i` of the record stored at index
`_pageLen + i` (as a `uint16_t`), in this order. -/
theorem appendRecord_pageBuf : ∀ (n : Nat) (h : HexRecord) (buf : List Nat),
    h._pageLen < 65536 →
    (h.appendRecord buf n)._pageBuf =
      ((List.range n).map (fun i =>
          ((h._pageLen + i) % 65536, getHexValue (buf.drop (2 * i)) 2 % 256))).foldl
        (fun b p => b.set p.1 p.2) h._pageBuf := by
  intro n
  induction n with
  | zero => intro h buf _; rfl
  | succ n ih =>
    intro h buf hl
    rw [HexRecord.appendRecord, ih _ _ (Nat.mod_lt _ (by decide)), List.range_succ_eq_map,
      List.map_cons, List.foldl_cons, List.map_map]
    have e0 : (h._pageLen + 0) % 65536 = h._pageLen := Nat.mod_eq_of_lt hl
    have e1 : List.drop (2 * 0) buf = buf := rfl
    simp only [e0, e1]
    congr 1
    apply List.map_congr_left
    intro i _
    simp only [Function.comp, List.drop_drop]
    have a1 : ((h._pageLen + 1) % 65536 + i) % 65536 = (h._pageLen + (i + 1)) % 65536 := by
      omega
    have a2 : 2 + 2 * i = 2 * (i + 1) := by ring
    rw [a1, a2]

/-! ## The response buffer -/

theorem respInv_new (resetPin baudrate : Int) (heap : List Bool) :
    (AVRFlash.new resetPin baudrate heap).RespInv :=
  ⟨by simp [AVRFlash.new], Nat.zero_le _⟩

theorem respInv_fetchUart (s : AVRFlash) (hi : s.RespInv) : s.fetchUart.RespInv :=
  fetchUart_bounds s hi.1 hi.2

theorem memmove_length (buf : List Nat) (src n : Nat) (h : src + n ≤ buf.length) :
    (memmove buf 0 src n).length = buf.length := by
  simp only [memmove, List.take_zero, List.nil_append, Nat.zero_add, List.length_append,
    List.length_take, List.length_drop]
  omega

theorem acksLoop_bounds : ∀ (fuel : Nat) (s : AVRFlash), s.RespInv →
    (AVRFlash.acksLoop fuel s).RespInv := by
  intro fuel
  induction fuel with
  | zero => intro s hi; exact hi
  | succ fuel ih =>
    intro s hi
    unfold AVRFlash.acksLoop
    split
    · rename_i hc
      apply ih
      obtain ⟨h1, h2⟩ := hi
      refine ⟨?_, ?_⟩
      · show (memmove s._responseBuf 0 2 (s._responseLen - 2)).length = RESP_SZ
        rw [memmove_length _ _ _ (by rw [h1]; have := hc.1; simp only [RESP_SZ] at h2 ⊢; omega)]
        exact h1
      · show s._responseLen - 2 ≤ RESP_SZ - 1
        omega
    · exact hi

theorem respInv_processAcks (s : AVRFlash) (hi : s.RespInv) : s.processAcks.RespInv :=
  acksLoop_bounds _ s hi

theorem respInv_checkSyncAck (s : AVRFlash) (hi : s.RespInv) : s.checkSyncAck.2.RespInv := by
  obtain ⟨h1, h2⟩ := respInv_fetchUart s hi
  unfold AVRFlash.checkSyncAck
  simp only []
  split
  · refine ⟨?_, ?_⟩
    · show (s.fetchUart._responseBuf.set 0 STK_INSYNC).length = RESP_SZ
      rw [List.length_set]
      exact h1
    · show 1 ≤ RESP_SZ - 1
      decide
  · split
    · exact ⟨h1, Nat.zero_le _⟩
    · split
      · refine ⟨?_, ?_⟩
        · show ((memmove s.fetchUart._responseBuf 0 (s.fetchUart._responseLen - RESP_SZ / 2)
            (RESP_SZ / 2)).set (RESP_SZ / 2) 0).length = RESP_SZ
          rw [List.length_set, memmove_length _ _ _ (by
            rw [h1]
            simp only [RESP_SZ] at h2 ⊢
            omega)]
          exact h1
        · show RESP_SZ / 2 ≤ RESP_SZ - 1
          decide
      · exact ⟨h1, h2⟩

theorem respInv_parseResponse (s : AVRFlash) (hi : s.RespInv) : s.parseResponse.2.RespInv := by
  have hf := respInv_fetchUart s hi
  have ha := respInv_processAcks _ hf
  unfold AVRFlash.parseResponse
  simp only []
  split
  · split
    · exact ha
    · split
      · exact ⟨ha.1, Nat.zero_le _⟩
      · exact ha
  · split
    · exact hf
    · split
      · exact ⟨hf.1, Nat.zero_le _⟩
      · exact hf
  · split
    · exact hf
    · split
      · exact ⟨hf.1, Nat.zero_le _⟩
      · exact hf
  · exact hf

theorem respInv_waitAck : ∀ (polls : List (List Nat)) (s : AVRFlash), s.RespInv →
    (AVRFlash.waitAck polls s).2.RespInv := by
  intro polls
  induction polls with
  | nil =>
    intro s hi
    unfold AVRFlash.waitAck
    split
    · exact hi
    · exact hi
  | cons p polls ih =>
    intro s hi
    unfold AVRFlash.waitAck
    split
    · apply ih
      apply respInv_processAcks
      apply respInv_fetchUart
      exact hi
    · exact hi

theorem respInv_programPage (s : AVRFlash) (fp : FlashPage) (polls : List (List Nat))
    (hi : s.RespInv) : (s.programPage fp polls).2.RespInv := by
  by_cases hl : fp.len > s._pageSz
  · unfold AVRFlash.programPage
    rw [if_pos hl]
    exact hi
  · have e : s.programPage fp polls =
        match AVRFlash.waitAck polls (s.sendLoadAddress fp) with
        | (false, s2) => (false, s2)
        | (true, s2) =>
          (true, { ((((s2.uartWrite STK_PROG_PAGE).uartWrite (fp.len >>> 8)).uartWrite
            (fp.len &&& 255)).uartWrite 70).uartWriteBuf fp.data fp.len |>.uartWrite CRC_EOP with
            _ackWait := true }) := by
      unfold AVRFlash.programPage
      rw [if_neg hl]
      rfl
    have hs : (s.sendLoadAddress fp).RespInv := by
      simp only [AVRFlash.RespInv, AVRFlash.sendLoadAddress, AVRFlash.uartWrite]
      exact hi
    have hw := respInv_waitAck polls (s.sendLoadAddress fp) hs
    rw [e]
    rcases hwa : AVRFlash.waitAck polls (s.sendLoadAddress fp) with ⟨b, s2⟩
    rw [hwa] at hw
    cases b with
    | false => exact hw
    | true =>
      simp only [AVRFlash.RespInv, AVRFlash.uartWrite, AVRFlash.uartWriteBuf] at hw ⊢
      exact hw

theorem respInv_setBaudrate (s : AVRFlash) (rate : Nat) (hi : s.RespInv) :
    (s.setBaudrate rate).RespInv := by
  unfold AVRFlash.setBaudrate
  split
  · exact hi
  · exact hi

theorem respInv_checkFinish (s : AVRFlash) (hi : s.RespInv) : s.checkFinish.RespInv := by
  unfold AVRFlash.checkFinish
  split
  · exact hi
  · split
    · exact hi
    · exact hi

theorem respInv_nextBaud (s : AVRFlash) (hi : s.RespInv) : s.nextBaud.RespInv :=
  respInv_setBaudrate s _ hi

theorem respInv_sync (s : AVRFlash) (hi : s.RespInv) : s.sync.RespInv := by
  unfold AVRFlash.sync
  split
  · exact hi
  · exact respInv_setBaudrate s _ hi

theorem respInv_finish (s : AVRFlash) (doneCB cbArg : Nat) (hi : s.RespInv) :
    (s.finish doneCB cbArg).RespInv := by
  unfold AVRFlash.finish
  split
  · exact hi
  · exact hi

theorem respInv_write (s : AVRFlash) (data : List Nat) (stop resume cbArg fuel : Nat)
    (r : Nat × AVRFlash) (hi : s.RespInv) (hr : s.write data stop resume cbArg fuel = some r) :
    r.2.RespInv := by
  unfold AVRFlash.write at hr
  cases hw : s.toHexRecord.write data stop resume cbArg fuel with
  | none =>
    rw [hw] at hr
    cases hr
  | some q =>
    rw [hw] at hr
    cases hr
    exact hi

theorem respInv_of_eq {s t : AVRFlash} (hi : s.RespInv) (h1 : t._responseBuf = s._responseBuf)
    (h2 : t._responseLen = s._responseLen) : t.RespInv := by
  unfold AVRFlash.RespInv
  rw [h1, h2]
  exact hi

theorem respInv_timerCB (s : AVRFlash) (now : Nat) (polls : List (List Nat)) (hi : s.RespInv) :
    (s.timerCB now polls).RespInv := by
  unfold AVRFlash.timerCB
  cases hst : s._progState
  case stateInit =>
    simp only []
    exact respInv_of_eq hi rfl rfl
  case stateSync =>
    simp only []
    have hc := respInv_checkSyncAck s hi
    rcases hck : s.checkSyncAck with ⟨b, s1⟩
    rw [hck] at hc
    cases b with
    | true =>
      simp only []
      exact respInv_of_eq hc rfl rfl
    | false =>
      simp only []
      split
      · exact respInv_of_eq hc rfl rfl
      · split
        · exact respInv_checkFinish _ (respInv_of_eq hc rfl rfl)
        · exact respInv_of_eq (respInv_nextBaud s1 hc) rfl rfl
  case stateIdle =>
    simp only []
    have h1 := respInv_processAcks _ (respInv_fetchUart s hi)
    split
    · rename_i fp rest hq
      have h2 : (if rest = [] then
            (if ({ s.fetchUart.processAcks with _lastPage := [] } : AVRFlash)._resume ≠ 0 then
              { ({ s.fetchUart.processAcks with _lastPage := [] } : AVRFlash) with
                calls := ({ s.fetchUart.processAcks with _lastPage := [] } : AVRFlash).calls
                  ++ [(({ s.fetchUart.processAcks with _lastPage := [] } : AVRFlash)._resume,
                    ({ s.fetchUart.processAcks with _lastPage := [] } : AVRFlash)._resumeArg)]
                events := ({ s.fetchUart.processAcks with _lastPage := [] } : AVRFlash).events
                  ++ [Event.resume
                    ({ s.fetchUart.processAcks with _lastPage := [] } : AVRFlash)._resume
                    ({ s.fetchUart.processAcks with _lastPage := [] } : AVRFlash)._resumeArg] }
            else ({ s.fetchUart.processAcks with _lastPage := [] } : AVRFlash))
          else ({ s.fetchUart.processAcks with _lastPage := rest } : AVRFlash)).RespInv := by
        split
        · split
          · exact respInv_of_eq h1 rfl rfl
          · exact respInv_of_eq h1 rfl rfl
        · exact respInv_of_eq h1 rfl rfl
      exact respInv_of_eq (respInv_programPage _ fp polls h2) rfl rfl
    · split
      · exact respInv_of_eq h1 rfl rfl
      · split
        · exact respInv_checkFinish _ (respInv_of_eq h1 rfl rfl)
        · split
          · exact respInv_of_eq h1 rfl rfl
          · exact respInv_of_eq h1 rfl rfl
  case stateProg =>
    simp only []
    have h1 := respInv_processAcks _ (respInv_fetchUart s hi)
    split
    · exact respInv_of_eq h1 rfl rfl
    · split
      · exact respInv_checkFinish _ (respInv_of_eq h1 rfl rfl)
      · exact respInv_of_eq h1 rfl rfl
  all_goals
    simp only []
    have hc := respInv_parseResponse s hi
    rcases hck : s.parseResponse with ⟨b, s1⟩
    rw [hck] at hc
    cases b with
    | true =>
      simp only []
      exact respInv_of_eq hc rfl rfl
    | false =>
      simp only []
      split
      · exact respInv_checkFinish _ hc
      · split
        · exact respInv_checkFinish _ (respInv_of_eq hc rfl rfl)
        · exact respInv_of_eq hc rfl rfl

theorem respInv_tick (s : AVRFlash) (now : Nat) (polls : List (List Nat)) (hi : s.RespInv) :
    (s.tick now polls).RespInv := by
  unfold AVRFlash.tick
  split
  · exact hi
  · exact respInv_timerCB _ now polls (respInv_of_eq hi rfl rfl)

theorem respInv_perform (s t : AVRFlash) (op : EngineOp) (hi : s.RespInv)
    (hp : s.perform op = some t) : t.RespInv := by
  cases op with
  | sync =>
    cases hp
    exact respInv_sync s hi
  | abort =>
    cases hp
    exact respInv_of_eq hi rfl rfl
  | finish doneCB cbArg =>
    cases hp
    exact respInv_finish s doneCB cbArg hi
  | write data stop resume cbArg fuel =>
    simp only [AVRFlash.perform] at hp
    cases hw : s.write data stop resume cbArg fuel with
    | none =>
      rw [hw] at hp
      cases hp
    | some r =>
      rw [hw] at hp
      cases hp
      exact respInv_write s data stop resume cbArg fuel r hi hw
  | receive bytes =>
    cases hp
    exact respInv_of_eq hi rfl rfl
  | tick now polls =>
    cases hp
    exact respInv_tick s now polls hi

theorem respInv_performAll : ∀ (ops : List EngineOp) (s t : AVRFlash), s.RespInv →
    AVRFlash.performAll ops s = some t → t.RespInv := by
  intro ops
  induction ops with
  | nil =>
    intro s t hi hp
    cases hp
    exact hi
  | cons op ops ih =>
    intro s t hi hp
    unfold AVRFlash.performAll at hp
    cases hq : s.perform op with
    | none =>
      rw [hq] at hp
      cases hp
    | some u =>
      rw [hq] at hp
      exact ih u t (respInv_perform s u op hi hq) hp

theorem fetchLoopIndices_lt : ∀ (fuel : Nat) (s : AVRFlash),
    ∀ i ∈ AVRFlash.fetchLoopIndices fuel s, i < RESP_SZ - 1 := by
  intro fuel
  induction fuel with
  | zero =>
    intro s i hm
    cases hm
  | succ fuel ih =>
    intro s i hm
    unfold AVRFlash.fetchLoopIndices at hm
    split at hm
    · rename_i hlt
      split at hm
      · cases hm
      · rcases List.mem_cons.1 hm with rfl | hm
        · exact hlt
        · exact ih _ i hm
    · cases hm

/-- The stores of the loop of `fetchUart`: the buffer after the loop is the
buffer before it with the bytes read from the UART stored, in order, at the
indices `fetchLoopIndices`, and `_responseLen` has grown by their number. -/
theorem fetchLoop_stores : ∀ (fuel : Nat) (s : AVRFlash),
    (AVRFlash.fetchLoop fuel s)._responseBuf =
      ((AVRFlash.fetchLoopIndices fuel s).zip s.uartRx).foldl (fun b p => b.set p.1 p.2)
        s._responseBuf
    ∧ (AVRFlash.fetchLoop fuel s)._responseLen
        = s._responseLen + (AVRFlash.fetchLoopIndices fuel s).length := by
  intro fuel
  induction fuel with
  | zero => intro s; exact ⟨rfl, rfl⟩
  | succ fuel ih =>
    intro s
    unfold AVRFlash.fetchLoop AVRFlash.fetchLoopIndices
    split
    · cases hrx : s.uartRx with
      | nil => exact ⟨rfl, rfl⟩
      | cons ch rx =>
        simp only []
        obtain ⟨e1, e2⟩ := ih
          { s with
            uartRx := rx
            _responseBuf := s._responseBuf.set s._responseLen ch
            _responseLen := s._responseLen + 1 }
        refine ⟨?_, ?_⟩
        · rw [e1]
          rfl
        · rw [e2, List.length_cons]
          show s._responseLen + 1 + _ = _
          omega
    · exact ⟨rfl, rfl⟩

theorem fetchUartIndices_lt (s : AVRFlash) (hi : s.RespInv) :
    ∀ i ∈ s.fetchUartIndices, i < RESP_SZ := by
  intro i hm
  unfold AVRFlash.fetchUartIndices at hm
  rcases List.mem_append.1 hm with hm | hm
  · have := fetchLoopIndices_lt _ s i hm
    omega
  · rw [List.mem_singleton] at hm
    have := (fetchLoop_bounds (RESP_SZ - 1 - s._responseLen) s hi.1 hi.2).2
    rw [hm]
    exact Nat.lt_of_le_of_lt this (by decide)

theorem memmoveIndices_lt (dst src n B : Nat) (h1 : src + n ≤ B) (h2 : dst + n ≤ B) :
    ∀ i ∈ memmoveIndices dst src n, i < B := by
  intro i hm
  unfold memmoveIndices at hm
  rcases List.mem_append.1 hm with hm | hm
  · obtain ⟨k, hk, rfl⟩ := List.mem_map.1 hm
    rw [List.mem_range] at hk
    omega
  · obtain ⟨k, hk, rfl⟩ := List.mem_map.1 hm
    rw [List.mem_range] at hk
    omega

theorem ackTestIndices_lt (s : AVRFlash) : ∀ i ∈ s.ackTestIndices, i < RESP_SZ := by
  intro i hm
  unfold AVRFlash.ackTestIndices at hm
  split at hm
  · rcases List.mem_cons.1 hm with rfl | hm
    · decide
    · split at hm
      · rw [List.mem_singleton] at hm
        rw [hm]
        decide
      · cases hm
  · cases hm

theorem acksLoopIndices_lt : ∀ (fuel : Nat) (s : AVRFlash), s.RespInv →
    ∀ i ∈ AVRFlash.acksLoopIndices fuel s, i < RESP_SZ := by
  intro fuel
  induction fuel with
  | zero =>
    intro s _ i hm
    exact ackTestIndices_lt s i hm
  | succ fuel ih =>
    intro s hi i hm
    unfold AVRFlash.acksLoopIndices at hm
    rcases List.mem_append.1 hm with hm | hm
    · exact ackTestIndices_lt s i hm
    · split at hm
      · rename_i hc
        have h2 := hi.2
        simp only [RESP_SZ] at h2
        rcases List.mem_append.1 hm with hm | hm
        · exact memmoveIndices_lt 0 2 (s._responseLen - 2) RESP_SZ
            (by simp only [RESP_SZ]; omega) (by simp only [RESP_SZ]; omega) i hm
        · have hstep := acksLoop_bounds 1 s hi
          unfold AVRFlash.acksLoop at hstep
          rw [if_pos hc] at hstep
          exact ih _ hstep i hm
      · cases hm

theorem processAcksIndices_lt (s : AVRFlash) (hi : s.RespInv) :
    ∀ i ∈ s.processAcksIndices, i < RESP_SZ :=
  acksLoopIndices_lt _ s hi

theorem checkSyncAckIndices_lt (s : AVRFlash) (hi : s.RespInv) :
    ∀ i ∈ s.checkSyncAckIndices, i < RESP_SZ := by
  have h2 := (respInv_fetchUart s hi).2
  simp only [RESP_SZ] at h2
  intro i hm
  unfold AVRFlash.checkSyncAckIndices at hm
  simp only [] at hm
  rcases List.mem_append.1 hm with hm | hm
  · rcases List.mem_append.1 hm with hm | hm
    · exact fetchUartIndices_lt s hi i hm
    · split at hm
      · rw [List.mem_singleton] at hm
        simp only [RESP_SZ]
        omega
      · cases hm
  · split at hm
    · rw [List.mem_singleton] at hm
      rw [hm]
      decide
    · rcases List.mem_append.1 hm with hm | hm
      · split at hm
        · rcases List.mem_cons.1 hm with rfl | hm
          · simp only [RESP_SZ]
            omega
          · split at hm
            · rw [List.mem_singleton] at hm
              simp only [RESP_SZ]
              omega
            · cases hm
        · cases hm
      · split at hm
        · cases hm
        · split at hm
          · rename_i hgt
            simp only [RESP_SZ] at hgt
            rcases List.mem_append.1 hm with hm | hm
            · exact memmoveIndices_lt 0 (s.fetchUart._responseLen - RESP_SZ / 2) (RESP_SZ / 2)
                RESP_SZ (by simp only [RESP_SZ]; omega) (by decide) i hm
            · rw [List.mem_singleton] at hm
              rw [hm]
              decide
          · cases hm

theorem sigTestIndices_lt (s : AVRFlash) : ∀ i ∈ s.sigTestIndices, i < 5 := by
  intro i hm
  unfold AVRFlash.sigTestIndices at hm
  repeat' first
    | (split at hm)
    | (rcases List.mem_cons.1 hm with rfl | hm)
    | (cases hm)
    | decide

theorem versTestIndices_lt (s : AVRFlash) : ∀ i ∈ s.versTestIndices, i < 3 := by
  intro i hm
  unfold AVRFlash.versTestIndices at hm
  repeat' first
    | (split at hm)
    | (rcases List.mem_cons.1 hm with rfl | hm)
    | (cases hm)
    | decide

theorem parseResponseIndices_lt (s : AVRFlash) (hi : s.RespInv) :
    ∀ i ∈ s.parseResponseIndices, i < RESP_SZ := by
  have hf := respInv_fetchUart s hi
  intro i hm
  unfold AVRFlash.parseResponseIndices at hm
  simp only [] at hm
  rcases List.mem_append.1 hm with hm | hm
  · exact fetchUartIndices_lt s hi i hm
  · split at hm
    · rcases List.mem_append.1 hm with hm | hm
      · exact processAcksIndices_lt _ hf i hm
      · split at hm
        · cases hm
        · rcases List.mem_append.1 hm with hm | hm
          · have := sigTestIndices_lt _ i hm
            simp only [RESP_SZ]
            omega
          · split at hm
            · cases hm
            · simp only [List.mem_cons, List.mem_singleton, List.not_mem_nil, or_false] at hm
              simp only [RESP_SZ]
              omega
    · split at hm
      · cases hm
      · have := versTestIndices_lt _ i hm
        simp only [RESP_SZ]
        omega
    · split at hm
      · cases hm
      · have := versTestIndices_lt _ i hm
        simp only [RESP_SZ]
        omega
    · cases hm

/-! ## One bit of a record flipped -/

theorem take3_set (S : List Nat) (i c' : Nat) (hi : 3 ≤ i) : (S.set i c').take 3 = S.take 3 := by
  rw [List.set_take]
  exact List.set_eq_of_length_le (by rw [List.length_take]; omega)

/-! ## Two records that fill a page -/

set_option maxRecDepth 1000000 in
theorem write_fillFile_first (fuel : Nat) :
    (HexRecord.new 128 []).write fillFile 7 8 9 (fuel + 1)
      = HexRecord.writeLoop true 292 fuel (fillFile.drop 128) stuckParser := rfl

set_option maxRecDepth 1000000 in
theorem writeLoop_stuck_fill (fuel : Nat) :
    HexRecord.writeLoop true 292 (fuel + 1) (fillFile.drop 128) stuckParser
      = HexRecord.writeLoop true 292 fuel (fillFile.drop 128) stuckParser := rfl

theorem write_fillFile (fuel : Nat) :
    (HexRecord.new 128 []).write fillFile 7 8 9 fuel = none := by
  cases fuel with
  | zero => rfl
  | succ fuel =>
    rw [write_fillFile_first]
    induction fuel with
    | zero => rfl
    | succ fuel ih => rw [writeLoop_stuck_fill, ih]


/-! ## The claims -/

/-- C1, on the code: (1) With an allocator whose first page allocation fails,
`gapFile` written in one `write` call to a fresh parser returns its length 54
although the error "out of memory" is set, and queues two pages: `addPage`
stores the error and returns, and `processRecord` and `_write` go on.  The
same text written as its first two lines (28 bytes) and then the rest has its
first call return 28 with the error set and its second call rejected (it
returns 0), and queues nothing.  So the queue depends on where the text is cut.
(2) `longFile` is a valid data record of 64 bytes followed by an end-of-file
record; written in one call to a fresh parser, `write` never returns, whatever
the number of rounds allowed. -/
theorem C1_chunked_write_differs_from_single_write :
    ((HexRecord.new 128 [false]).write gapFile 7 8 9 100).map
        (fun r => (r.1, r.2._lastPage.length, r.2._errMessage)) = some (54, 2, "out of memory")
    ∧ [gapFile.take 28, gapFile.drop 28].flatten = gapFile
    ∧ ((HexRecord.new 128 [false]).writeChunks 7 8 9 100
        [gapFile.take 28, gapFile.drop 28]).map
        (fun r => (r.1, r.2._lastPage.length, r.2._errMessage))
      = some ([28, 0], 0, "out of memory")
    ∧ validRecord (longFile.take 139) = true
    ∧ (¬ ∃ fuel r, (HexRecord.new 128 []).write longFile 7 8 9 fuel = some r) := by
  refine ⟨by decide!, by decide!, by decide!, by decide!, ?_⟩
  rintro ⟨fuel, r, h⟩
  rw [write_longFile] at h
  exact absurd h (by simp)

/-- Where the defects of `_write` and `addPage` are not met, chunking does not
matter: a text made of line terminators and valid records of at most 128
characters (58 data bytes), written to a fresh parser of page size 128 whose
page allocations all succeed and with a stop callback that is not null, gives
the same result whether it is written in one `write` call or cut into chunks
at arbitrary places and written by successive calls: every call returns the
length it was given, and at the end the page queue, the address, length and
buffer of the open page and the end-of-file flag are the same, no error is set,
and no call through a null pointer has been made. -/
theorem chunking_invariance (toks chunks : List (List Nat)) (stop resume cbArg fuel : Nat)
    (hvalid : ∀ t ∈ toks, validToken t = true) (hsplit : chunks.flatten = toks.flatten)
    (hstop : stop ≠ 0) (hfuel : toks.flatten.length < fuel) :
    ∃ h1 h2,
      (HexRecord.new 128 []).write toks.flatten stop resume cbArg fuel
          = some (toks.flatten.length, h1)
      ∧ (HexRecord.new 128 []).writeChunks stop resume cbArg fuel chunks
          = some (chunks.map List.length, h2)
      ∧ h1._lastPage = h2._lastPage ∧ h1._address = h2._address
      ∧ h1._pageLen = h2._pageLen ∧ h1._pageBuf = h2._pageBuf ∧ h1._eof = h2._eof
      ∧ h1.hasError = false ∧ h2.hasError = false
      ∧ (∀ c ∈ h1.calls, c.1 ≠ 0) ∧ (∀ c ∈ h2.calls, c.1 ≠ 0) := by
  obtain ⟨h1, hw1, hc1, hs1, hcl1⟩ :=
    writeChunks_fresh stop resume cbArg fuel toks [toks.flatten] hvalid (by simp) hfuel
  obtain ⟨h2, hw2, hc2, hs2, hcl2⟩ :=
    writeChunks_fresh stop resume cbArg fuel toks chunks hvalid hsplit hfuel
  have hone : (HexRecord.new 128 []).write toks.flatten stop resume cbArg fuel
      = some (toks.flatten.length, h1) := by
    simp only [writeChunks] at hw1
    cases hw : (HexRecord.new 128 []).write toks.flatten stop resume cbArg fuel with
    | none => simp [hw] at hw1
    | some r =>
      simp [hw] at hw1
      rw [List.length_flatten, ← hw1.1, ← hw1.2]
  obtain ⟨e1, e2, e3, e4, e5⟩ := parsed_of_core (hc1.trans hc2.symm)
  refine ⟨h1, h2, hone, hw2, e1, e2, e3, e4, e5, hasError_of_sound hs1, hasError_of_sound hs2,
    ?_, ?_⟩
  · intro c hc
    rw [hcl1 c hc]
    exact hstop
  · intro c hc
    rw [hcl2 c hc]
    exact hstop

/-- The theorem `chunking_invariance` applied to `smallFile` (a 16-byte data record at
0x0100 and an end-of-file record, each followed by a line feed) cut inside the
address field of the first record and inside the second record. -/
theorem chunking_invariance_smallFile :
    (∀ t ∈ smallToks, validToken t = true) ∧ smallChunks.flatten = smallToks.flatten
    ∧ ∃ h1 h2,
      (HexRecord.new 128 []).write smallToks.flatten 7 8 9 100
          = some (smallToks.flatten.length, h1)
      ∧ (HexRecord.new 128 []).writeChunks 7 8 9 100 smallChunks
          = some (smallChunks.map List.length, h2)
      ∧ h1._lastPage = h2._lastPage ∧ h1._address = h2._address
      ∧ h1._pageLen = h2._pageLen ∧ h1._pageBuf = h2._pageBuf ∧ h1._eof = h2._eof
      ∧ h1.hasError = false ∧ h2.hasError = false
      ∧ (∀ c ∈ h1.calls, c.1 ≠ 0) ∧ (∀ c ∈ h2.calls, c.1 ≠ 0) :=
  ⟨by decide, by decide,
    chunking_invariance smallToks smallChunks 7 8 9 100 (by decide) (by decide) (by decide)
      (by decide)⟩

/-- C2, on the code: a single `write` on a fresh parser with three one-byte data
records at 0x0000, 0x0200, 0x0300 and an end-of-file record returns its length
54, queues three pages, and calls the stop callback (function 7, argument 9)
three times: once after each record processed while the queue is non-empty. -/
theorem C2_stop_called_after_every_record :
    (HexRecord.write (HexRecord.new 128 []) gapFile 7 8 9 10).map
        (fun r => (r.1, r.2._lastPage.length, r.2.calls))
      = some (54, 3, [(7, 9), (7, 9), (7, 9)]) := by
  decide

/-- C3, on the code: three contiguous 48-byte data records written to the
parser of page size 128 queue one page of length 144; the idle tick that takes
this page from the queue ends in the "FlashPage too long" branch of
`programPage` and writes nothing to the UART. -/
theorem C3_page_longer_than_page_size :
    (HexRecord.write (HexRecord.new 128 []) wideFile 7 8 9 10).map
        (fun r => (r.1, r.2._pageSz,
          r.2._lastPage.map (fun fp => (fp.addr, fp.len, fp.data.length))))
      = some (324, 128, [(0, 144, 144)])
    ∧ wideEngine._lastPage.map (fun fp => fp.len) = [144]
    ∧ (wideEngine.tick 175 [[], []])._errMessage = "Internal error: FlashPage too long"
    ∧ (wideEngine.tick 175 [[], []]).uartTx = wideEngine.uartTx := by
  decide!

/-- C4, on the code: written to a fresh parser, a record whose two length
characters are not hex digits makes `write` return 0 although no error message
is stored: `hasError` is false afterwards. -/
theorem C4_bad_length_digits_leave_no_error :
    (HexRecord.write (HexRecord.new 128 []) (hexLines [":GG000001FF"]) 7 8 9 10).map
        (fun r => (r.1, r.2.hasError, r.2._errMessage))
      = some (0, false, "") := by
  decide

/-- C6, on the code: the engine has gone through the handshake and holds one
queued page; the idle tick at time 175 gets no answer to its load-address
command, so `programPage` sets the error "flashing failed in load address".
That same tick still moves to `stateProg` and re-arms the timer.  If the ack
arrives late, the tick at 180 changes `_progState` to `stateIdle`, writes a sync
request to the UART and re-arms the timer; if nothing arrives, the tick at 180
re-arms the timer and the tick at 380 replaces the stored error message. -/
theorem C6_ticks_continue_after_programPage_error :
    loadedEngine.hasError = false
    ∧ loadedEngine._progState = AVRProgStates.stateIdle
    ∧ failedEngine.hasError = true
    ∧ failedEngine._errMessage = "flashing failed in load address"
    ∧ failedEngine._progState = AVRProgStates.stateProg
    ∧ failedEngine.timer = some 5
    ∧ ((failedEngine.receive [STK_INSYNC, STK_OK]).tick 180 [])._progState
        = AVRProgStates.stateIdle
    ∧ ((failedEngine.receive [STK_INSYNC, STK_OK]).tick 180 []).uartTx
        = failedEngine.uartTx ++ [STK_GET_SYNC, CRC_EOP]
    ∧ ((failedEngine.receive [STK_INSYNC, STK_OK]).tick 180 []).timer = some 5
    ∧ (failedEngine.tick 180 []).timer = some 5
    ∧ ((failedEngine.tick 180 []).tick 380 [])._errMessage
        = "no response to page programming command" := by
  decide!

/-- C7, on the code: started with `sync` and never answered, with every timer
expiring on time, the engine has issued 9 reset pulses and is still running
after 818 expiries, has issued 10 reset pulses and is still running after 909
expiries, and fails with "sync abandoned" at expiry 910 with `_baudCnt = 9`:
ten reset pulses in total, not eight.  No further expiry follows. -/
theorem C7_ten_reset_pulses_before_sync_abandoned :
    ((AVRFlash.new 5 115200 []).sync).resetPulses.length = 1
    ∧ (AVRFlash.runSilent 818 0 (AVRFlash.new 5 115200 []).sync).resetPulses.length = 9
    ∧ (AVRFlash.runSilent 818 0 (AVRFlash.new 5 115200 []).sync).hasError = false
    ∧ (AVRFlash.runSilent 909 0 (AVRFlash.new 5 115200 []).sync).resetPulses.length = 10
    ∧ (AVRFlash.runSilent 909 0 (AVRFlash.new 5 115200 []).sync).hasError = false
    ∧ (AVRFlash.runSilent 909 0 (AVRFlash.new 5 115200 []).sync).timer = some 5
    ∧ (AVRFlash.runSilent 910 0 (AVRFlash.new 5 115200 []).sync)._errMessage
        = "sync abandoned after "
    ∧ (AVRFlash.runSilent 910 0 (AVRFlash.new 5 115200 []).sync)._baudCnt = 9
    ∧ (AVRFlash.runSilent 910 0 (AVRFlash.new 5 115200 []).sync).resetPulses.length = 10
    ∧ (AVRFlash.runSilent 910 0 (AVRFlash.new 5 115200 []).sync).timer = none := by
  decide!

/-- C8, on the code: with the configured rate 19200 and a device that never
answers, the rates applied for the sync attempts 0 to 5 (the last expiry
before each attempt's failure, then the state right after the fifth failure)
are 19200, 19200, 9600, 57600, 115200, 19200: the attempt that follows the
first failure runs at the configured rate again, not at 9600. -/
theorem C8_attempt_after_first_failure_keeps_configured_rate :
    [0, 91, 182, 273, 364, 455].map
        (fun n => (AVRFlash.runSilent n 0 (AVRFlash.new 5 19200 []).sync)._baudrate)
      = [19200, 19200, 9600, 57600, 115200, 19200]
    ∧ [0, 91, 182, 273, 364, 455].map
        (fun n => (AVRFlash.runSilent n 0 (AVRFlash.new 5 19200 []).sync).resetPulses.length)
      = [1, 2, 3, 4, 5, 6] := by
  decide!

/-- C9, on the code: an engine constructed with reset pin -1 stores pin 255;
`sync` then sets no error, applies the baud rate, issues a reset pulse on pin
255, enters `stateInit` and arms the timer. -/
theorem C9_sync_without_reset_pin_touches_hardware :
    ((AVRFlash.new (-1) 115200 []).sync).hasError = false
    ∧ ((AVRFlash.new (-1) 115200 []).sync)._resetPin = 255
    ∧ ((AVRFlash.new (-1) 115200 []).sync)._baudrate = 115200
    ∧ ((AVRFlash.new (-1) 115200 []).sync).usd0 = 694
    ∧ ((AVRFlash.new (-1) 115200 []).sync).resetPulses = [255]
    ∧ ((AVRFlash.new (-1) 115200 []).sync).timer = some 150
    ∧ ((AVRFlash.new (-1) 115200 []).sync)._progState = AVRProgStates.stateInit := by
  decide

/-- C10: two consecutive valid data records, processed by `processRecord` from
a state without open page and with page allocations succeeding; the first has
address `a` and data `d1` (not empty, shorter than the page size), the second
address `b` and data `d2`, and both fit the page buffer.  After the first
record the open page holds `d1` at the working address with low half `a`.  If
`b = (a + n) mod 2^16` the bytes of the second record are appended to that
page and no page is queued between the records (the page, now `d1 ++ d2`, stays
open while shorter than the page size and is queued as a whole otherwise).  If
`b` differs, a page holding exactly `d1` is queued at the address of the first
record although it is not full, and a new page holding `d2` is opened at `b`
(and queued at once if `d2` alone reaches the page size). -/
theorem C10_coalescing_and_page_boundaries (h0 : HexRecord) (r1 r2 : List Nat) (a b : Nat)
    (d1 d2 : List Nat)
    (hr1 : validRecord r1 = true) (hr2 : validRecord r2 = true)
    (ht1 : (readRecord r1).type = 0) (ht2 : (readRecord r2).type = 0)
    (ha : (readRecord r1).addr = a) (hb : (readRecord r2).addr = b)
    (hd1 : (readRecord r1).data = d1) (hd2 : (readRecord r2).data = d2)
    (hempty : h0._pageLen = 0) (hheap : h0.heap = [])
    (hn : 0 < d1.length) (hn2 : d1.length < h0._pageSz)
    (hbuf : d1.length + d2.length ≤ h0._pageBuf.length) :
    ∃ h1 h2,
      ({ h0 with _saved := r1 } : HexRecord).processRecord r1.length = (true, h1)
      ∧ ({ h1 with _saved := r2 } : HexRecord).processRecord r2.length = (true, h2)
      ∧ h1._lastPage = h0._lastPage ∧ h1._pageLen = d1.length
      ∧ h1._address = (h0._address &&& 4294901760) ||| a
      ∧ h1._pageBuf.take d1.length = d1
      ∧ (b = (a + d1.length) % 65536 →
          (d1.length + d2.length < h0._pageSz →
            h2._lastPage = h0._lastPage ∧ h2._address = h1._address
              ∧ h2._pageLen = d1.length + d2.length
              ∧ h2._pageBuf.take (d1.length + d2.length) = d1 ++ d2)
          ∧ (h0._pageSz ≤ d1.length + d2.length →
            h2._lastPage = h0._lastPage ++
                [{ len := d1.length + d2.length, addr := h1._address, data := d1 ++ d2 }]
              ∧ h2._pageLen = 0))
      ∧ (b ≠ (a + d1.length) % 65536 →
          (d2.length < h0._pageSz →
            h2._lastPage = h0._lastPage ++
                [{ len := d1.length, addr := h1._address, data := d1 }]
              ∧ h2._address = (h1._address &&& 4294901760) ||| b
              ∧ h2._pageLen = d2.length ∧ h2._pageBuf.take d2.length = d2)
          ∧ (h0._pageSz ≤ d2.length →
            h2._lastPage = h0._lastPage ++
                [{ len := d1.length, addr := h1._address, data := d1 },
                 { len := d2.length, addr := (h1._address &&& 4294901760) ||| b, data := d2 }]
              ∧ h2._pageLen = 0)) := by
  have hl1 := readRecord_data_length r1 hr1
  have hl2 := readRecord_data_length r2 hr2
  have ha16 := readRecord_addr_lt r1 hr1
  rw [hd1] at hl1
  rw [hd2] at hl2
  rw [ha] at ha16
  -- the first record
  have e1 : ({ h0 with _saved := r1 } : HexRecord).processRecord r1.length
      = (true, { h0 with
          _saved := r1
          _address := (h0._address &&& 4294901760) ||| a
          _pageBuf := d1 ++ h0._pageBuf.drop d1.length
          _pageLen := d1.length }) := by
    rw [processRecord_data h0 r1 hr1 ht1, ha, hd1, startData_empty _ _ (by exact hempty),
      storeBytes_eq _ _ (by show h0._pageLen + d1.length ≤ h0._pageBuf.length; omega)
        (by show h0._pageLen + d1.length < 65536; omega),
      flushFull_open _ (by show h0._pageLen + d1.length < h0._pageSz; omega)]
    simp [hempty]
  refine ⟨_, _, e1, processRecord_data _ r2 hr2 ht2, ?_⟩
  have hlenbuf : (d1 ++ List.drop d1.length h0._pageBuf).length = h0._pageBuf.length := by
    simp
    omega
  have hnext : ∀ x : Nat, x = (((h0._address &&& 4294901760) ||| a) + d1.length) % 4294967296
      &&& 65535 ↔ x = (a + d1.length) % 65536 := by
    intro x
    rw [next_address _ _ _ ha16]
  -- the second record
  rw [hb, hd2]
  by_cases hc : b = (a + d1.length) % 65536
  · -- the record continues the open page
    rw [startData_cont _ _ (by exact hn) (by exact (hnext b).2 hc),
      storeBytes_eq _ _
        (by
          show d1.length + d2.length ≤ (d1 ++ List.drop d1.length h0._pageBuf).length
          rw [hlenbuf]
          exact hbuf)
        (by show d1.length + d2.length < 65536; omega)]
    by_cases hfull : d1.length + d2.length < h0._pageSz
    · rw [flushFull_open _ (by exact hfull)]
      refine ⟨rfl, rfl, rfl, by simp, fun _ => ⟨fun _ => ⟨rfl, rfl, rfl, by simp [take_append_append]⟩,
        fun h => by omega⟩, fun h => absurd hc h⟩
    · rw [flushFull_full _ (by show h0._pageSz ≤ d1.length + d2.length; omega)
        (by exact hheap)]
      refine ⟨rfl, rfl, rfl, by simp, fun _ => ⟨fun h => by omega,
        fun _ => ⟨by simp [take_append_append], rfl⟩⟩, fun h => absurd hc h⟩
  · -- the record is disjoint from the open page
    rw [startData_gap _ _ (by exact hn) (by exact fun h => hc ((hnext b).1 h))
      (by exact hheap),
      storeBytes_eq _ _
        (by
          show 0 + d2.length ≤ (d1 ++ List.drop d1.length h0._pageBuf).length
          rw [hlenbuf]
          omega)
        (by show 0 + d2.length < 65536; omega)]
    by_cases hfull : d2.length < h0._pageSz
    · rw [flushFull_open _ (by show 0 + d2.length < h0._pageSz; omega)]
      refine ⟨rfl, rfl, rfl, by simp, fun h => absurd h hc,
        fun _ => ⟨fun _ => ⟨by simp, rfl, by simp, by simp⟩, fun h => by omega⟩⟩
    · rw [flushFull_full _ (by show h0._pageSz ≤ 0 + d2.length; omega) (by rfl)]
      refine ⟨rfl, rfl, rfl, by simp, fun h => absurd h hc,
        fun _ => ⟨fun h => by omega, fun _ => ⟨by simp, rfl⟩⟩⟩

/-- C10, witness: the theorem at the 16-byte record at 0x0100 followed by a
record at 0x0110 (one open page of 32 bytes, nothing queued) and followed by a
record at 0x0200 (the 16 bytes queued as a page at 0x0100, a new page open at
0x0200); and the same two texts with an end-of-file record written to a fresh
parser: one page of 32 bytes, and two pages of 16 bytes. -/
theorem C10_coalescing_and_page_boundaries_witness :
    (∃ h1 h2,
      ({ HexRecord.new 128 [] with _saved := recordA } : HexRecord).processRecord 43 = (true, h1)
      ∧ ({ h1 with _saved := recordB } : HexRecord).processRecord 43 = (true, h2)
      ∧ h2._lastPage = [] ∧ h2._address = 256 ∧ h2._pageLen = 32
      ∧ h2._pageBuf.take 32 = dataA ++ dataB)
    ∧ (∃ h1 h2,
      ({ HexRecord.new 128 [] with _saved := recordA } : HexRecord).processRecord 43 = (true, h1)
      ∧ ({ h1 with _saved := recordC } : HexRecord).processRecord 43 = (true, h2)
      ∧ h2._lastPage = [{ len := 16, addr := 256, data := dataA }] ∧ h2._address = 512
      ∧ h2._pageLen = 16 ∧ h2._pageBuf.take 16 = dataB)
    ∧ ((HexRecord.new 128 []).write
          (recordA ++ [10] ++ recordB ++ [10] ++ ascii ":00000001FF" ++ [10]) 7 8 9 10).map
        (fun r => r.2._lastPage) = some [{ len := 32, addr := 256, data := dataA ++ dataB }]
    ∧ ((HexRecord.new 128 []).write
          (recordA ++ [10] ++ recordC ++ [10] ++ ascii ":00000001FF" ++ [10]) 7 8 9 10).map
        (fun r => r.2._lastPage)
        = some [{ len := 16, addr := 256, data := dataA }, { len := 16, addr := 512, data := dataB }] := by
  obtain ⟨h1, h2, e1, e2, -, -, a1, -, hcont, -⟩ :=
    C10_coalescing_and_page_boundaries (HexRecord.new 128 []) recordA recordB 256 272 dataA dataB
      (by decide) (by decide) (by decide) (by decide) (by decide) (by decide) (by decide)
      (by decide) (by decide) (by decide) (by decide) (by decide) (by decide!)
  obtain ⟨h1', h2', e1', e2', -, -, a1', -, -, hgap⟩ :=
    C10_coalescing_and_page_boundaries (HexRecord.new 128 []) recordA recordC 256 512 dataA dataB
      (by decide) (by decide) (by decide) (by decide) (by decide) (by decide) (by decide)
      (by decide) (by decide) (by decide) (by decide) (by decide) (by decide!)
  obtain ⟨c1, c2, c3, c4⟩ := (hcont (by decide)).1 (by decide)
  obtain ⟨g1, g2, g3, g4⟩ := (hgap (by decide)).1 (by decide)
  have ha : h1._address = 256 := by rw [a1]; decide
  have ha' : h1'._address = 256 := by rw [a1']; decide
  refine ⟨⟨h1, h2, e1, e2, c1, by rw [c2, ha], c3, c4⟩,
    ⟨h1', h2', e1', e2', by rw [g1, ha']; rfl, by rw [g2, ha']; decide, g3, g4⟩,
    by decide!, by decide!⟩

/-- C11, on the code: `fillFile` holds two contiguous valid data records of 64
bytes each, at 0x0000 and 0x0040, whose data add up to the page size 128, then
a valid end-of-file record.  Written to a fresh parser of page size 128, the
first round of the outer loop of `_write` fills the accumulation buffer with
the first 128 of the 139 characters of the first record (`stuckParser`, whose
queue is empty and which has no open page); every further round changes
neither the parser nor the input still to be taken.  So `write` never returns,
whatever the number of rounds allowed, and no page is ever queued. -/
theorem C11_page_filling_records_never_queued :
    contiguous 0 [longRecord, longRecordB] = true
    ∧ (allData [longRecord, longRecordB]).length = (HexRecord.new 128 [])._pageSz
    ∧ validRecord eofRecord = true ∧ (readRecord eofRecord).type = 1
    ∧ fillFile = longRecord ++ [10] ++ longRecordB ++ [10] ++ eofRecord ++ [10]
    ∧ stuckParser._saved = longRecord.take 128
    ∧ stuckParser._lastPage = [] ∧ stuckParser._pageLen = 0
    ∧ (∀ fuel, (HexRecord.new 128 []).write fillFile 7 8 9 (fuel + 1)
        = HexRecord.writeLoop true 292 fuel (fillFile.drop 128) stuckParser)
    ∧ (∀ fuel, HexRecord.writeLoop true 292 (fuel + 1) (fillFile.drop 128) stuckParser
        = HexRecord.writeLoop true 292 fuel (fillFile.drop 128) stuckParser)
    ∧ ¬ ∃ fuel res, (HexRecord.new 128 []).write fillFile 7 8 9 fuel = some res := by
  refine ⟨by decide!, by decide!, by decide, by decide, rfl, by decide!, rfl, rfl,
    write_fillFile_first, writeLoop_stuck_fill, ?_⟩
  rintro ⟨fuel, res, h⟩
  rw [write_fillFile] at h
  exact absurd h (by simp)

/-- Record by record, an exact page fill queues one page: contiguous valid data
records (the first at the 16-bit address `a`) whose data add up to exactly the
page size, handed to `processRecord` one after the other (`processAll`, without
the accumulation buffer of `_write`) from a state without open page and with
page allocations succeeding, followed by a valid end-of-file record.  Once the last data record is processed the queue has
grown by exactly one page: its length is the page size, its address the working
address with the low half `a`, its data the data of the records in order; and
no page is open.  The end-of-file record then queues nothing: the queue is the
same, no page is open, the end-of-file flag is set and no error is stored. -/
theorem exact_page_fill (h : HexRecord) (rs : List (List Nat)) (eof : List Nat) (a : Nat)
    (hc : contiguous a rs = true) (htot : (allData rs).length = h._pageSz)
    (hP : 0 < h._pageSz) (h16 : h._pageSz < 65536) (hbuf : h._pageSz ≤ h._pageBuf.length)
    (hempty : h._pageLen = 0) (hheap : h.heap = [])
    (heof : validRecord eof = true) (hte : (readRecord eof).type = 1) :
    ∃ h1 h2,
      h.processAll rs = (true, h1)
      ∧ h1._lastPage = h._lastPage ++
          [{ len := h._pageSz, addr := (h._address &&& 4294901760) ||| a, data := allData rs }]
      ∧ h1._pageLen = 0
      ∧ ({ h1 with _saved := eof } : HexRecord).processRecord eof.length = (true, h2)
      ∧ h2._lastPage = h1._lastPage ∧ h2._pageLen = 0 ∧ h2._eof = true
      ∧ h2._errMessage = h._errMessage := by
  have ha : a < 65536 := by
    cases rs with
    | nil =>
      simp [allData] at htot
      omega
    | cons r rs =>
      obtain ⟨hr, -, hra, -⟩ := (contiguous_cons a r rs).1 hc
      rw [← hra]
      exact readRecord_addr_lt r hr
  obtain ⟨h1, e1, m1, m2, m3, m4, m5, m6⟩ :=
    processAll_fill rs h a hc hheap (by omega) hbuf h16 (fun hpos => by omega) ha (by omega)
  have hv := (validRecord_iff eof).1 heof
  have hz : ¬ 0 < h._pageLen := by omega
  refine ⟨h1, { h1 with _saved := eof, _eof := true }, e1, ?_, m2, ?_, rfl, m2, rfl, m5⟩
  · rw [m1, if_neg hz, hempty]
    rfl
  · rw [processRecord_of_checks _ _ hv.2.1 hv.2.2.2.1]
    have ht0 : (readRecord eof).type ≠ 0 := by omega
    have hz1 : ¬ h1._pageLen > 0 := by omega
    simp [dispatch, hte, flushOpen, hz1]

/-- The theorem `exact_page_fill` at a fresh parser of page size 32 and the records
`recordA` (16 bytes at 0x0100) and `recordB` (16 bytes at 0x0110): one page of
32 bytes at 0x0100, and nothing more after the end-of-file record. -/
theorem exact_page_fill_example :
    contiguous 256 [recordA, recordB] = true
    ∧ (allData [recordA, recordB]).length = (HexRecord.new 32 [])._pageSz
    ∧ ∃ h1 h2,
      (HexRecord.new 32 []).processAll [recordA, recordB] = (true, h1)
      ∧ h1._lastPage = [{ len := 32, addr := 256, data := dataA ++ dataB }]
      ∧ h1._pageLen = 0
      ∧ ({ h1 with _saved := eofRecord } : HexRecord).processRecord 11 = (true, h2)
      ∧ h2._lastPage = h1._lastPage ∧ h2._pageLen = 0 ∧ h2._eof = true
      ∧ h2._errMessage = "" := by
  obtain ⟨h1, h2, e1, q1, p1, e2, q2, p2, f2, m2⟩ :=
    exact_page_fill (HexRecord.new 32 []) [recordA, recordB] eofRecord 256 (by decide)
      (by decide) (by decide) (by decide) (by decide) (by decide) (by decide) (by decide)
      (by decide)
  exact ⟨by decide, by decide, h1, h2, e1, by rw [q1]; decide, p1, e2, q2, p2, f2,
    by rw [m2]; rfl⟩

/-- C12, on the code: `longRecord` is a valid data record with 64 data bytes
(more than 0 and fewer than the page size 128) at address 0 and `eofRecord` a
valid end-of-file record; written to a fresh parser with a line feed between
them, `write` never returns, whatever the number of rounds allowed: the record
has 139 characters and the accumulation buffer is filled up to 128. -/
theorem C12_write_never_returns_for_64_byte_record :
    validRecord longRecord = true ∧ (readRecord longRecord).type = 0
    ∧ (readRecord longRecord).data.length = 64
    ∧ 64 < (HexRecord.new 128 [])._pageSz ∧ longRecord.length = 139
    ∧ validRecord eofRecord = true ∧ (readRecord eofRecord).type = 1
    ∧ ¬ ∃ fuel res,
        (HexRecord.new 128 []).write (longRecord ++ [10] ++ eofRecord) 7 8 9 fuel = some res := by
  refine ⟨by decide!, by decide!, by decide!, by decide, by decide!, by decide, by decide, ?_⟩
  rintro ⟨fuel, res, h⟩
  rw [write_longRecord] at h
  exact absurd h (by simp)

/-- A single record that fits the accumulation buffer, then end-of-file: a
valid data record at the 16-bit address `a` with `n` data bytes, `0 < n`, of
at most 128 characters (that is `n ≤ 58`), followed by any number of carriage
returns and line feeds and a
valid end-of-file record of at most 128 characters, written in one `write`
call to a fresh parser of page size 128 whose page allocations succeed, with a
stop callback that is not null: `write` returns the length of the text, no
error is set, the end-of-file flag is set, the queue holds exactly one page
with `addr = a`, `len = n` and the decoded data of the record, no page is
open, and no call through a null pointer has been made. -/
theorem single_record_then_eof (r sep eof : List Nat) (stop resume cbArg fuel : Nat)
    (hr : validRecord r = true) (ht : (readRecord r).type = 0)
    (hn : 0 < (readRecord r).data.length) (hfit : r.length ≤ 128)
    (hsep : ∀ c ∈ sep, c = 10 ∨ c = 13)
    (heof : validRecord eof = true) (hte : (readRecord eof).type = 1)
    (hfit2 : eof.length ≤ 128) (hstop : stop ≠ 0)
    (hfuel : (r ++ sep ++ eof).length < fuel) :
    ∃ h2,
      (HexRecord.new 128 []).write (r ++ sep ++ eof) stop resume cbArg fuel
        = some ((r ++ sep ++ eof).length, h2)
      ∧ h2.hasError = false ∧ h2._eof = true
      ∧ h2._lastPage =
          [{ len := (readRecord r).data.length, addr := (readRecord r).addr
             data := (readRecord r).data }]
      ∧ h2._pageLen = 0
      ∧ (∀ c ∈ h2.calls, c.1 ≠ 0) := by
  have htext : (r :: (sep.map (fun c => [c]) ++ [eof])).flatten = r ++ sep ++ eof := by
    simp [flatten_map_single]
  have hvalid : ∀ t ∈ r :: (sep.map (fun c => [c]) ++ [eof]), validToken t = true := by
    intro t ht
    simp only [List.mem_cons, List.mem_append, List.mem_map, List.mem_singleton,
      List.not_mem_nil, or_false] at ht
    rcases ht with rfl | ⟨c, hc, rfl⟩ | rfl
    · simp [validToken, hr, hfit]
    · rcases hsep c hc with rfl | rfl <;> decide
    · simp [validToken, heof, hfit2]
  obtain ⟨h2, hw, hcore, hs, hcl⟩ :=
    write_fresh (r :: (sep.map (fun c => [c]) ++ [eof])) stop resume cbArg fuel hvalid
      (by rw [htext]; exact hfuel)
  rw [htext] at hw
  have hl := validRecord_length hr
  have hle := validRecord_length heof
  have hv := (validRecord_iff r).1 hr
  have hlf := validRecord_lenField hr
  have hdl : (readRecord r).data.length ≤ 58 := by
    have e : (readRecord r).data.length = getHexValue (r.drop 1) 2 := by
      simp only [readRecord, decodeBytes_length]
      omega
    have := hv.2.2.1
    omega
  have ha16 := readRecord_addr_lt r hr
  have hpar : (HexRecord.new 128 []).core.parseAll (r :: (sep.map (fun c => [c]) ++ [eof]))
      = (((HexRecord.new 128 []).core.dispatch (readRecord r)).2.core.dispatch
          (readRecord eof)).2.core := by
    have h1 : r.length ≠ 1 := by omega
    have h2 : eof.length ≠ 1 := by omega
    rw [parseAll, if_neg h1, parseAll_append,
      parseAll_crlf _ (sep.map (fun c => [c])) (by
        intro t ht
        simp only [List.mem_map] at ht
        obtain ⟨c, -, rfl⟩ := ht
        rfl)]
    simp only [parseAll, if_neg h2]
  have hd1 : ((HexRecord.new 128 []).core.dispatch (readRecord r)).2
      = { (HexRecord.new 128 []).core with
          _address := (readRecord r).addr
          _pageBuf := (readRecord r).data
            ++ (HexRecord.new 128 []).core._pageBuf.drop (readRecord r).data.length
          _pageLen := (readRecord r).data.length } := by
    simp only [dispatch, ht, if_true]
    rw [startData_empty _ _ (by rfl),
      storeBytes_eq _ _
        (by
          show 0 + (readRecord r).data.length ≤ (List.replicate (128 + 128 / 2) 0).length
          rw [List.length_replicate]
          omega)
        (by show 0 + (readRecord r).data.length < 65536; omega),
      flushFull_open _ (by
        show 0 + (readRecord r).data.length < 128 % 65536
        omega)]
    have hz : ((0 : Nat) &&& 4294901760) ||| (readRecord r).addr = (readRecord r).addr := by
      simp
    simp [HexRecord.new, HexRecord.core, hz]
  have ht0 : (readRecord eof).type ≠ 0 := by omega
  rw [hpar, hd1] at hcore
  simp only [dispatch, hte, ht0, if_true, if_false] at hcore
  rw [flushOpen_eq _ (by rfl)] at hcore
  obtain ⟨e1, e2, e3, e4, e5⟩ := parsed_of_core hcore
  refine ⟨h2, hw, hasError_of_sound hs, e5, ?_, e3, ?_⟩
  · rw [e1]
    simp [HexRecord.core, HexRecord.new, hn]
  · intro c hc
    rw [hcl c hc]
    exact hstop

/-- The theorem `single_record_then_eof` at
`:10010000214601360121470136007EFE09D2190140`,
a line feed and `:00000001FF`: `write` returns 55 and one page of 16 bytes at
0x0100 is queued. -/
theorem single_record_then_eof_example :
    ∃ h2,
      (HexRecord.new 128 []).write (recordA ++ [10] ++ eofRecord) 7 8 9 100 = some (55, h2)
      ∧ h2.hasError = false ∧ h2._eof = true
      ∧ h2._lastPage = [{ len := 16, addr := 256, data := dataA }]
      ∧ h2._pageLen = 0
      ∧ (∀ c ∈ h2.calls, c.1 ≠ 0) := by
  obtain ⟨h2, e, k1, k2, k3, k4, k5⟩ :=
    single_record_then_eof recordA [10] eofRecord 7 8 9 100 (by decide) (by decide)
      (by decide) (by decide) (by decide) (by decide) (by decide) (by decide) (by decide)
      (by decide)
  exact ⟨h2, e, k1, k2, by rw [k3]; decide, k4, k5⟩

/-- C13: `verifyChecksum` on `n` hex digits (upper or lower case) returns true
exactly when the bytes these digits stand for, two digits to a byte, add up to
0 modulo 256.  When `processRecord` is called on a buffer whose `len - 1`
characters after the start marker are hex digits with a sum that is not 0
modulo 256, it returns false with the error "Invalid checksum for record " (it
also cuts the buffer for the message) and changes nothing else, whatever the
record type.  (`_write` passes lengths of at most 521, inside the range of the
`short` parameter.) -/
theorem C13_checksum_rule (h : HexRecord) (len : Nat) (buf : List Nat) (n : Nat)
    (hn : n ≤ buf.length) (hhex : ∀ c ∈ buf.take n, isHexChar c = true) :
    (verifyChecksum buf n = true ↔ (bytesOfText (buf.take n)).sum % 256 = 0)
    ∧ (h._saved.drop 1 = buf → len - 1 = n → (bytesOfText (buf.take n)).sum % 256 ≠ 0 →
        h.processRecord len =
          (false, { h with
            _saved := h._saved.set (1 + (if n > 32 then 32 else n)) 0
            _errMessage := "Invalid checksum for record " })) := by
  have hv : verifyChecksum buf n = true ↔ (bytesOfText (buf.take n)).sum % 256 = 0 := by
    rw [verifyChecksum_eq buf n hn, pairSum_eq_sum _ _ (le_refl _) hhex]
    simp
  refine ⟨hv, ?_⟩
  intro hb hl hne
  have hck : checkHex buf n = true := (checkHex_iff buf n).2 ⟨hn, hhex⟩
  have hvf : verifyChecksum buf n = false := by
    cases hx : verifyChecksum buf n with
    | false => rfl
    | true => exact absurd (hv.1 hx) hne
  simp only [processRecord, hb, hl, hck, hvf, Bool.not_true, Bool.not_false, if_true]
  simp

/-- C13, witness: the theorem at the end-of-file record with its checksum
changed to `FE`: the ten digits stand for bytes that add up to 255. -/
theorem C13_checksum_rule_witness :
    10 ≤ (badSumRecord.drop 1).length
    ∧ (∀ c ∈ (badSumRecord.drop 1).take 10, isHexChar c = true)
    ∧ (verifyChecksum (badSumRecord.drop 1) 10 = true ↔
        (bytesOfText ((badSumRecord.drop 1).take 10)).sum % 256 = 0)
    ∧ ((parserWith badSumRecord)._saved.drop 1 = badSumRecord.drop 1 → 11 - 1 = 10 →
        (bytesOfText ((badSumRecord.drop 1).take 10)).sum % 256 ≠ 0 →
        (parserWith badSumRecord).processRecord 11 =
          (false, { parserWith badSumRecord with
            _saved := (parserWith badSumRecord)._saved.set (1 + (if 10 > 32 then 32 else 10)) 0
            _errMessage := "Invalid checksum for record " })) :=
  ⟨by decide, by decide,
    C13_checksum_rule (parserWith badSumRecord) 11 (badSumRecord.drop 1) 10 (by decide)
      (by decide)⟩

/-- C14: on a parser with an error set, `write` returns 0 for every input and
every pair of callbacks, and the state it leaves is the state it found: buffer,
open page, address, queue, end-of-file flag, error message, the callbacks
registered before, and the record of calls made. -/
theorem C14_write_after_error_is_rejected (h : HexRecord) (data : List Nat)
    (stop resume cbArg fuel : Nat) (herr : h.hasError = true) :
    h.write data stop resume cbArg fuel = some (0, h) := by
  simp [HexRecord.write, herr]

/-- C14, witness: the theorem at the parser whose page allocation has failed
("out of memory"), written `smallFile`. -/
theorem C14_write_after_error_is_rejected_witness :
    (HexRecord.new 128 [false]).addPage.hasError = true
    ∧ (HexRecord.new 128 [false]).addPage.write smallFile 7 8 9 10
        = some (0, (HexRecord.new 128 [false]).addPage) :=
  ⟨by decide, C14_write_after_error_is_rejected _ smallFile 7 8 9 10 (by decide)⟩

/-- C15: `processRecord` on a valid extended linear address record (type 4)
whose two data bytes are `hi` and `lo`, with page allocations succeeding: it
returns true, an open page that is not empty is queued with its length, address
and bytes (an empty one is not), the open page is empty afterwards, and the
working address is `H * 65536` for `H = 256 * hi + lo`.  A valid data record
processed next (16-bit address `A`, data fitting the page buffer) opens its
page at `H * 65536 + A`: that is the working address while the page is open,
and the `addr` of the page when the record fills it. -/
theorem C15_extended_linear_address (h : HexRecord) (r r2 : List Nat) (hi lo : Nat)
    (hr : validRecord r = true) (ht : (readRecord r).type = 4)
    (hd : (readRecord r).data = [hi, lo]) (hheap : h.heap = [])
    (hr2 : validRecord r2 = true) (ht2 : (readRecord r2).type = 0)
    (hbuf : (readRecord r2).data.length ≤ h._pageBuf.length) :
    ∃ h1 h2,
      ({ h with _saved := r } : HexRecord).processRecord r.length = (true, h1)
      ∧ h1._pageLen = 0
      ∧ h1._lastPage =
          (if h._pageLen > 0 then
            h._lastPage ++
              [{ len := h._pageLen, addr := h._address, data := h._pageBuf.take h._pageLen }]
          else h._lastPage)
      ∧ h1._address = (256 * hi + lo) * 65536
      ∧ ({ h1 with _saved := r2 } : HexRecord).processRecord r2.length = (true, h2)
      ∧ h2._address = (256 * hi + lo) * 65536 + (readRecord r2).addr
      ∧ ((readRecord r2).data.length < h._pageSz →
          h2._lastPage = h1._lastPage ∧ h2._pageLen = (readRecord r2).data.length
            ∧ h2._pageBuf.take (readRecord r2).data.length = (readRecord r2).data)
      ∧ (h._pageSz ≤ (readRecord r2).data.length →
          h2._lastPage = h1._lastPage ++
              [{ len := (readRecord r2).data.length
                 addr := (256 * hi + lo) * 65536 + (readRecord r2).addr
                 data := (readRecord r2).data }]
            ∧ h2._pageLen = 0) := by
  obtain ⟨hext, hhi, hlo⟩ := readRecord_ext r hi lo hr hd
  have hv := (validRecord_iff r).1 hr
  have hl2 := readRecord_data_length r2 hr2
  have ha16 := readRecord_addr_lt r2 hr2
  have hH : 256 * hi + lo < 65536 := by omega
  have e1 : ({ h with _saved := r } : HexRecord).processRecord r.length
      = (true, { h with
          _saved := r
          heap := []
          _lastPage :=
            if h._pageLen > 0 then
              h._lastPage ++
                [{ len := h._pageLen, addr := h._address, data := h._pageBuf.take h._pageLen }]
            else h._lastPage
          _pageLen := 0
          _address := ((256 * hi + lo) <<< 16) % 4294967296 }) := by
    rw [processRecord_of_checks _ _ hv.2.1 hv.2.2.2.1]
    have ht' : (readRecord r).type ≠ 0 ∧ (readRecord r).type ≠ 1 := by omega
    simp only [dispatch, ht, ht'.1, ht'.2, if_true, if_false, hext]
    rw [flushOpen_eq _ (by exact hheap)]
    rfl
  refine ⟨_, _, e1, rfl, rfl, ?_, processRecord_data _ r2 hr2 ht2, ?_⟩
  · show ((256 * hi + lo) <<< 16) % 4294967296 = _
    rw [Nat.shiftLeft_eq]
    omega
  rw [startData_empty _ _ (by rfl),
    storeBytes_eq _ _ (by show 0 + (readRecord r2).data.length ≤ h._pageBuf.length; omega)
      (by show 0 + (readRecord r2).data.length < 65536; omega)]
  have haddr := ext_address (256 * hi + lo) (readRecord r2).addr hH ha16
  by_cases hfull : (readRecord r2).data.length < h._pageSz
  · rw [flushFull_open _ (by show 0 + (readRecord r2).data.length < h._pageSz; omega)]
    refine ⟨haddr, fun _ => ⟨rfl, by simp, by simp⟩, fun hh => by omega⟩
  · rw [flushFull_full _ (by show h._pageSz ≤ 0 + (readRecord r2).data.length; omega) (by rfl)]
    refine ⟨haddr, fun hh => by omega, fun _ => ⟨?_, rfl⟩⟩
    simp [haddr]

/-- C15, witness: the theorem at a parser with a page of 16 bytes open at
0x0100, the record `:020000040001F9` and then `recordA` (address 0x0100): the
open page is queued, the address becomes 0x10000 and the next page opens at
0x10100. -/
theorem C15_extended_linear_address_witness :
    ∃ h1 h2,
      ({ openParser [] with _saved := linearRecord } : HexRecord).processRecord 15 = (true, h1)
      ∧ h1._pageLen = 0
      ∧ h1._lastPage = [{ len := 16, addr := 256, data := dataA }]
      ∧ h1._address = 65536
      ∧ ({ h1 with _saved := recordA } : HexRecord).processRecord 43 = (true, h2)
      ∧ h2._address = 65792 ∧ h2._lastPage = h1._lastPage ∧ h2._pageLen = 16 := by
  obtain ⟨h1, h2, e1, p1, q1, a1, e2, a2, hopen, -⟩ :=
    C15_extended_linear_address (openParser []) linearRecord recordA 0 1 (by decide) (by decide)
      (by decide) (by decide) (by decide) (by decide) (by decide!)
  obtain ⟨o1, o2, -⟩ := hopen (by decide)
  exact ⟨h1, h2, e1, p1, by rw [q1]; decide, by rw [a1], e2, by rw [a2]; decide, o1,
    by rw [o2]; decide⟩

/-- C16: when `processRecord` is called on a record that passes the hex and
checksum tests and whose type is 2 (extended segment address) or 5 (start
address), it returns true and the parser state is exactly the state before the
call: open page and its length, working address, page queue, end-of-file flag
and error message are unchanged, and an open partial page stays open. -/
theorem C16_types_2_and_5_change_nothing (h : HexRecord) (len : Nat)
    (hhex : checkHex (h._saved.drop 1) (len - 1) = true)
    (hsum : verifyChecksum (h._saved.drop 1) (len - 1) = true)
    (ht : (readRecord h._saved).type = 2 ∨ (readRecord h._saved).type = 5) :
    h.processRecord len = (true, h) := by
  rw [processRecord_of_checks h len hhex hsum]
  rcases ht with ht | ht <;> simp [HexRecord.dispatch, ht]

/-- C16, witness: the theorem at a start address record (type 5) met while a
page of 16 bytes is open. -/
theorem C16_types_2_and_5_change_nothing_witness :
    (openParser startRecord)._pageLen = 16
    ∧ (openParser startRecord).processRecord 19 = (true, openParser startRecord) :=
  ⟨by decide,
    C16_types_2_and_5_change_nothing (openParser startRecord) 19 (by decide) (by decide)
      (by decide)⟩

/-- C17: when `processRecord` is called on a record that passes the hex and
checksum tests, it returns true if and only if the type byte is 0, 1, 2, 4 or
5.  For every other type it returns false, stores an error that starts with
"Invalid/unknown record type: 0x", and leaves queue, open page, address and
end-of-file flag as they were: no page is queued. -/
theorem C17_record_type_dispatch (h : HexRecord) (len : Nat)
    (hhex : checkHex (h._saved.drop 1) (len - 1) = true)
    (hsum : verifyChecksum (h._saved.drop 1) (len - 1) = true) :
    ((h.processRecord len).1 = true ↔
      ((readRecord h._saved).type = 0 ∨ (readRecord h._saved).type = 1
        ∨ (readRecord h._saved).type = 2 ∨ (readRecord h._saved).type = 4
        ∨ (readRecord h._saved).type = 5))
    ∧ (¬ ((readRecord h._saved).type = 0 ∨ (readRecord h._saved).type = 1
          ∨ (readRecord h._saved).type = 2 ∨ (readRecord h._saved).type = 4
          ∨ (readRecord h._saved).type = 5) →
        (h.processRecord len).1 = false
        ∧ (h.processRecord len).2._errMessage = "Invalid/unknown record type: 0x"
        ∧ (h.processRecord len).2.hasError = true
        ∧ (h.processRecord len).2._lastPage = h._lastPage
        ∧ (h.processRecord len).2._pageLen = h._pageLen
        ∧ (h.processRecord len).2._pageBuf = h._pageBuf
        ∧ (h.processRecord len).2._address = h._address
        ∧ (h.processRecord len).2._eof = h._eof) := by
  rw [processRecord_of_checks h len hhex hsum]
  generalize (readRecord h._saved) = f
  by_cases h0 : f.type = 0
  · simp [HexRecord.dispatch, h0]
  by_cases h1 : f.type = 1
  · simp [HexRecord.dispatch, h1]
  by_cases h4 : f.type = 4
  · simp [HexRecord.dispatch, h4]
  by_cases h5 : f.type = 5
  · simp [HexRecord.dispatch, h5]
  by_cases h2 : f.type = 2
  · simp [HexRecord.dispatch, h2]
  simp [HexRecord.dispatch, h0, h1, h2, h4, h5, HexRecord.hasError]

/-- C17, witness: the theorem at a start segment address record (type 3) met
while a page of 16 bytes is open: the call fails, and the type is none of the
five. -/
theorem C17_record_type_dispatch_witness :
    (readRecord (openParser type3Record)._saved).type = 3
    ∧ ((openParser type3Record).processRecord 19).1 = false
    ∧ (((openParser type3Record).processRecord 19).1 = true ↔
      ((readRecord (openParser type3Record)._saved).type = 0
        ∨ (readRecord (openParser type3Record)._saved).type = 1
        ∨ (readRecord (openParser type3Record)._saved).type = 2
        ∨ (readRecord (openParser type3Record)._saved).type = 4
        ∨ (readRecord (openParser type3Record)._saved).type = 5)) :=
  ⟨by decide, by decide,
    (C17_record_type_dispatch (openParser type3Record) 19 (by decide) (by decide)).1⟩

/-- C18: an engine whose resume callback is not null.  (1) One step of a run
(bytes reach the UART, then the timer expires): a call through `_resume` is
made exactly when the timer was armed, the state is `stateIdle` and the queue
holds exactly one page, which this tick takes; then it is made once.  A tick
that leaves a page in the queue, that finds the queue empty, or that runs in
another state makes no such call; the queue loses its head page on an idle
tick and is untouched otherwise, and the callback stays registered.  (2) Over
any run without `write` the number of calls through `_resume` grows by exactly
one if the queue was not empty at the start and is empty at the end, and by
zero otherwise. -/
theorem C18_resume_called_once (s : AVRFlash) (steps : List (List Nat × Nat × List (List Nat)))
    (rx : List Nat) (now : Nat) (polls : List (List Nat)) (hres : s._resume ≠ 0) :
    ((s.receive rx).tick now polls).resumeCount = s.resumeCount
        + (if s.timer ≠ none ∧ s._progState = AVRProgStates.stateIdle
            ∧ s._lastPage.length = 1 then 1 else 0)
    ∧ ((s.receive rx).tick now polls)._lastPage
        = (if s.timer ≠ none ∧ s._progState = AVRProgStates.stateIdle then s._lastPage.tail
          else s._lastPage)
    ∧ ((s.receive rx).tick now polls)._resume = s._resume
    ∧ (s.run steps).resumeCount = s.resumeCount
        + (if s._lastPage ≠ [] ∧ (s.run steps)._lastPage = [] then 1 else 0) := by
  obtain ⟨f1, -, f3, f4⟩ := tick_flow s rx now polls
  refine ⟨?_, f3, f1, run_flow steps s hres⟩
  rw [f4]
  simp [hres]

/-- C18, witness: the theorem at the engine that holds three pages (resume
callback 8) and the run of seven expiries that programs them: the queue is
empty at the end and resume has been called once. -/
theorem C18_resume_called_once_witness :
    gapEngine._lastPage.length = 3 ∧ gapEngine._resume = 8
    ∧ (gapEngine.run drainSteps)._lastPage = []
    ∧ (gapEngine.run drainSteps).resumeCount = gapEngine.resumeCount + 1 := by
  have h := (C18_resume_called_once gapEngine drainSteps [] 175 [] (by decide!)).2.2.2
  have hq : (gapEngine.run drainSteps)._lastPage = [] := by decide!
  have hn : gapEngine._lastPage ≠ [] := by decide!
  rw [if_pos ⟨hn, hq⟩] at h
  exact ⟨by decide!, by decide!, hq, h⟩

/-- C19: `addPage` and the idle tick written on heap cells and pointers
(`PageQueue.addPage` links the new cell after `_lastPage` and makes it
`_lastPage`, `PageQueue.takePage` unlinks `_lastPage->next`, hands it to
`programPage` and frees it) against the queue as a list (`fifoOps`: append at
the end, take the head).  For every interleaving of enqueues and dequeues
starting from the empty queue, with an allocator that returns null or a cell
that is not in use: the pages handed to `programPage` are the same, in the
same order, as those taken from the list; `_lastPage` is null at the end
exactly when the list is empty; and the pages handed out followed by the pages
still queued are exactly the pages enqueued, in the order of enqueueing, so
the pages come out in the order they went in and none comes out twice. -/
theorem C19_fifo_order_of_pages (ops : List QueueOp)
    (hok : PageQueue.empty.allocOk ops = true) :
    (PageQueue.empty.runOps ops).1 = (fifoOps [] ops).1
    ∧ ((PageQueue.empty.runOps ops).2._lastPage = 0 ↔ (fifoOps [] ops).2 = [])
    ∧ (PageQueue.empty.runOps ops).1 ++ (fifoOps [] ops).2 = enqueued ops
    ∧ (PageQueue.empty.runOps ops).1 <+: enqueued ops := by
  obtain ⟨h1, h2⟩ := runOps_fifo ops PageQueue.empty [] rep_empty hok
  have h3 := fifoOps_order ops []
  simp only [List.map_nil] at h1 h2
  rw [List.nil_append] at h3
  refine ⟨h1, h2, by rw [h1]; exact h3, ?_⟩
  rw [h1, ← h3]
  exact List.prefix_append _ _

/-- C19, witness: the theorem at `sampleOps` (two pages enqueued, one
dequeued, a failed allocation, a third page enqueued in the cell freed before,
three more dequeues): the three pages come out in the order they went in and
`_lastPage` is null at the end. -/
theorem C19_fifo_order_of_pages_witness :
    PageQueue.empty.allocOk sampleOps = true
    ∧ (PageQueue.empty.runOps sampleOps).1
        = [{ len := 1, addr := 0, data := [1] }, { len := 1, addr := 512, data := [2] },
           { len := 1, addr := 768, data := [3] }]
    ∧ (PageQueue.empty.runOps sampleOps).2._lastPage = 0 := by
  have h := C19_fifo_order_of_pages sampleOps (by decide)
  exact ⟨by decide, by rw [h.1]; decide, h.2.1.2 (by decide)⟩

/-- C20: an idle tick (state `stateIdle`, timer armed and now expired).
(1) When the queue is not empty the tick takes the head page `fp` from the
queue and hands it to `programPage`, whether or not a completion callback is
registered: the queue is left with the other pages, the only call it may make
is the resume call (when `fp` was the last page), the bytes it sends are those
of `programPage` for `fp` (nothing for a page longer than the page size, else
the load-address command, followed by the program-page command with the data
when the ack arrives during the wait), so neither the leave-programming-mode
bytes are sent nor the completion callback is called; the state becomes
`stateProg` and the timer is armed again.
(2) When the queue is empty and a completion callback is registered, the tick
writes `STK_LEAVE_PROGMODE`, `CRC_EOP` and then calls the callback, in this
order and nothing else, and leaves the timer unarmed.
(3) When the queue is empty and no completion callback is registered, nothing
is called and at most the keep-alive sync request is sent. -/
theorem C20_completion_only_after_drain (s : AVRFlash) (now ms : Nat)
    (polls : List (List Nat))
    (hstate : s._progState = AVRProgStates.stateIdle) (htimer : s.timer = some ms) :
    (∀ fp rest, s._lastPage = fp :: rest →
      (s.tick now polls)._lastPage = rest
      ∧ (s.tick now polls)._progState = AVRProgStates.stateProg
      ∧ (s.tick now polls).timer = some CB_INTERVAL
      ∧ (s.tick now polls).calls = s.calls
          ++ (if rest = [] ∧ s._resume ≠ 0 then [(s._resume, s._resumeArg)] else [])
      ∧ ∃ bytes, (s.tick now polls).uartTx = s.uartTx ++ bytes
        ∧ (s.tick now polls).events = s.events
            ++ (if rest = [] ∧ s._resume ≠ 0 then [Event.resume s._resume s._resumeArg] else [])
            ++ bytes.map Event.tx
        ∧ (s._pageSz < fp.len → bytes = [])
        ∧ (fp.len ≤ s._pageSz → bytes = fp.loadCmd ∨ bytes = fp.loadCmd ++ fp.progCmd))
    ∧ (s._lastPage = [] → s._doneCB ≠ 0 →
      (s.tick now polls).uartTx = s.uartTx ++ [STK_LEAVE_PROGMODE, CRC_EOP]
      ∧ (s.tick now polls).events = s.events
          ++ [Event.tx STK_LEAVE_PROGMODE, Event.tx CRC_EOP, Event.done s._doneCB s._doneCBArg]
      ∧ (s.tick now polls).calls = s.calls ++ [(s._doneCB, s._doneCBArg)]
      ∧ (s.tick now polls).timer = none
      ∧ (s.tick now polls)._lastPage = [])
    ∧ (s._lastPage = [] → s._doneCB = 0 →
      ∃ bytes, (s.tick now polls).uartTx = s.uartTx ++ bytes
        ∧ (s.tick now polls).events = s.events ++ bytes.map Event.tx
        ∧ (bytes = [] ∨ bytes = [STK_GET_SYNC, CRC_EOP])
        ∧ (s.tick now polls).calls = s.calls) := by
  have ht : s.tick now polls = AVRFlash.timerCB { s with timer := none } now polls := by
    simp only [AVRFlash.tick, htimer]
  rw [ht]
  refine ⟨?_, ?_, ?_⟩
  · intro fp rest hq
    obtain ⟨s2, e, b1, b2, b3, b4, b5, b6, b7, b8, b9⟩ :=
      timerCB_idle_page { s with timer := none } now polls fp rest hstate hq
    obtain ⟨c1, c2, c3, c4, c5, c6, c7, bytes, c8, c9, c10, c11⟩ :=
      programPage_out s2 fp polls
    rw [e]
    refine ⟨c1.trans b1, rfl, rfl, c6.trans b8, bytes, c8.trans (by rw [b7]), ?_, ?_, ?_⟩
    · exact c9.trans (by rw [b9])
    · intro h
      exact c10 (by rw [b6]; exact h)
    · intro h
      exact c11 (by rw [b6]; exact h)
  · intro hq hcb
    obtain ⟨d1, d2, d3, d4, d5, -⟩ :=
      timerCB_idle_done { s with timer := none } now polls hstate hq hcb
    exact ⟨d1, d2, d3, d4, d5⟩
  · intro hq hcb
    obtain ⟨bytes, d1, d2, d3, d4, -⟩ :=
      timerCB_idle_wait { s with timer := none } now polls hstate hq hcb
    exact ⟨bytes, d1, d2, d3, d4⟩

/-- C20, witness: the theorem at the engine that holds one page and has a
completion callback registered (function 3, argument 4): the tick at time 175
takes the page and calls resume (function 8), not the completion callback.
And at the engine with an empty queue and the same callback: the tick sends
the two bytes, then calls the callback, and leaves the timer unarmed. -/
theorem C20_completion_only_after_drain_witness :
    (loadedEngine.finish 3 4)._lastPage = [{ len := 16, addr := 256, data := dataA }]
    ∧ ((loadedEngine.finish 3 4).tick 175 [[20, 16]])._lastPage = []
    ∧ ((loadedEngine.finish 3 4).tick 175 [[20, 16]]).calls
        = (loadedEngine.finish 3 4).calls ++ [(8, 9)]
    ∧ ((idleEngine.finish 3 4).tick 175 []).events
        = (idleEngine.finish 3 4).events ++ [Event.tx 81, Event.tx 32, Event.done 3 4]
    ∧ ((idleEngine.finish 3 4).tick 175 []).timer = none := by
  have h1 := (C20_completion_only_after_drain (loadedEngine.finish 3 4) 175 5 [[20, 16]]
    (by decide!) (by decide!)).1 { len := 16, addr := 256, data := dataA } [] (by decide!)
  have h2 := (C20_completion_only_after_drain (idleEngine.finish 3 4) 175 5 []
    (by decide!) (by decide!)).2.1 (by decide!) (by decide!)
  exact ⟨by decide!, h1.1, h1.2.2.2.1, h2.2.1, h2.2.2.2.1⟩

/-- C21: a completion callback `cb` that is not null is registered by `finish`
on an engine without error.  `finish` itself calls nothing.  Over every run of
timer expiries that follows (with any bytes received in between) the callback
is called at most once: the calls through `_doneCB` made during the run are
exactly one call `cb(arg)` if the timer was armed at the registration and is
not armed at the end of the run, and none otherwise.  A tick that ends without
arming the timer again (completion in `stateIdle`, or an error in any state)
therefore makes the call, a tick that arms it does not, and once the timer is
not armed no tick runs any more. -/
theorem C21_completion_callback_once (s0 : AVRFlash) (cb arg : Nat)
    (steps : List (List Nat × Nat × List (List Nat)))
    (herr : s0.hasError = false) (hcb : cb ≠ 0) :
    (s0.finish cb arg)._doneCB = cb ∧ (s0.finish cb arg)._doneCBArg = arg
    ∧ (s0.finish cb arg).doneEvents = s0.doneEvents
    ∧ ((s0.finish cb arg).run steps).doneEvents = s0.doneEvents
        ++ (if s0.timer ≠ none ∧ ((s0.finish cb arg).run steps).timer = none
            then [Event.done cb arg] else [])
    ∧ ((s0.finish cb arg).run steps)._doneCB = cb := by
  have hf : s0.finish cb arg = { s0 with _doneCB := cb, _doneCBArg := arg } := by
    simp [AVRFlash.finish, herr]
  obtain ⟨g1, -, -, g4⟩ := run_done steps (s0.finish cb arg)
  rw [hf] at g1 g4 ⊢
  refine ⟨rfl, rfl, rfl, ?_, g1⟩
  rw [g4]
  simp [hcb, AVRFlash.doneEvents]

/-- C21, witness: the theorem at the engine that has finished the handshake and
has nothing to program, with the callback 3 and argument 4, and two timer
expiries: the first one completes and calls the callback, the second one finds
the timer unarmed; one call in all. -/
theorem C21_completion_callback_once_witness :
    ((idleEngine.finish 3 4).run [([], 175, []), ([], 180, [])]).doneEvents
      = idleEngine.doneEvents ++ [Event.done 3 4]
    ∧ ((idleEngine.finish 3 4).run [([], 175, []), ([], 180, [])]).timer = none := by
  have h := (C21_completion_callback_once idleEngine 3 4 [([], 175, []), ([], 180, [])]
    (by decide!) (by decide)).2.2.2.1
  have ht : ((idleEngine.finish 3 4).run [([], 175, []), ([], 180, [])]).timer = none := by
    decide!
  have h0 : idleEngine.timer ≠ none := by decide!
  rw [if_pos ⟨h0, ht⟩] at h
  exact ⟨h, ht⟩

/-- C22: `finish(cb, arg)` on an engine with an error calls `cb(arg)` once
(one call is added to the record of calls and to the events) and leaves
`_doneCB` and `_doneCBArg` as they were.  So the ticks that follow call only
what was registered before: over every run the calls through `_doneCB` are the
earlier ones, this call, and one call of the callback registered before if
there was one and the run leaves the timer unarmed; with no callback registered
before, nothing more is called.  On an engine without error `finish` calls
nothing and only stores `cb` and `arg`. -/
theorem C22_finish_after_error (s : AVRFlash) (cb arg : Nat)
    (steps : List (List Nat × Nat × List (List Nat))) :
    (s.hasError = true →
      (s.finish cb arg).calls = s.calls ++ [(cb, arg)]
      ∧ (s.finish cb arg).events = s.events ++ [Event.done cb arg]
      ∧ (s.finish cb arg)._doneCB = s._doneCB ∧ (s.finish cb arg)._doneCBArg = s._doneCBArg
      ∧ ((s.finish cb arg).run steps).doneEvents = s.doneEvents ++ [Event.done cb arg]
          ++ (if s.timer ≠ none ∧ ((s.finish cb arg).run steps).timer = none ∧ s._doneCB ≠ 0
              then [Event.done s._doneCB s._doneCBArg] else [])
      ∧ (s._doneCB = 0 →
          ((s.finish cb arg).run steps).doneEvents = s.doneEvents ++ [Event.done cb arg]))
    ∧ (s.hasError = false →
      (s.finish cb arg).calls = s.calls ∧ (s.finish cb arg).events = s.events
      ∧ (s.finish cb arg)._doneCB = cb ∧ (s.finish cb arg)._doneCBArg = arg
      ∧ (s.finish cb arg).timer = s.timer ∧ (s.finish cb arg)._lastPage = s._lastPage
      ∧ (s.finish cb arg).uartTx = s.uartTx
      ∧ (s.finish cb arg)._progState = s._progState) := by
  constructor
  · intro herr
    have e0 : (s.finish cb arg).calls = s.calls ++ [(cb, arg)] := by
      simp [AVRFlash.finish, herr]
    have e1 : (s.finish cb arg).events = s.events ++ [Event.done cb arg] := by
      simp [AVRFlash.finish, herr]
    have e2 : (s.finish cb arg)._doneCB = s._doneCB := by simp [AVRFlash.finish, herr]
    have e3 : (s.finish cb arg)._doneCBArg = s._doneCBArg := by simp [AVRFlash.finish, herr]
    have e4 : (s.finish cb arg).timer = s.timer := by simp [AVRFlash.finish, herr]
    have e5 : (s.finish cb arg).doneEvents = s.doneEvents ++ [Event.done cb arg] := by
      simp [AVRFlash.doneEvents, e1, Event.isDone]
    obtain ⟨-, -, -, g4⟩ := run_done steps (s.finish cb arg)
    rw [e5, e2, e3, e4] at g4
    refine ⟨e0, e1, e2, e3, g4, ?_⟩
    intro h0
    rw [g4]
    simp [h0]
  · intro herr
    have hf : s.finish cb arg = { s with _doneCB := cb, _doneCBArg := arg } := by
      simp [AVRFlash.finish, herr]
    rw [hf]
    exact ⟨rfl, rfl, rfl, rfl, rfl, rfl, rfl, rfl⟩

/-- C23: `timerCB` in `stateGetSig` when, after the pending bytes are fetched
and leading ack pairs removed, at least 5 response bytes are buffered.  The
state becomes `stateGetVersLo` if and only if the first five bytes are in-sync,
0x1e, 0x95, 0x0f, ok.  In that case the request get-parameter 0x82 is sent, the
response buffer is emptied, the timer is armed again and nothing is called.
For every other content the error "bad programmer signature" is stored, the
state stays `stateGetSig`, nothing is sent, the timer is left unarmed, and the
completion callback, if one is registered, is called once on this tick. -/
theorem C23_signature_check (s : AVRFlash) (now : Nat) (polls : List (List Nat))
    (hstate : s._progState = AVRProgStates.stateGetSig)
    (hlen : 5 ≤ s.fetchUart.processAcks._responseLen) :
    ((s.timerCB now polls)._progState = AVRProgStates.stateGetVersLo
      ↔ signatureOk s.fetchUart.processAcks._responseBuf = true)
    ∧ (signatureOk s.fetchUart.processAcks._responseBuf = true →
        (s.timerCB now polls).uartTx = s.uartTx ++ [STK_GET_PARAMETER, 0x82, CRC_EOP]
        ∧ (s.timerCB now polls)._responseLen = 0
        ∧ (s.timerCB now polls).timer = some CB_INTERVAL
        ∧ (s.timerCB now polls).calls = s.calls
        ∧ (s.timerCB now polls)._errMessage = s.fetchUart.processAcks._errMessage)
    ∧ (signatureOk s.fetchUart.processAcks._responseBuf = false →
        (s.timerCB now polls)._errMessage = "bad programmer signature: 0x"
        ∧ (s.timerCB now polls)._progState = AVRProgStates.stateGetSig
        ∧ (s.timerCB now polls).timer = s.timer
        ∧ (s.timerCB now polls).uartTx = s.uartTx
        ∧ (s.timerCB now polls).calls = s.calls
            ++ (if s._doneCB ≠ 0 then [(s._doneCB, s._doneCBArg)] else [])
        ∧ (s.timerCB now polls).events = s.events
            ++ (if s._doneCB ≠ 0 then [Event.done s._doneCB s._doneCBArg] else [])) := by
  obtain ⟨a1, a2, a3, a4, a5, a6, a7, a8, a9, a10, a11, a12, a13⟩ :=
    sameOutput_trans (sameOutput_fetchUart s) (sameOutput_processAcks s.fetchUart)
  unfold AVRFlash.timerCB
  simp only [hstate]
  rw [parseResponse_getSig s hstate hlen]
  by_cases hsig : signatureOk s.fetchUart.processAcks._responseBuf = true
  · rw [if_pos hsig]
    simp only []
    refine ⟨⟨fun _ => hsig, fun _ => rfl⟩, fun _ => ⟨?_, rfl, rfl, a8, rfl⟩, ?_⟩
    · simp [AVRFlash.armTimer, AVRFlash.uartWrite, a6, STK_GET_PARAMETER, CRC_EOP]
    · intro h
      rw [hsig] at h
      cases h
  · rw [if_neg hsig]
    simp only []
    have herr : ∀ f : AVRFlash,
        ({ f with _errMessage := "bad programmer signature: 0x" } : AVRFlash).hasError = true := by
      intro f
      rfl
    rw [if_pos (herr _)]
    unfold AVRFlash.checkFinish
    by_cases hcb : s._doneCB ≠ 0
    · have hcb' : s.fetchUart.processAcks._doneCB ≠ 0 := by rw [a4]; exact hcb
      rw [if_pos hcb', if_pos hcb, if_pos hcb]
      refine ⟨⟨fun h => ?_, fun h => absurd h hsig⟩, fun h => absurd h hsig, fun _ => ?_⟩
      · have h' : s.fetchUart.processAcks._progState = AVRProgStates.stateGetVersLo := h
        rw [a11, hstate] at h'
        cases h'
      · refine ⟨rfl, a11.trans hstate, a9, a6, ?_, ?_⟩
        · show s.fetchUart.processAcks.calls ++ _ = _
          rw [a8, a4, a5]
        · show s.fetchUart.processAcks.events ++ _ = _
          rw [a7, a4, a5]
    · have hcb' : ¬ s.fetchUart.processAcks._doneCB ≠ 0 := by rw [a4]; exact hcb
      rw [if_neg hcb', if_neg hcb, if_neg hcb]
      have hne : ∀ f : AVRFlash,
          (!({ f with _errMessage := "bad programmer signature: 0x" } : AVRFlash).hasError)
            = false := by
        intro f
        rfl
      rw [hne, if_neg Bool.false_ne_true, List.append_nil, List.append_nil]
      refine ⟨⟨fun h => ?_, fun h => absurd h hsig⟩, fun h => absurd h hsig, fun _ => ?_⟩
      · have h' : s.fetchUart.processAcks._progState = AVRProgStates.stateGetVersLo := h
        rw [a11, hstate] at h'
        cases h'
      · exact ⟨rfl, a11.trans hstate, a9, a6, a8, a7⟩

/-- C23, witness: the theorem at the engine that has received the signature
0x1e 0x95 0x0f (it moves to `stateGetVersLo` and arms the timer) and at the
engine with callback 3 that has received 0x1e 0x95 0x0e (error, the callback
is called, the timer stays unarmed). -/
theorem C23_signature_check_witness :
    (goodSigEngine.timerCB 160 [])._progState = AVRProgStates.stateGetVersLo
    ∧ (goodSigEngine.timerCB 160 []).timer = some CB_INTERVAL
    ∧ (badSigEngine.timerCB 160 [])._errMessage = "bad programmer signature: 0x"
    ∧ (badSigEngine.timerCB 160 []).timer = none
    ∧ (badSigEngine.timerCB 160 []).events = badSigEngine.events ++ [Event.done 3 4] := by
  have h1 := C23_signature_check goodSigEngine 160 [] (by decide!) (by decide!)
  have h2 := C23_signature_check badSigEngine 160 [] (by decide!) (by decide!)
  have g := h1.2.1 (by decide!)
  have b := h2.2.2 (by decide!)
  refine ⟨h1.1.2 (by decide!), g.2.2.1, b.1, ?_, ?_⟩
  · rw [b.2.2.1]
    decide!
  · rw [b.2.2.2.2.2]
    decide!

/-- C24, counterexample: the page `highPage` of one byte at the byte address
0x20000 (word address 0x10000), programmed by the engine that has finished the
handshake, with the ack to the load-address command arriving during the wait:
`programPage` returns true and sends load-address with the address bytes 0 and
0, which do not make up the word address 65536: the address is cut to the 16
bits of `uint16_t addr`. -/
theorem C24_counterexample :
    highPage.len ≤ idleEngine._pageSz ∧ highPage.addr / 2 = 65536
    ∧ (idleEngine.programPage highPage [[STK_INSYNC, STK_OK]]).1 = true
    ∧ (idleEngine.programPage highPage [[STK_INSYNC, STK_OK]]).2.uartTx
        = idleEngine.uartTx ++ [STK_LOAD_ADDRESS, 0, 0, CRC_EOP]
            ++ [STK_PROG_PAGE, 0, 1, 70] ++ [1] ++ [CRC_EOP]
    ∧ ¬ (0 + 256 * 0 = highPage.addr / 2) := by
  decide!

/-- C24, amended: a page at the byte address `a` with `n` data bytes `d` (each
below 256), `n` not above the page size (a `uint16_t`), programmed when the
ack to the load-address command arrives during the wait.  `programPage`
returns true with the pending-ack flag set, and writes to the UART exactly
load-address, `lo`, `hi`, end-of-command, then program-page, `n / 256`,
`n mod 256`, `F`, the `n` bytes of `d` in order, end-of-command, where
`lo + 256 * hi` is the word address `a / 2` modulo 65536; this is `a / 2`
itself when `a` is below 0x20000. -/
theorem C24_page_transmission (s : AVRFlash) (fp : FlashPage) (polls : List (List Nat))
    (hlen : fp.len ≤ s._pageSz) (hsz : s._pageSz < 65536)
    (hdata : fp.data.length = fp.len) (hbytes : ∀ b ∈ fp.data, b < 256)
    (hack : (AVRFlash.waitAck polls (s.sendLoadAddress fp)).1 = true) :
    (s.programPage fp polls).1 = true
    ∧ (s.programPage fp polls).2._ackWait = true
    ∧ (s.programPage fp polls).2.uartTx
        = s.uartTx ++ [STK_LOAD_ADDRESS, fp.addr / 2 % 256, fp.addr / 2 / 256 % 256, CRC_EOP]
            ++ ([STK_PROG_PAGE, fp.len / 256, fp.len % 256, 70] ++ fp.data ++ [CRC_EOP])
    ∧ fp.addr / 2 % 256 + 256 * (fp.addr / 2 / 256 % 256) = fp.addr / 2 % 65536
    ∧ (fp.addr < 131072 →
        fp.addr / 2 % 256 + 256 * (fp.addr / 2 / 256 % 256) = fp.addr / 2) := by
  obtain ⟨h1, h2, h3⟩ := programPage_ok s fp polls hlen hack
  refine ⟨h1, h3, ?_, by omega, fun h => by omega⟩
  rw [h2, loadCmd_eq, progCmd_eq fp (by omega) hdata hbytes]

/-- C24, witness: the theorem at the page of 16 bytes at 0x0100 (word address
128) and the engine that has finished the handshake, with the ack arriving in
the first round of the wait. -/
theorem C24_page_transmission_witness :
    (idleEngine.programPage { len := 16, addr := 256, data := dataA } [[STK_INSYNC, STK_OK]]).1
      = true
    ∧ (idleEngine.programPage { len := 16, addr := 256, data := dataA }
          [[STK_INSYNC, STK_OK]]).2.uartTx
        = idleEngine.uartTx ++ [STK_LOAD_ADDRESS, 128, 0, CRC_EOP]
            ++ ([STK_PROG_PAGE, 0, 16, 70] ++ dataA ++ [CRC_EOP]) := by
  have h := C24_page_transmission idleEngine { len := 16, addr := 256, data := dataA }
    [[STK_INSYNC, STK_OK]] (by decide!) (by decide!) (by decide) (by decide) (by decide!)
  exact ⟨h.1, h.2.2.1⟩

/-- C25, on the code: `smallFile` written to a fresh parser with a null stop
callback (and resume function 8, argument 9) returns its length 56 and queues
one page, and the record of calls holds one call through the null pointer with
argument 9: `_write` calls `(*_stop)(_stopArg)` without testing `_stop`.  The
resume pointer is tested: the idle tick that takes the only page of an engine
with a null resume callback empties the queue and makes no call. -/
theorem C25_null_stop_is_called :
    ((HexRecord.new 128 []).write smallFile 0 8 9 10).map
        (fun r => (r.1, r.2._lastPage.length, r.2._stop, r.2.calls))
      = some (56, 1, 0, [(0, 9)])
    ∧ nullResumeEngine._resume = 0
    ∧ nullResumeEngine._lastPage.length = 1
    ∧ (nullResumeEngine.tick 175 [[20, 16]])._lastPage = []
    ∧ (nullResumeEngine.tick 175 [[20, 16]]).calls = nullResumeEngine.calls := by
  decide!

/-- C26: `checkSyncAck` on an engine whose response buffer has its 64 bytes
and holds at most 63.  It returns true if and only if, after the pending bytes
are fetched, the buffer holds at least two bytes and the last two are in-sync,
ok, whatever comes before; the buffer is then emptied.  When the last byte is
in-sync it returns false and the buffer is left with that single in-sync byte.
When it returns false otherwise, the buffer keeps its content if that is at
most `RESP_SZ / 2` bytes, and else exactly its last `RESP_SZ / 2` bytes, in
order. -/
theorem C26_sync_ack_detection (s : AVRFlash) (h1 : s._responseBuf.length = RESP_SZ)
    (h2 : s._responseLen ≤ RESP_SZ - 1) :
    (s.checkSyncAck.1 = true ↔
      2 ≤ s.fetchUart._responseLen
        ∧ s.fetchUart._responseBuf.getD (s.fetchUart._responseLen - 2) 0 = STK_INSYNC
        ∧ s.fetchUart._responseBuf.getD (s.fetchUart._responseLen - 1) 0 = STK_OK)
    ∧ (s.checkSyncAck.1 = true → s.checkSyncAck.2._responseLen = 0)
    ∧ (0 < s.fetchUart._responseLen →
        s.fetchUart._responseBuf.getD (s.fetchUart._responseLen - 1) 0 = STK_INSYNC →
        s.checkSyncAck.1 = false ∧ s.checkSyncAck.2._responseLen = 1
          ∧ s.checkSyncAck.2._responseBuf.getD 0 0 = STK_INSYNC)
    ∧ (s.checkSyncAck.1 = false →
        ¬ (0 < s.fetchUart._responseLen
          ∧ s.fetchUart._responseBuf.getD (s.fetchUart._responseLen - 1) 0 = STK_INSYNC) →
        s.checkSyncAck.2._responseLen = min s.fetchUart._responseLen (RESP_SZ / 2)
        ∧ s.checkSyncAck.2._responseBuf.take s.checkSyncAck.2._responseLen
            = (s.fetchUart._responseBuf.take s.fetchUart._responseLen).drop
                (s.fetchUart._responseLen - min s.fetchUart._responseLen (RESP_SZ / 2))) := by
  obtain ⟨g1, g2⟩ := fetchUart_bounds s h1 h2
  have hne : STK_INSYNC ≠ STK_OK := by decide
  have hR : RESP_SZ = 64 := rfl
  unfold AVRFlash.checkSyncAck
  simp only []
  generalize s.fetchUart = f at g1 g2 ⊢
  by_cases c1 : f._responseLen > 0 ∧ f._responseBuf.getD (f._responseLen - 1) 0 = STK_INSYNC
  · rw [if_pos c1]
    refine ⟨⟨(fun h => Bool.noConfusion h), fun h => ?_⟩, (fun h => Bool.noConfusion h), fun _ _ => ⟨rfl, rfl, ?_⟩,
      fun _ h => absurd c1 h⟩
    · rw [c1.2] at h
      exact absurd h.2.2 hne
    · show (f._responseBuf.set 0 STK_INSYNC).getD 0 0 = STK_INSYNC
      rw [getD_set_eq _ _ _ _ (by omega)]
      simp
  · rw [if_neg c1]
    by_cases c2 : f._responseLen > 1
        ∧ f._responseBuf.getD (f._responseLen - 2) 0 = STK_INSYNC
        ∧ f._responseBuf.getD (f._responseLen - 1) 0 = STK_OK
    · rw [if_pos c2]
      refine ⟨⟨fun _ => ⟨by omega, c2.2.1, c2.2.2⟩, fun _ => rfl⟩, fun _ => rfl,
        fun h3 h4 => absurd ⟨h3, h4⟩ c1, (fun h => Bool.noConfusion h)⟩
    · rw [if_neg c2]
      have hno : ¬ (2 ≤ f._responseLen
          ∧ f._responseBuf.getD (f._responseLen - 2) 0 = STK_INSYNC
          ∧ f._responseBuf.getD (f._responseLen - 1) 0 = STK_OK) :=
        fun h => c2 ⟨by omega, h.2.1, h.2.2⟩
      by_cases c3 : f._responseLen > RESP_SZ / 2
      · rw [if_pos c3]
        refine ⟨⟨(fun h => Bool.noConfusion h), fun h => absurd h hno⟩, (fun h => Bool.noConfusion h),
          fun h3 h4 => absurd ⟨h3, h4⟩ c1, fun _ _ => ⟨?_, ?_⟩⟩
        · show RESP_SZ / 2 = min f._responseLen (RESP_SZ / 2)
          omega
        · have hm : min f._responseLen (RESP_SZ / 2) = 32 := by
            rw [hR] at c3 ⊢
            omega
          rw [hm]
          exact keep_last f._responseBuf f._responseLen (by omega) (by rw [hR] at c3; omega)
      · rw [if_neg c3]
        have hm : min f._responseLen (RESP_SZ / 2) = f._responseLen := by omega
        refine ⟨⟨(fun h => Bool.noConfusion h), fun h => absurd h hno⟩, (fun h => Bool.noConfusion h),
          fun h3 h4 => absurd ⟨h3, h4⟩ c1, fun _ _ => ⟨hm.symm, ?_⟩⟩
        rw [hm, Nat.sub_self, List.drop_zero]

/-- C26, witness: the theorem at a new engine that has received a stray byte
and then in-sync, ok: the ack is found behind the stray byte and the buffer is
emptied. -/
theorem C26_sync_ack_detection_witness :
    ackedEngine.fetchUart._responseLen = 3
    ∧ ackedEngine.checkSyncAck.1 = true ∧ ackedEngine.checkSyncAck.2._responseLen = 0 := by
  have h := C26_sync_ack_detection ackedEngine (by decide) (by decide)
  have ht : ackedEngine.checkSyncAck.1 = true := h.1.2 (by decide)
  exact ⟨by decide, ht, h.2.1 ht⟩

/-- C27, on the code: `longFile` (a valid data record of 64 bytes, 139
characters, and an end-of-file record) written to a fresh parser, which has no
error.  The first round of the outer loop fills the accumulation buffer with
the first 128 characters and leaves 24 bytes of input (`stuckParser`).  Every
further round starts with the full buffer, copies nothing, finds the record
incomplete and leaves the inner loop at once: the input still to be taken and
the parser state are the same after the round as before, and the round does
not return.  So `write` does not return, whatever the number of rounds. -/
theorem C27_write_does_not_terminate :
    (HexRecord.new 128 []).hasError = false
    ∧ validRecord (longFile.take 139) = true
    ∧ stuckParser._saved.length = 128 ∧ (longFile.drop 128).length = 24
    ∧ (∀ fuel, (HexRecord.new 128 []).write longFile 7 8 9 (fuel + 1)
        = HexRecord.writeLoop true 152 fuel (longFile.drop 128) stuckParser)
    ∧ (∀ fuel, HexRecord.writeLoop true 152 (fuel + 1) (longFile.drop 128) stuckParser
        = HexRecord.writeLoop true 152 fuel (longFile.drop 128) stuckParser)
    ∧ ¬ ∃ fuel r, (HexRecord.new 128 []).write longFile 7 8 9 fuel = some r := by
  refine ⟨by decide, by decide!, by decide!, by decide!, write_longFile_first,
    writeLoop_stuck_round, ?_⟩
  rintro ⟨fuel, r, h⟩
  rw [write_longFile] at h
  exact absurd h (by simp)

/-- C28, on the code: the buffer `_saved` has 128 bytes.  In the first round of
`_write` on a fresh parser of page size 128 with an input of 128 bytes or more
(here `wideFile`, 324 bytes) the copy fills the indices 0 to 127 and the string
terminator is stored at index 128, one past the end of the buffer.  With a
short input (`smallFile`, 56 bytes) the terminator is stored at index 56. -/
theorem C28_terminator_stored_past_the_buffer :
    SAVED_SZ = 128 ∧ (HexRecord.new 128 [])._pageSz = 128 ∧ wideFile.length = 324
    ∧ (HexRecord.new 128 []).terminatorIndex wideFile = some 128
    ∧ ¬ (128 < SAVED_SZ)
    ∧ (HexRecord.new 128 []).terminatorIndex smallFile = some 56 := by
  decide!

/-- C29: let the parser have page size 128, an open page shorter than 128
bytes, at most 128 characters in the accumulation buffer, and an allocator that
never fails (`PageInv`; the parser made by the constructor of `AVRFlash`
satisfies it, and its page buffer has 128 + 64 = 192 bytes).  Then during
`write`, for every input, every call of `processRecord` is made with a record
of at most 128 characters and an open page of fewer than 128 bytes, it stores
at most 58 data bytes, and every index at which it stores into `_pageBuf` is
less than 192; and the parser that `write` returns satisfies `PageInv` again,
so the same holds for the next `write`. -/
theorem C29_page_buffer_bounds (h : HexRecord) (data : List Nat)
    (stop resume cbArg fuel : Nat) (hi : h.PageInv) :
    (HexRecord.new 128 []).PageInv ∧ (HexRecord.new 128 [])._pageBuf.length = 192
    ∧ (∀ c ∈ h.writeLog data stop resume cbArg fuel,
        c.2 ≤ 128 ∧ c.1._pageLen < 128 ∧ (c.1.storeIndices c.2).length ≤ 58
        ∧ ∀ i ∈ c.1.storeIndices c.2, i < 192)
    ∧ (∀ r, h.write data stop resume cbArg fuel = some r → r.2.PageInv) := by
  obtain ⟨w1, w2⟩ := write_inv h data stop resume cbArg fuel hi
  refine ⟨⟨by decide, rfl, rfl, by decide⟩, rfl, fun c hc => ?_, w2⟩
  obtain ⟨c1, c2, c3⟩ := w1 c hc
  exact ⟨c3, c1.1, storeIndices_length c.1 c.2 c2 c3, storeIndices_bound c.1 c.2 c1 c2 c3⟩

theorem C29_page_buffer_bounds_witness :
    (HexRecord.new 128 []).PageInv
    ∧ ((HexRecord.new 128 []).writeLog wideFile 7 8 9 10).map
        (fun c => (c.2, c.1._pageLen, c.1.storeIndices c.2 == (List.range 48).map (fun i => c.1._pageLen + i)))
      = [(107, 0, true), (107, 48, true), (107, 96, true)]
    ∧ (∀ c ∈ (HexRecord.new 128 []).writeLog wideFile 7 8 9 10,
        c.2 ≤ 128 ∧ c.1._pageLen < 128 ∧ (c.1.storeIndices c.2).length ≤ 58
        ∧ ∀ i ∈ c.1.storeIndices c.2, i < 192)
    ∧ (∀ r, (HexRecord.new 128 []).write wideFile 7 8 9 10 = some r → r.2.PageInv) :=
  ⟨⟨by decide, rfl, rfl, by decide⟩, by decide!,
    (C29_page_buffer_bounds (HexRecord.new 128 []) wideFile 7 8 9 10
      ⟨by decide, rfl, rfl, by decide⟩).2.2⟩

/-- C30: let a text consist of valid records of at most 128 characters and line
terminators (`pre`), then an end-of-file record, then line terminators only,
and let it be written in one `write` to a new parser of page size 128 whose
allocator never fails, with a stop callback that is not null and enough fuel
for the loop of `_write`.  Then `write` returns the length of the text without
an error, no page having been dequeued, and the data bytes of the queued pages,
concatenated in queue order, are the payloads of the type-0 records
concatenated in stream order; the open page is empty, the end-of-file flag is
set, and no null callback was called. -/
theorem C30_data_conservation (pre post : List (List Nat)) (eof : List Nat)
    (stop resume cbArg fuel : Nat)
    (hpre : ∀ t ∈ pre, validToken t = true) (hpost : ∀ t ∈ post, t = [10] ∨ t = [13])
    (heof : validRecord eof = true) (hte : (readRecord eof).type = 1)
    (hfit : eof.length ≤ 128) (hstop : stop ≠ 0)
    (hfuel : (pre ++ [eof] ++ post).flatten.length < fuel) :
    ∃ h2,
      (HexRecord.new 128 []).write (pre ++ [eof] ++ post).flatten stop resume cbArg fuel
        = some ((pre ++ [eof] ++ post).flatten.length, h2)
      ∧ h2.queuedData = payloads (pre ++ [eof] ++ post)
      ∧ h2._pageLen = 0 ∧ h2._eof = true ∧ h2.hasError = false
      ∧ (∀ c ∈ h2.calls, c.1 ≠ 0) := by
  have hpost1 : ∀ t ∈ post, t.length = 1 := by
    intro t ht
    rcases hpost t ht with rfl | rfl <;> rfl
  have hvalid : ∀ t ∈ pre ++ [eof] ++ post, validToken t = true := by
    intro t ht
    simp only [List.mem_append, List.mem_singleton] at ht
    rcases ht with (ht | rfl) | ht
    · exact hpre t ht
    · simp [validToken, heof, hfit]
    · rcases hpost t ht with rfl | rfl <;> decide
  obtain ⟨h2, hw, hcore, hs, hcl⟩ :=
    write_fresh (pre ++ [eof] ++ post) stop resume cbArg fuel hvalid hfuel
  have hle := validRecord_length heof
  have hne : eof.length ≠ 1 := by omega
  obtain ⟨p1, q1⟩ := parseAll_pending pre (HexRecord.new 128 []).core hpre bufInv_new
  obtain ⟨p2, q2, z2, -⟩ :=
    dispatch_pending ((HexRecord.new 128 []).core.parseAll pre) eof heof hfit q1
  obtain ⟨z3, z4⟩ := z2 hte
  have hpar : (HexRecord.new 128 []).core.parseAll (pre ++ [eof] ++ post)
      = (((HexRecord.new 128 []).core.parseAll pre).dispatch (readRecord eof)).2.core := by
    rw [parseAll_append, parseAll_append, parseAll_crlf _ post hpost1]
    simp only [parseAll, if_neg hne]
  rw [hpar] at hcore
  obtain ⟨e1, e2, e3, e4, e5⟩ := parsed_of_core hcore
  have hpay : payloads (pre ++ [eof] ++ post) = payloads pre := by
    rw [payloads_append, payloads_append, payloads_crlf post hpost1]
    have : payloads [eof] = [] := by
      simp [payloads, hte]
    rw [this, List.append_nil, List.append_nil]
  have hnew : (HexRecord.new 128 []).core.pending = [] := by
    simp [HexRecord.pending, HexRecord.queuedData, HexRecord.core, HexRecord.new]
  have e3' : h2._pageLen = 0 := e3.trans z3
  have e5' : h2._eof = true := e5.trans z4
  refine ⟨h2, hw, ?_, e3', e5', hasError_of_sound hs, ?_⟩
  · rw [hpay]
    have hq : h2.queuedData
        = (((HexRecord.new 128 []).core.parseAll pre).dispatch (readRecord eof)).2.pending := by
      simp only [HexRecord.pending, HexRecord.queuedData, e1]
      have hz' : (((HexRecord.new 128 []).core.parseAll pre).dispatch (readRecord eof)).2._pageLen
          = 0 := z3
      rw [hz', List.take_zero, List.append_nil]
    rw [hq, p2, p1, hnew, if_neg (by omega), List.append_nil, List.nil_append]
  · intro c hc
    rw [hcl c hc]
    exact hstop

theorem C30_data_conservation_witness :
    payloads ([recordA, [10], recordC, [10]] ++ [eofRecord] ++ [[10]]) = dataA ++ dataB
    ∧ ∃ h2,
      (HexRecord.new 128 []).write
          ([recordA, [10], recordC, [10]] ++ [eofRecord] ++ [[10]]).flatten 7 8 9 200
        = some (([recordA, [10], recordC, [10]] ++ [eofRecord] ++ [[10]]).flatten.length, h2)
      ∧ h2.queuedData = payloads ([recordA, [10], recordC, [10]] ++ [eofRecord] ++ [[10]])
      ∧ h2._pageLen = 0 ∧ h2._eof = true ∧ h2.hasError = false
      ∧ (∀ c ∈ h2.calls, c.1 ≠ 0) :=
  ⟨by decide!,
    C30_data_conservation [recordA, [10], recordC, [10]] [[10]] eofRecord 7 8 9 200
      (by decide!) (by decide) (by decide!) (by decide!) (by decide!) (by decide) (by decide!)⟩

/-- C31: the invariant `RespInv` of the response buffer says that the buffer
has its `RESP_SZ` = 64 bytes and that `_responseLen` is at most
`RESP_SZ - 1` = 63 (it is a natural number here, so it is not negative).  The
constructor establishes it.  On every engine that satisfies it, with any bytes
waiting on the UART, `fetchUart`, `processAcks`, `checkSyncAck` and
`parseResponse` keep it, and every index at which these functions read or
write `_responseBuf`, the terminator stored at `_responseLen` included, is
below `RESP_SZ`.  Every operation on the engine (`sync`, `abort`, `finish`, a
`write` that returns, bytes reaching the UART, an expiry of the timer) keeps
it, so it holds in every state reached from a new engine. -/
theorem C31_response_buffer_invariant (s : AVRFlash) (hi : s.RespInv) :
    RESP_SZ - 1 = 63
    ∧ (∀ (resetPin baudrate : Int) (heap : List Bool),
        (AVRFlash.new resetPin baudrate heap).RespInv)
    ∧ (∀ bytes, (s.receive bytes).fetchUart.RespInv)
    ∧ s.fetchUart.RespInv ∧ s.processAcks.RespInv
    ∧ s.checkSyncAck.2.RespInv ∧ s.parseResponse.2.RespInv
    ∧ (∀ i ∈ s.fetchUartIndices, i < RESP_SZ)
    ∧ (∀ i ∈ s.processAcksIndices, i < RESP_SZ)
    ∧ (∀ i ∈ s.checkSyncAckIndices, i < RESP_SZ)
    ∧ (∀ i ∈ s.parseResponseIndices, i < RESP_SZ)
    ∧ (∀ op t, s.perform op = some t → t.RespInv)
    ∧ (∀ (resetPin baudrate : Int) (heap : List Bool) (ops : List EngineOp) (t : AVRFlash),
        (AVRFlash.new resetPin baudrate heap).performAll ops = some t → t.RespInv) :=
  ⟨rfl, respInv_new,
    fun _ => respInv_fetchUart _ (respInv_of_eq hi rfl rfl),
    respInv_fetchUart s hi, respInv_processAcks s hi,
    respInv_checkSyncAck s hi, respInv_parseResponse s hi,
    fetchUartIndices_lt s hi, processAcksIndices_lt s hi,
    checkSyncAckIndices_lt s hi, parseResponseIndices_lt s hi,
    fun op t hp => respInv_perform s t op hi hp,
    fun resetPin baudrate heap ops t hp =>
      respInv_performAll ops _ t (respInv_new resetPin baudrate heap) hp⟩

/-- C31, witness: the theorem at a new engine with 100 bytes waiting on the
UART: `fetchUart` stores 63 of them at the indices 0 to 62 and the terminator
at index 63.  A new engine that is synchronising and receives these bytes
keeps the last 32 of the 63 it has fetched. -/
theorem C31_response_buffer_invariant_witness :
    floodedEngine.RespInv
    ∧ floodedEngine.uartRx.length = 100
    ∧ floodedEngine.fetchUartIndices = List.range 64
    ∧ floodedEngine.fetchUart._responseLen = 63
    ∧ floodedEngine.fetchUart.RespInv
    ∧ (∀ i ∈ floodedEngine.fetchUartIndices, i < RESP_SZ)
    ∧ ((AVRFlash.new 5 115200 []).performAll
          [EngineOp.sync, EngineOp.tick 150 [], EngineOp.receive (List.replicate 100 7),
            EngineOp.tick 155 []]).map (fun t => t._responseLen) = some 32
    ∧ (∀ t, (AVRFlash.new 5 115200 []).performAll
          [EngineOp.sync, EngineOp.tick 150 [], EngineOp.receive (List.replicate 100 7),
            EngineOp.tick 155 []] = some t → t.RespInv) := by
  have hi : floodedEngine.RespInv := ⟨by decide!, by decide!⟩
  have h := C31_response_buffer_invariant floodedEngine hi
  exact ⟨hi, by decide!, by decide!, by decide!, h.2.2.2.1, h.2.2.2.2.2.2.2.1, by decide!,
    fun t ht => h.2.2.2.2.2.2.2.2.2.2.2.2 5 115200 [] _ t ht⟩

end EspLink
